import Mathlib

/-!
A shallow embedding of libgit2's multi-pack-index subsystem (`multipack.c`,
`multipack.h`) and of its mapped-window cache (`mwindow.c`), together with
proofs of functional properties of the embedded code.

Modelling conventions:
* C memory holding the mapped file is a function `data : Nat → Nat`; every
  read goes through `byteAt`, which reduces modulo 256 exactly as the
  `unsigned char` view of the mapping does.
* Machine integers are modelled as `Nat`/`Int`; wherever C arithmetic
  truncates (e.g. the `uint32_t` multiplication `num_objects * 20`) the
  model applies the explicit `% 2^32`.
* Fallible C functions returning `int` error codes become `Except String`
  (carrying the `multipack_error` reason string) or `Option`.
* External collaborators that are not part of this repository's sources
  (the hash primitive, `git_pack__lookup_sha1`, `git_oid_ncmp`,
  `git_vector_sort`/`git_vector_uniq`, `git_path_make_relative`,
  `git_pack_foreach_entry_offset`) are modelled from the specification;
  each such definition carries a doc comment saying so.
-/

namespace Multipack

abbrev Bytes := List Nat

/-- One byte of the mapped file, as the C `unsigned char` view of memory. -/
def byteAt (data : Nat → Nat) (p : Nat) : Nat := data p % 256

/-- Big-endian 32-bit read, `ntohl(*(uint32_t *)(data + p))`. -/
def readU32 (data : Nat → Nat) (p : Nat) : Nat :=
  byteAt data p * 2 ^ 24 + byteAt data (p + 1) * 2 ^ 16 +
    byteAt data (p + 2) * 2 ^ 8 + byteAt data (p + 3)

/-- The 64-bit chunk offset: `((off64_t)ntohl(hi)) << 32 | ntohl(lo)`. -/
def readU64 (data : Nat → Nat) (p : Nat) : Nat :=
  readU32 data p * 2 ^ 32 + readU32 data (p + 4)

/-- The `len` bytes starting at `p`. -/
def readBytes (data : Nat → Nat) (p len : Nat) : Bytes :=
  (List.range len).map (fun j => byteAt data (p + j))

/-- `memcmp` on byte lists (values `-1`, `0`, `1`); a strict prefix compares
below, as a NUL terminator does against a longer C string. -/
def memcmpB : Bytes → Bytes → Int
  | [], [] => 0
  | [], _ :: _ => -1
  | _ :: _, [] => 1
  | a :: as, b :: bs => if a < b then -1 else if b < a then 1 else memcmpB as bs

/-- `p_strnlen(data + p, maxlen)`. -/
def strnlenAt (data : Nat → Nat) : Nat → Nat → Nat
  | _, 0 => 0
  | p, m + 1 => if byteAt data p = 0 then 0 else strnlenAt data (p + 1) m + 1

/-- `struct git_multipack_index_chunk`. -/
structure Chunk where
  offset : Nat
  length : Nat
deriving DecidableEq

/-- The in-memory `git_multipack_index_file`: the mapping plus the derived
packfile-name vector and the offsets/counts of the zero-copy views. -/
structure git_multipack_index_file where
  data : Nat → Nat
  size : Nat
  packfile_names : List Bytes
  oid_fanout : Nat
  num_objects : Nat
  oid_lookup : Nat
  object_offsets : Nat
  object_large_offsets : Nat
  num_object_large_offsets : Nat
  checksum : Bytes

/-- `".idx"` as bytes. -/
def idxSuffix : Bytes := [46, 105, 100, 120]

/-- `".pack"` as bytes. -/
def packSuffix : Bytes := [46, 112, 97, 99, 107]

/-- The name-reading loop of `multipack_index_parse_packfile_names`:
advance through the chunk, reading `count` NUL-terminated names. -/
def parseNamesLoop (data : Nat → Nat) :
    Nat → Nat → Nat → Option Bytes → List Bytes → Except String (List Bytes)
  | _, _, 0, _, acc => .ok acc.reverse
  | pos, chunk_size, count + 1, prev, acc =>
    let len := strnlenAt data pos chunk_size
    if len = 0 then .error "empty packfile name"
    else if len + 1 > chunk_size then .error "unterminated packfile name"
    else
      let name := readBytes data pos len
      if (match prev with
          | some q => decide (memcmpB q name ≥ 0)
          | none => false) = true then .error "packfile names are not sorted"
      else if name.length ≤ 4 ∨ name.drop (name.length - 4) ≠ idxSuffix then
        .error "non-.idx packfile name"
      else if 47 ∈ name ∨ 92 ∈ name then .error "non-local packfile"
      else
        parseNamesLoop data (pos + (len + 1)) (chunk_size - (len + 1)) count
          (some name) (name :: acc)

/-- `multipack_index_parse_packfile_names`. -/
def multipack_index_parse_packfile_names (data : Nat → Nat) (packfiles : Nat)
    (chunk : Chunk) : Except String (List Bytes) :=
  if chunk.offset = 0 then .error "missing Packfile Names chunk"
  else if chunk.length = 0 then .error "empty Packfile Names chunk"
  else parseNamesLoop data chunk.offset chunk.length packfiles none []

/-- The monotonicity loop of `multipack_index_parse_oid_fanout`; returns the
running maximum, which after 256 steps is `idx->num_objects`. -/
def fanoutLoop (data : Nat → Nat) : Nat → Nat → Nat → Except String Nat
  | _, 0, nr => .ok nr
  | p, k + 1, nr =>
    let n := readU32 data p
    if n < nr then .error "index is non-monotonic"
    else fanoutLoop data (p + 4) k n

/-- `multipack_index_parse_oid_fanout`; yields `num_objects`. -/
def multipack_index_parse_oid_fanout (data : Nat → Nat) (chunk : Chunk) :
    Except String Nat :=
  if chunk.offset = 0 then .error "missing OID Fanout chunk"
  else if chunk.length = 0 then .error "empty OID Fanout chunk"
  else if chunk.length ≠ 256 * 4 then .error "OID Fanout chunk has wrong length"
  else fanoutLoop data chunk.offset 256 0

/-- The OID stored at index `i` of a lookup table at offset `off`. -/
def oidAt (data : Nat → Nat) (off i : Nat) : Bytes :=
  readBytes data (off + 20 * i) 20

/-- The strict-ascent loop of `multipack_index_parse_oid_lookup`. -/
def oidLookupLoop (data : Nat → Nat) (off : Nat) : Nat → Nat → Bytes → Except String Unit
  | _, 0, _ => .ok ()
  | i, k + 1, prev =>
    let cur := oidAt data off i
    if memcmpB prev cur ≥ 0 then .error "OID Lookup index is non-monotonic"
    else oidLookupLoop data off (i + 1) k cur

/-- `multipack_index_parse_oid_lookup`. The C multiplication
`num_objects * 20` is `uint32_t` arithmetic, hence the `% 2 ^ 32`. -/
def multipack_index_parse_oid_lookup (data : Nat → Nat) (num_objects : Nat)
    (chunk : Chunk) : Except String Unit :=
  if chunk.offset = 0 then .error "missing OID Lookup chunk"
  else if chunk.length = 0 then .error "empty OID Lookup chunk"
  else if chunk.length ≠ num_objects * 20 % 2 ^ 32 then
    .error "OID Lookup chunk has wrong length"
  else oidLookupLoop data chunk.offset 0 num_objects (List.replicate 20 0)

/-- `multipack_index_parse_object_offsets`. -/
def multipack_index_parse_object_offsets (num_objects : Nat) (chunk : Chunk) :
    Except String Unit :=
  if chunk.offset = 0 then .error "missing Object Offsets chunk"
  else if chunk.length = 0 then .error "empty Object Offsets chunk"
  else if chunk.length ≠ num_objects * 8 % 2 ^ 32 then
    .error "Object Offsets chunk has wrong length"
  else .ok ()

/-- `multipack_index_parse_object_large_offsets`; yields
`(object_large_offsets, num_object_large_offsets)`. -/
def multipack_index_parse_object_large_offsets (chunk : Chunk) :
    Except String (Nat × Nat) :=
  if chunk.length = 0 then .ok (0, 0)
  else if chunk.length % 8 ≠ 0 then .error "malformed Object Large Offsets chunk"
  else .ok (chunk.offset, chunk.length / 8)

/-- Which of the five chunk slots `last_chunk` points at. -/
inductive Slot where
  | pnam | oidf | oidl | ooff | loff
deriving DecidableEq

/-- The five local `struct git_multipack_index_chunk` variables of
`git_multipack_index_parse`. -/
structure ChunkSet where
  packfile_names : Chunk
  oid_fanout : Chunk
  oid_lookup : Chunk
  object_offsets : Chunk
  object_large_offsets : Chunk
deriving DecidableEq

def emptyChunkSet : ChunkSet :=
  ⟨⟨0, 0⟩, ⟨0, 0⟩, ⟨0, 0⟩, ⟨0, 0⟩, ⟨0, 0⟩⟩

def ChunkSet.setOffset (cs : ChunkSet) : Slot → Nat → ChunkSet
  | .pnam, o => { cs with packfile_names := { cs.packfile_names with offset := o } }
  | .oidf, o => { cs with oid_fanout := { cs.oid_fanout with offset := o } }
  | .oidl, o => { cs with oid_lookup := { cs.oid_lookup with offset := o } }
  | .ooff, o => { cs with object_offsets := { cs.object_offsets with offset := o } }
  | .loff, o => { cs with object_large_offsets := { cs.object_large_offsets with offset := o } }

def ChunkSet.setLength (cs : ChunkSet) : Slot → Nat → ChunkSet
  | .pnam, n => { cs with packfile_names := { cs.packfile_names with length := n } }
  | .oidf, n => { cs with oid_fanout := { cs.oid_fanout with length := n } }
  | .oidl, n => { cs with oid_lookup := { cs.oid_lookup with length := n } }
  | .ooff, n => { cs with object_offsets := { cs.object_offsets with length := n } }
  | .loff, n => { cs with object_large_offsets := { cs.object_large_offsets with length := n } }

def slotOfId (id : Nat) : Option Slot :=
  if id = 0x504e414d then some .pnam
  else if id = 0x4f494446 then some .oidf
  else if id = 0x4f49444c then some .oidl
  else if id = 0x4f4f4646 then some .ooff
  else if id = 0x4c4f4646 then some .loff
  else none

/-- The chunk-table loop of `git_multipack_index_parse`: `count` entries of
12 bytes each starting at `pos`; carries `last_chunk_offset` and the slot
`last_chunk` points at.  Yields the chunk set, the final
`last_chunk_offset` and `last_chunk`. -/
def chunkTableLoop (data : Nat → Nat) (trailer_offset : Nat) :
    Nat → Nat → Nat → Option Slot → ChunkSet →
    Except String (ChunkSet × Nat × Option Slot)
  | 0, _, last_off, last, cs => .ok (cs, last_off, last)
  | count + 1, pos, last_off, last, cs =>
    let chunk_offset := readU64 data (pos + 4)
    if chunk_offset < last_off then .error "chunks are non-monotonic"
    else if trailer_offset ≤ chunk_offset then
      .error "chunks extend beyond the trailer"
    else
      let cs := match last with
        | some s => cs.setLength s (chunk_offset - last_off)
        | none => cs
      match slotOfId (readU32 data pos) with
      | some s =>
          chunkTableLoop data trailer_offset count (pos + 12) chunk_offset
            (some s) (cs.setOffset s chunk_offset)
      | none => .error "unrecognized chunk ID"

/-- `git_multipack_index_parse`, parameterised by the external hash
collaborator `hashFn : bytes → 20-byte digest`. -/
def git_multipack_index_parse (hashFn : Bytes → Bytes) (data : Nat → Nat)
    (size : Nat) : Except String git_multipack_index_file :=
  if size < 12 + 20 then .error "multi-pack index is too short"
  else if readU32 data 0 ≠ 0x4d494458 ∨ byteAt data 4 ≠ 1 ∨ byteAt data 5 ≠ 1 then
    .error "unsupported multi-pack index version"
  else if byteAt data 6 = 0 then .error "no chunks in multi-pack index"
  else
    let chunks := byteAt data 6
    let packfiles := readU32 data 8
    let last_chunk_offset := 12 + (1 + chunks) * 12
    let trailer_offset := size - 20
    if trailer_offset < last_chunk_offset then .error "wrong index size"
    else
      let checksum := readBytes data trailer_offset 20
      if hashFn (readBytes data 0 trailer_offset) ≠ checksum then
        .error "index signature mismatch"
      else
        match chunkTableLoop data trailer_offset chunks 12 last_chunk_offset
            none emptyChunkSet with
        | .error e => .error e
        | .ok (cs, last_off, last) =>
          match last with
          | none => .error "no chunks in multi-pack index"
          | some s =>
            let cs := cs.setLength s (trailer_offset - last_off)
            match multipack_index_parse_packfile_names data packfiles
                cs.packfile_names with
            | .error e => .error e
            | .ok names =>
              match multipack_index_parse_oid_fanout data cs.oid_fanout with
              | .error e => .error e
              | .ok num_objects =>
                match multipack_index_parse_oid_lookup data num_objects
                    cs.oid_lookup with
                | .error e => .error e
                | .ok () =>
                  match multipack_index_parse_object_offsets num_objects
                      cs.object_offsets with
                  | .error e => .error e
                  | .ok () =>
                    match multipack_index_parse_object_large_offsets
                        cs.object_large_offsets with
                    | .error e => .error e
                    | .ok (large_off, num_large) =>
                      .ok { data := data
                            size := size
                            packfile_names := names
                            oid_fanout := cs.oid_fanout.offset
                            num_objects := num_objects
                            oid_lookup := cs.oid_lookup.offset
                            object_offsets := cs.object_offsets.offset
                            object_large_offsets := large_off
                            num_object_large_offsets := num_large
                            checksum := checksum }

/-- `struct git_multipack_entry`. -/
structure git_multipack_entry where
  pack_index : Nat
  offset : Nat
  sha1 : Bytes
deriving DecidableEq

/-- Result of `git_multipack_index_entry_find` (`0`, `GIT_ENOTFOUND`,
`GIT_EAMBIGUOUS` or the `-1` of `multipack_error`, with reason strings). -/
inductive FindResult where
  | found (e : git_multipack_entry)
  | notFound (msg : String)
  | ambiguous (msg : String)
  | err (msg : String)
deriving DecidableEq

/-- The OID at index `i` of `idx->oid_lookup`. -/
def midxOidAt (m : git_multipack_index_file) (i : Nat) : Bytes :=
  oidAt m.data m.oid_lookup i

/-- Modelled from the spec: `git_pack__lookup_sha1` (declared in `pack.h`,
defined outside this repository slice) binary-searches `OIDL[lo..hi]` for the
key; a hit returns its index, a miss returns `-1 - insertion_position`. -/
def git_pack__lookup_sha1 (m : git_multipack_index_file) (lo hi : Nat)
    (key : Bytes) : Int :=
  match (List.range' lo (hi - lo)).find? (fun j => midxOidAt m j = key) with
  | some j => (j : Int)
  | none =>
    -1 - (lo + ((List.range' lo (hi - lo)).filter
        (fun j => memcmpB (midxOidAt m j) key < 0)).length : Int)

/-- Modelled from the spec: `git_oid_ncmp(a, b, len) == 0` holds when the two
ids share their first `len` hex nibbles: their first `len / 2` bytes agree
and, for odd `len`, so does the high nibble of the following byte. -/
def oidNcmpEq (a b : Bytes) (len : Nat) : Bool :=
  ((List.range (len / 2)).all (fun j => a.getD j 0 = b.getD j 0)) &&
    (len % 2 = 0 || a.getD (len / 2) 0 / 16 = b.getD (len / 2) 0 / 16)

/-- The binary-search position of `git_multipack_index_entry_find`: the
fanout slice `[lo, hi)` for the query id's first byte, searched by
`git_pack__lookup_sha1`. -/
def findPos (m : git_multipack_index_file) (short_oid : Bytes) : Int :=
  let b0 := short_oid.getD 0 0
  let hi := readU32 m.data (m.oid_fanout + 4 * b0)
  let lo := if b0 = 0 then 0 else readU32 m.data (m.oid_fanout + 4 * (b0 - 1))
  git_pack__lookup_sha1 m lo hi short_oid

/-- `git_multipack_index_entry_find`.  `short_oid` is the padded query id and
`len` its length in nibbles. -/
def git_multipack_index_entry_find (m : git_multipack_index_file)
    (short_oid : Bytes) (len : Nat) : FindResult :=
  let pos := findPos m short_oid
  let p : Nat := if 0 ≤ pos then pos.toNat else (-1 - pos).toNat
  let found : Nat :=
    if 0 ≤ pos then 1
    else if p < m.num_objects ∧ oidNcmpEq short_oid (midxOidAt m p) len = true then 1
    else 0
  let found :=
    if found = 1 ∧ len ≠ 40 ∧ p + 1 < m.num_objects ∧
        oidNcmpEq short_oid (midxOidAt m (p + 1)) len = true then 2
    else found
  if found = 0 then
    .notFound "failed to find offset for multi-pack index entry"
  else if 1 < found then
    .ambiguous "found multiple offsets for multi-pack index entry"
  else
    let offRaw := readU32 m.data (m.object_offsets + 8 * p + 4)
    let offRes : Except FindResult Nat :=
      if 2 ^ 31 ≤ offRaw then
        let lpos := offRaw % 2 ^ 31
        if m.num_object_large_offsets ≤ lpos then
          .error (.notFound "invalid index into the object large offsets table")
        else
          .ok (readU32 m.data (m.object_large_offsets + 8 * lpos) * 2 ^ 32 +
            readU32 m.data (m.object_large_offsets + 8 * lpos + 4))
      else .ok offRaw
    match offRes with
    | .error r => r
    | .ok offset =>
      let pack_index := readU32 m.data (m.object_offsets + 8 * p)
      if m.packfile_names.length ≤ pack_index then
        .err "invalid index into the packfile names table"
      else
        .found ⟨pack_index, offset, midxOidAt m p⟩

/-- The loop of `git_multipack_index_foreach_entry`; the accumulator is the
possibly-still-uninitialised local `error` (`none` = uninitialised). -/
def foreachLoop (m : git_multipack_index_file) (cb : Bytes → Int) :
    List Nat → Option Int → Option Int
  | [], acc => acc
  | i :: rest, _ =>
    let e := cb (midxOidAt m i)
    if e ≠ 0 then some e else foreachLoop m cb rest (some 0)

/-- `git_multipack_index_foreach_entry`; a non-zero callback result is
surfaced verbatim (`git_error_set_after_callback` returns its argument);
`none` models returning the uninitialised `error`. -/
def git_multipack_index_foreach_entry (m : git_multipack_index_file)
    (cb : Bytes → Int) : Option Int :=
  foreachLoop m cb (List.range m.num_objects) none

/-- `git_multipack_index_needs_refresh`; the on-disk file is `none` when it
cannot be opened or stat'ed.  Note the final comparison of the C code:
it returns `true` when the trailer EQUALS the in-memory checksum
(`git_oid_cmp(...) == 0`). -/
def git_multipack_index_needs_refresh (m : git_multipack_index_file)
    (file : Option Bytes) : Bool :=
  match file with
  | none => true
  | some bs =>
    if bs.length ≠ m.size then true
    else if bs.length < 20 then true
    else decide ((bs.drop (bs.length - 20)).map (· % 256) = m.checksum)

/-- The pack index stored in `OOFF[i]` (first four bytes). -/
def midxPackAt (m : git_multipack_index_file) (i : Nat) : Nat :=
  readU32 m.data (m.object_offsets + 8 * i)

/-- The raw 4-byte offset field of `OOFF[i]`. -/
def midxRawOffsetAt (m : git_multipack_index_file) (i : Nat) : Nat :=
  readU32 m.data (m.object_offsets + 8 * i + 4)

/-- The decoded offset of entry `i`: a set high bit routes through the
large-offsets table, a clear high bit is the literal 31-bit offset. -/
def midxOffsetAt (m : git_multipack_index_file) (i : Nat) : Nat :=
  if 2 ^ 31 ≤ midxRawOffsetAt m i then
    readU32 m.data (m.object_large_offsets + 8 * (midxRawOffsetAt m i % 2 ^ 31)) * 2 ^ 32 +
      readU32 m.data (m.object_large_offsets + 8 * (midxRawOffsetAt m i % 2 ^ 31) + 4)
  else midxRawOffsetAt m i

/-- The padded query id for a `len`-nibble lookup: the first `len` nibbles
of `o` followed by zero nibbles, re-packed into 20 bytes. -/
def padOid (o : Bytes) (len : Nat) : Bytes :=
  (List.range 20).map (fun j =>
    if 2 * j + 2 ≤ len then o.getD j 0
    else if 2 * j + 1 ≤ len then o.getD j 0 / 16 * 16
    else 0)

/-- A default (empty) index file, used only to totalise `midxOf`. -/
def defaultMidx : git_multipack_index_file :=
  ⟨fun _ => 0, 0, [], 0, 0, 0, 0, 0, 0, []⟩

/-- Whether parsing succeeds. -/
def parseOk (hashFn : Bytes → Bytes) (data : Nat → Nat) (size : Nat) : Bool :=
  match git_multipack_index_parse hashFn data size with
  | .ok _ => true
  | .error _ => false

/-- The parsed index (or `defaultMidx` on failure). -/
def midxOf (hashFn : Bytes → Bytes) (data : Nat → Nat) (size : Nat) :
    git_multipack_index_file :=
  match git_multipack_index_parse hashFn data size with
  | .ok m => m
  | .error _ => defaultMidx

/-- The error message parsing produces (or `""` on success). -/
def parseErrorMsg (hashFn : Bytes → Bytes) (data : Nat → Nat) (size : Nat) :
    String :=
  match git_multipack_index_parse hashFn data size with
  | .ok _ => ""
  | .error e => e

/-- The first non-zero element of a list, or `0`. -/
def firstNonzeroOr0 (l : List Int) : Int :=
  match l.find? (fun e => decide (e ≠ 0)) with
  | some e => e
  | none => 0

/-- Fanout consistency: slot `b` of the fanout view holds the number of
stored ids whose first byte is `≤ b`.  The parser does NOT enforce this. -/
def fanoutConsistent (m : git_multipack_index_file) : Bool :=
  (List.range 256).all (fun b =>
    readU32 m.data (m.oid_fanout + 4 * b) =
      ((List.range m.num_objects).filter
        (fun i => (midxOidAt m i).getD 0 0 ≤ b)).length)

/-! ### The writer (`git_multipack_index_writer_dump`) -/

/-- Big-endian serialisation of a `uint32_t` (`htonl`). -/
def u32be (x : Nat) : Bytes :=
  [x / 2 ^ 24 % 256, x / 2 ^ 16 % 256, x / 2 ^ 8 % 256, x % 256]

/-- `write_offset`: the two big-endian words `offset >> 32` and
`offset & 0xffffffff`. -/
def u64be (x : Nat) : Bytes := u32be (x / 2 ^ 32) ++ u32be x

/-- `write_chunk_header`: the chunk id word followed by the offset. -/
def chunkHeader (id off : Nat) : Bytes := u32be id ++ u64be off

/-- Modelled from the spec: `struct git_pack_file` as the writer uses it —
`pack_name` is the packfile name relative to the writer's `pack_dir`
(`git_path_make_relative` is path arithmetic outside this repository
slice; with every pack under `pack_dir`, `strcmp` on the absolute names
orders them exactly as on these relative names), and `entries` the
`(oid, offset)` pairs `git_pack_foreach_entry_offset` reports, in
callback order. -/
structure git_pack_file where
  pack_name : Bytes
  entries : List (Bytes × Nat)
deriving DecidableEq

/-- Modelled from the spec: `git_vector_sort(&w->packs)` with
`packfile__cmp` = `strcmp` on pack names; on NUL-free names `strcmp`
orders exactly like `memcmpB`.  A comparison sort; with pairwise
distinct keys every comparison sort yields this list. -/
def sortPacks (packs : List git_pack_file) : List git_pack_file :=
  List.insertionSort (fun a b => memcmpB a.pack_name b.pack_name ≤ 0) packs

/-- The entry-collection loop of the writer: for the pack at index `i`,
`object_entry__cb` records each `(oid, offset)` as a
`git_multipack_entry` with `pack_index = i`. -/
def collectEntries : List git_pack_file → Nat → List git_multipack_entry
  | [], _ => []
  | p :: rest, i =>
    p.entries.map (fun e => ⟨i, e.2, e.1⟩) ++ collectEntries rest (i + 1)

/-- Modelled from the spec: `git_vector_sort(&object_entries)` with
`object_entry__cmp` = `git_oid_cmp` on `sha1`. -/
def sortEntries (es : List git_multipack_entry) : List git_multipack_entry :=
  List.insertionSort (fun a b => memcmpB a.sha1 b.sha1 ≤ 0) es

/-- Modelled from the spec: `git_vector_uniq` drops adjacent
`git_oid_cmp`-equal entries, keeping the LAST of each run (the vendored
vector overwrites `contents[i]` with each later equal element). -/
def vectorUniq : List git_multipack_entry → List git_multipack_entry
  | [] => []
  | [e] => [e]
  | e1 :: e2 :: rest =>
    if memcmpB e1.sha1 e2.sha1 = 0 then vectorUniq (e2 :: rest)
    else e1 :: vectorUniq (e2 :: rest)

/-- The writer's name check: `path_len <= strlen(".pack")` or a failed
`git__suffixcmp(name, ".pack")` aborts the dump. -/
def packNameOk (name : Bytes) : Bool :=
  decide (5 < name.length) &&
    decide (name.drop (name.length - 5) = packSuffix)

/-- The `".pack"` → `".idx"` rename the writer applies to each name. -/
def idxName (name : Bytes) : Bytes :=
  name.take (name.length - 5) ++ idxSuffix

/-- The name loop of the writer: append `stem ++ ".idx" ++ NUL` per pack,
aborting the whole dump (`goto cleanup` with `error` still 0) on the
first name that does not end in `".pack"`. -/
def buildNames : List git_pack_file → Option Bytes
  | [] => some []
  | p :: rest =>
    if packNameOk p.pack_name then
      match buildNames rest with
      | some bs => some ((idxName p.pack_name ++ [0]) ++ bs)
      | none => none
    else none

/-- "Pad the packfile names so it is a multiple of four." -/
def pad4 (bs : Bytes) : Bytes :=
  bs ++ List.replicate ((4 - bs.length % 4) % 4) 0

/-- The fanout fill: slot `i` receives the running count after consuming
every remaining entry whose first oid byte is `≤ i`. -/
def fanoutGo : Nat → List git_multipack_entry → Nat → Nat → Bytes
  | 0, _, _, _ => []
  | k + 1, es, cnt, i =>
    let t := es.takeWhile (fun e => e.sha1.getD 0 0 ≤ i)
    u32be (cnt + t.length) ++
      fanoutGo k (es.drop t.length) (cnt + t.length) (i + 1)

/-- The 1024-byte OID Fanout table of the writer. -/
def oidfBytes (es : List git_multipack_entry) : Bytes := fanoutGo 256 es 0 0

/-- The Object Offsets / Object Large Offsets fill: an entry at offset
`≥ 0x80000000` stores `0x80000000 | object_large_offsets_count++` (the
OR sets bit 31 of the `uint32_t` counter, written here arithmetically)
and appends the 8-byte offset to LOFF; a small offset stores
`offset & 0x7fffffff` directly. -/
def offsetsGo : List git_multipack_entry → Nat → Bytes × Bytes
  | [], _ => ([], [])
  | e :: rest, lcnt =>
    if 2 ^ 31 ≤ e.offset then
      let word :=
        if lcnt % 2 ^ 32 < 2 ^ 31 then 2 ^ 31 + lcnt % 2 ^ 32
        else lcnt % 2 ^ 32
      let r := offsetsGo rest (lcnt + 1)
      (u32be e.pack_index ++ u32be word ++ r.1, u64be e.offset ++ r.2)
    else
      let r := offsetsGo rest lcnt
      (u32be e.pack_index ++ u32be (e.offset % 2 ^ 31) ++ r.1, r.2)

/-- The 12-byte header: signature, version 1, oid version 1, chunk count,
`base_midx_files = 0`, packfile count. -/
def dumpHeader (chunks P : Nat) : Bytes :=
  [77, 73, 68, 88, 1, 1, chunks % 256, 0] ++ u32be P

/-- The sorted, deduplicated entry list the writer serialises. -/
def dumpEntries (packs : List git_pack_file) : List git_multipack_entry :=
  vectorUniq (sortEntries (collectEntries (sortPacks packs) 0))

/-- `git_multipack_index_writer_dump`, parameterised by the hash
collaborator.  Returns the bytes of the output buffer; note that a pack
name not ending in `".pack"` aborts with `error = 0`, leaving the buffer
EMPTY. -/
def git_multipack_index_writer_dump (hashFn : Bytes → Bytes)
    (packs : List git_pack_file) : Bytes :=
  let sorted := sortPacks packs
  match buildNames sorted with
  | none => []
  | some names0 =>
    let entries := vectorUniq (sortEntries (collectEntries sorted 0))
    let names := pad4 names0
    let oidf := oidfBytes entries
    let oidl := entries.flatMap (fun e => e.sha1)
    let ol := offsetsGo entries 0
    let chunks := if 0 < ol.2.length then 5 else 4
    let off0 := 12 + (chunks + 1) * 12
    let table :=
      chunkHeader 0x504e414d off0 ++
      chunkHeader 0x4f494446 (off0 + names.length) ++
      chunkHeader 0x4f49444c (off0 + names.length + 1024) ++
      chunkHeader 0x4f4f4646 (off0 + names.length + 1024 + oidl.length) ++
      (if 0 < ol.2.length then
        chunkHeader 0x4c4f4646
          (off0 + names.length + 1024 + oidl.length + ol.1.length)
      else []) ++
      chunkHeader 0
        (off0 + names.length + 1024 + oidl.length + ol.1.length + ol.2.length)
    let pre := dumpHeader chunks packs.length ++ table ++ names ++ oidf ++
      oidl ++ ol.1 ++ ol.2
    pre ++ hashFn pre

/-- The byte function backing a concrete buffer (reads past the end give
0, like fresh pages; every in-range read is the stored byte). -/
def bytesData (bs : Bytes) : Nat → Nat := fun i => bs.getD i 0

/-- `data` holds exactly the bytes `bs` starting at `pos` (each compared
through the `unsigned char` view, i.e. modulo 256). -/
def matchesAt (data : Nat → Nat) (pos : Nat) (bs : Bytes) : Prop :=
  ∀ j, j < bs.length → data (pos + j) % 256 = bs.getD j 0 % 256

/-- Number of large-offset entries (those routed through LOFF). -/
def largeCount (es : List git_multipack_entry) : Nat :=
  (es.filter (fun e => 2 ^ 31 ≤ e.offset)).length

/-- Number of large-offset entries strictly before position `i`. -/
def largeBefore (es : List git_multipack_entry) (i : Nat) : Nat :=
  largeCount (es.take i)

/-- The PNAM chunk content before padding: each name NUL-terminated. -/
def namesFlat (ns : List Bytes) : Bytes := ns.flatMap (fun n => n ++ [0])

/-- The `".idx"` names of the sorted packs, in PNAM order. -/
def sortedNames (packs : List git_pack_file) : List Bytes :=
  (sortPacks packs).map (fun p => idxName p.pack_name)

/-- The padded PNAM chunk of the dump. -/
def dumpNames (packs : List git_pack_file) : Bytes :=
  pad4 (namesFlat (sortedNames packs))

/-- The OIDF chunk of the dump. -/
def dumpOidf (packs : List git_pack_file) : Bytes :=
  oidfBytes (dumpEntries packs)

/-- The OIDL chunk of the dump. -/
def dumpOidl (packs : List git_pack_file) : Bytes :=
  (dumpEntries packs).flatMap (fun e => e.sha1)

/-- The OOFF chunk of the dump. -/
def dumpOoff (packs : List git_pack_file) : Bytes :=
  (offsetsGo (dumpEntries packs) 0).1

/-- The LOFF chunk of the dump (possibly empty). -/
def dumpLoff (packs : List git_pack_file) : Bytes :=
  (offsetsGo (dumpEntries packs) 0).2

/-- The chunk count of the dump header. -/
def dumpChunkCount (packs : List git_pack_file) : Nat :=
  if 0 < (dumpLoff packs).length then 5 else 4

/-- The offset of the PNAM chunk (end of header plus chunk table). -/
def dumpOff0 (packs : List git_pack_file) : Nat :=
  12 + (dumpChunkCount packs + 1) * 12

/-- The chunk lookup table of the dump. -/
def dumpTable (packs : List git_pack_file) : Bytes :=
  chunkHeader 0x504e414d (dumpOff0 packs) ++
  chunkHeader 0x4f494446 (dumpOff0 packs + (dumpNames packs).length) ++
  chunkHeader 0x4f49444c
    (dumpOff0 packs + (dumpNames packs).length + 1024) ++
  chunkHeader 0x4f4f4646
    (dumpOff0 packs + (dumpNames packs).length + 1024 +
      (dumpOidl packs).length) ++
  (if 0 < (dumpLoff packs).length then
    chunkHeader 0x4c4f4646
      (dumpOff0 packs + (dumpNames packs).length + 1024 +
        (dumpOidl packs).length + (dumpOoff packs).length)
  else []) ++
  chunkHeader 0
    (dumpOff0 packs + (dumpNames packs).length + 1024 +
      (dumpOidl packs).length + (dumpOoff packs).length +
      (dumpLoff packs).length)

/-- Everything before the trailer digest of the dump. -/
def dumpPre (packs : List git_pack_file) : Bytes :=
  dumpHeader (dumpChunkCount packs) packs.length ++ dumpTable packs ++
    dumpNames packs ++ dumpOidf packs ++ dumpOidl packs ++ dumpOoff packs ++
    dumpLoff packs

/-- The index that parsing a successful dump yields (proved in the C1
development): field values read straight off the dump layout. -/
def dumpMidx (hashFn : Bytes → Bytes) (packs : List git_pack_file) :
    git_multipack_index_file :=
  { data := bytesData (git_multipack_index_writer_dump hashFn packs)
    size := (git_multipack_index_writer_dump hashFn packs).length
    packfile_names := sortedNames packs
    oid_fanout := dumpOff0 packs + (dumpNames packs).length
    num_objects := (dumpEntries packs).length
    oid_lookup := dumpOff0 packs + (dumpNames packs).length + 1024
    object_offsets := dumpOff0 packs + (dumpNames packs).length + 1024 +
      (dumpOidl packs).length
    object_large_offsets :=
      if 0 < (dumpLoff packs).length then
        dumpOff0 packs + (dumpNames packs).length + 1024 +
          (dumpOidl packs).length + (dumpOoff packs).length
      else 0
    num_object_large_offsets := largeCount (dumpEntries packs)
    checksum := hashFn (dumpPre packs) }

/-- A valid input pack for the C9 instances: `"a.pack"`, one entry. -/
def packGoodC9 : git_pack_file :=
  ⟨[97, 46, 112, 97, 99, 107], [([5] ++ List.replicate 18 0 ++ [1], 77)]⟩

/-- An invalid input pack for the C9 instances: its name `"b.idx"` does
not end in `".pack"`. -/
def packBadC9 : git_pack_file :=
  ⟨[98, 46, 105, 100, 120], [(List.replicate 19 0 ++ [2], 88)]⟩

/-- A valid input pack for the C1 instances: `"x.p.pack"`, one entry.
Its name precedes `"x.pack"` in `strcmp` order, but the derived
`".idx"` name `"x.p.idx"` FOLLOWS `"x.idx"`. -/
def packXP : git_pack_file :=
  ⟨[120, 46, 112, 46, 112, 97, 99, 107], [([1] ++ List.replicate 19 0, 10)]⟩

/-- A valid input pack for the C1 instances: `"x.pack"`, one entry. -/
def packX : git_pack_file :=
  ⟨[120, 46, 112, 97, 99, 107], [([2] ++ List.replicate 19 0, 11)]⟩

/-! ### Concrete images (used to instantiate theorems)

All concrete images use the abstract hash collaborator instantiated as the
constant function `hashC`. -/

/-- A concrete instance of the hash collaborator. -/
def hashC : Bytes → Bytes := fun _ => List.replicate 20 0

/-- Chunk table of `imageA`: PNAM@84, OIDF@90, OIDL@1114, OOFF@1154,
LOFF@1170, terminator@1178. -/
def chunkTableA : Bytes :=
  [80, 78, 65, 77, 0, 0, 0, 0, 0, 0, 0, 84,
   79, 73, 68, 70, 0, 0, 0, 0, 0, 0, 0, 90,
   79, 73, 68, 76, 0, 0, 0, 0, 0, 0, 4, 90,
   79, 79, 70, 70, 0, 0, 0, 0, 0, 0, 4, 130,
   76, 79, 70, 70, 0, 0, 0, 0, 0, 0, 4, 146,
   0, 0, 0, 0, 0, 0, 0, 0, 0, 0, 4, 154]

/-- OID lookup table of `imageA`: two ids, first bytes `0` and `5`. -/
def oidlA : Bytes :=
  List.replicate 19 0 ++ [1, 5] ++ List.replicate 18 0 ++ [2]

/-- `imageA`: one packfile `a.idx`, two objects (the second with a large
offset `2^31 + 7` routed through LOFF), consistent fanout, 1198 bytes. -/
def imageAData : Nat → Nat := fun i =>
  if i < 12 then [77, 73, 68, 88, 1, 1, 5, 0, 0, 0, 0, 1].getD i 0
  else if i < 84 then chunkTableA.getD (i - 12) 0
  else if i < 90 then [97, 46, 105, 100, 120, 0].getD (i - 84) 0
  else if i < 1114 then
    (if (i - 90) % 4 = 3 then (if (i - 90) / 4 < 5 then 1 else 2) else 0)
  else if i < 1154 then oidlA.getD (i - 1114) 0
  else if i < 1170 then
    [0, 0, 0, 0, 0, 0, 0, 100, 0, 0, 0, 0, 128, 0, 0, 0].getD (i - 1154) 0
  else if i < 1178 then [0, 0, 0, 0, 128, 0, 0, 7].getD (i - 1170) 0
  else 0

/-- The bytes of `imageA` as a list (the on-disk file contents). -/
def imageABytes : Bytes := (List.range 1198).map imageAData

/-- Chunk table of `imageC7`: PNAM@84, OIDF@90, OIDL@1114, then LOFF@1134
and OOFF@1134 — two consecutive EQUAL chunk offsets (LOFF gets length 0). -/
def chunkTableC7 : Bytes :=
  [80, 78, 65, 77, 0, 0, 0, 0, 0, 0, 0, 84,
   79, 73, 68, 70, 0, 0, 0, 0, 0, 0, 0, 90,
   79, 73, 68, 76, 0, 0, 0, 0, 0, 0, 4, 90,
   76, 79, 70, 70, 0, 0, 0, 0, 0, 0, 4, 110,
   79, 79, 70, 70, 0, 0, 0, 0, 0, 0, 4, 110,
   0, 0, 0, 0, 0, 0, 0, 0, 0, 0, 4, 118]

/-- `imageC7`: one packfile, one object, and a chunk lookup table whose
4th and 5th offsets are equal (a zero-length LOFF chunk); 1162 bytes. -/
def imageC7Data : Nat → Nat := fun i =>
  if i < 12 then [77, 73, 68, 88, 1, 1, 5, 0, 0, 0, 0, 1].getD i 0
  else if i < 84 then chunkTableC7.getD (i - 12) 0
  else if i < 90 then [97, 46, 105, 100, 120, 0].getD (i - 84) 0
  else if i < 1114 then (if (i - 90) % 4 = 3 then 1 else 0)
  else if i < 1134 then (if i = 1133 then 1 else 0)
  else if i < 1142 then [0, 0, 0, 0, 0, 0, 0, 100].getD (i - 1134) 0
  else 0


/-- Chunk table of `imageC4`: PNAM@72, OIDF@78, OIDL@1102, OOFF@1122,
terminator@1130 (4 chunks, no LOFF). -/
def chunkTableC4 : Bytes :=
  [80, 78, 65, 77, 0, 0, 0, 0, 0, 0, 0, 72,
   79, 73, 68, 70, 0, 0, 0, 0, 0, 0, 0, 78,
   79, 73, 68, 76, 0, 0, 0, 0, 0, 0, 4, 78,
   79, 79, 70, 70, 0, 0, 0, 0, 0, 0, 4, 98,
   0, 0, 0, 0, 0, 0, 0, 0, 0, 0, 4, 106]

/-- `imageC4`: one object whose first byte is `5`, but every fanout slot
holds `1` — monotonically non-decreasing (so the parser accepts it) yet
inconsistent with OIDL (slots 0..4 should hold 0); 1150 bytes. -/
def imageC4Data : Nat → Nat := fun i =>
  if i < 12 then [77, 73, 68, 88, 1, 1, 4, 0, 0, 0, 0, 1].getD i 0
  else if i < 72 then chunkTableC4.getD (i - 12) 0
  else if i < 78 then [97, 46, 105, 100, 120, 0].getD (i - 72) 0
  else if i < 1102 then (if (i - 78) % 4 = 3 then 1 else 0)
  else if i < 1122 then
    (if i = 1102 then 5 else if i = 1121 then 1 else 0)
  else if i < 1130 then [0, 0, 0, 0, 0, 0, 0, 77].getD (i - 1122) 0
  else 0

/-- Chunk table of `imageC8`: PNAM@72, OIDF@78, OIDL@1102, OOFF@1142,
terminator@1158 (4 chunks, no LOFF). -/
def chunkTableC8 : Bytes :=
  [80, 78, 65, 77, 0, 0, 0, 0, 0, 0, 0, 72,
   79, 73, 68, 70, 0, 0, 0, 0, 0, 0, 0, 78,
   79, 73, 68, 76, 0, 0, 0, 0, 0, 0, 4, 78,
   79, 79, 70, 70, 0, 0, 0, 0, 0, 0, 4, 118,
   0, 0, 0, 0, 0, 0, 0, 0, 0, 0, 4, 134]

/-- OID lookup table of `imageC8`: two ids with first bytes `0x50` and
`0x55` — they share their first hex nibble (`5`). -/
def oidlC8 : Bytes :=
  [80] ++ List.replicate 18 0 ++ [1, 85] ++ List.replicate 18 0 ++ [2]

/-- `imageC8`: two objects sharing their first nibble, but every fanout slot
holds `2` — monotonically non-decreasing (so the parser accepts it) yet
inconsistent with OIDL (slots 0..0x4f should hold 0), which makes the fanout
bucket of the shared first byte `0x50` the empty slice; 1178 bytes. -/
def imageC8Data : Nat → Nat := fun i =>
  if i < 12 then [77, 73, 68, 88, 1, 1, 4, 0, 0, 0, 0, 1].getD i 0
  else if i < 72 then chunkTableC8.getD (i - 12) 0
  else if i < 78 then [97, 46, 105, 100, 120, 0].getD (i - 72) 0
  else if i < 1102 then (if (i - 78) % 4 = 3 then 2 else 0)
  else if i < 1142 then oidlC8.getD (i - 1102) 0
  else if i < 1158 then
    [0, 0, 0, 0, 0, 0, 0, 77, 0, 0, 0, 0, 0, 0, 0, 99].getD (i - 1142) 0
  else 0

/-- `imageC3`: a 56-byte input passing the header and size checks whose
trailer (20 bytes of `1`) differs from the computed digest (`hashC` yields
20 zero bytes). -/
def imageC3Data : Nat → Nat := fun i =>
  if i < 12 then [77, 73, 68, 88, 1, 1, 1, 0, 0, 0, 0, 0].getD i 0
  else if i < 36 then 0
  else 1

end Multipack

/-! ### The mapped-window cache (`src/mwindow.c`)

Shallow embedding of the mapped-window cache.  A window is identified by
its position in its file's window list; the mmap system call is an
external collaborator, modelled by the Boolean parameters `mmapOk1` /
`mmapOk2` (whether the first and the retried `git_futils_mmap_ro` call
succeed).  The statistics counters (`mmap_calls`, `peak_mapped`,
`peak_open_windows`) play no role in any claim and are omitted. -/

namespace Mwindow

/-- `git_mwindow`: a mapped window (`offset`, `window_map.len`,
`last_used`, `inuse_cnt`). -/
structure git_mwindow where
  offset : Nat
  len : Nat
  last_used : Nat
  inuse_cnt : Nat
deriving DecidableEq

/-- `git_mwindow_file`: a file descriptor, the file size, and the file's
window list (head = most recently created). -/
structure git_mwindow_file where
  fd : Nat
  size : Nat
  windows : List git_mwindow
deriving DecidableEq

/-- `git_mwindow_ctl`: the global list of registered window files and the
accounting counters. -/
structure git_mwindow_ctl where
  windowfiles : List git_mwindow_file
  mapped : Nat
  open_windows : Nat
  used_ctr : Nat
deriving DecidableEq

/-- `git_mwindow_contains(win, offset)`: note the second comparison is
`<=`, so the one-past-end position `win->offset + win->window_map.len`
counts as contained. -/
def git_mwindow_contains (win : git_mwindow) (offset : Nat) : Bool :=
  decide (win.offset ≤ offset) && decide (offset ≤ win.offset + win.len)

/-- Replace the element at index `i` (no-op when out of range). -/
def modifyAt {α : Type} : List α → Nat → (α → α) → List α
  | [], _, _ => []
  | x :: rest, 0, g => g x :: rest
  | x :: rest, n + 1, g => x :: modifyAt rest n g

/-- Sum of the mapped lengths of a window list. -/
def winSum (ws : List git_mwindow) : Nat := (ws.map (fun w => w.len)).sum

/-- Sum of the mapped lengths of every window of every registered file:
what `ctl.mapped` is supposed to equal at quiescent points. -/
def ctlSum (ctl : git_mwindow_ctl) : Nat :=
  (ctl.windowfiles.map (fun f => winSum f.windows)).sum

/-- Total number of windows across all registered files (used as fuel for
the eviction loops; each successful eviction removes one window). -/
def ctlWinCount (ctl : git_mwindow_ctl) : Nat :=
  (ctl.windowfiles.map (fun f => f.windows.length)).sum

/-- The window loop of `git_mwindow_scan_recently_used` with
`comparison_sign = GIT_MWINDOW__LRU` and `only_unused = false`: in-use
windows are skipped, and the carried best `(file index, window index,
window)` is replaced exactly when the candidate has a strictly smaller
`last_used` (the C test is `lru_window->last_used > w->last_used`). -/
def scanFileLRU (fi : Nat) : List git_mwindow → Nat →
    Option (Nat × Nat × git_mwindow) → Option (Nat × Nat × git_mwindow)
  | [], _, best => best
  | w :: rest, j, best =>
    if w.inuse_cnt ≠ 0 then scanFileLRU fi rest (j + 1) best
    else
      match best with
      | none => scanFileLRU fi rest (j + 1) (some (fi, j, w))
      | some (bi, bj, wb) =>
        if w.last_used < wb.last_used then
          scanFileLRU fi rest (j + 1) (some (fi, j, w))
        else scanFileLRU fi rest (j + 1) (some (bi, bj, wb))

/-- The file loop of `git_mwindow_close_lru_window`: the candidate is
carried across files (`git_mwindow_scan_recently_used` receives the
previous best in `*out_window`). -/
def scanCtlLRU : List git_mwindow_file → Nat →
    Option (Nat × Nat × git_mwindow) → Option (Nat × Nat × git_mwindow)
  | [], _, best => best
  | f :: rest, i, best => scanCtlLRU rest (i + 1) (scanFileLRU i f.windows 0 best)

/-- `git_mwindow_close_lru_window`: unmap the least-recently-used unused
window across all files (`none` models the `-1` "couldn't find LRU"
return). -/
def git_mwindow_close_lru_window (ctl : git_mwindow_ctl) :
    Option git_mwindow_ctl :=
  match scanCtlLRU ctl.windowfiles 0 none with
  | none => none
  | some (i, j, w) =>
    some { ctl with
      windowfiles := modifyAt ctl.windowfiles i
        (fun f => { f with windows := f.windows.eraseIdx j }),
      mapped := ctl.mapped - w.len,
      open_windows := ctl.open_windows - 1 }

/-- `git_mwindow_scan_recently_used` with `only_unused = true` and
`comparison_sign = GIT_MWINDOW__MRU`: any in-use window aborts the scan
(`return false`); otherwise the most-recently-used window is returned. -/
def scanFileMRU : List git_mwindow → Option git_mwindow → Option git_mwindow
  | [], best => best
  | w :: rest, best =>
    if w.inuse_cnt ≠ 0 then none
    else
      match best with
      | none => scanFileMRU rest (some w)
      | some wb =>
        if wb.last_used < w.last_used then scanFileMRU rest (some w)
        else scanFileMRU rest (some wb)

/-- The file loop of `git_mwindow_close_lru_file`.  The C code never
updates its `lru_window` variable, so the `!lru_window` test is always
true and EVERY file that passes the only-unused scan overwrites
`lru_file`: the LAST candidate file is picked, not the one whose
most-recently-used window is oldest. -/
def closeLruFileGo : List git_mwindow_file → Option git_mwindow_file →
    Option git_mwindow_file
  | [], best => best
  | f :: rest, best =>
    match scanFileMRU f.windows none with
    | none => closeLruFileGo rest best
    | some _ => closeLruFileGo rest (some f)

/-- `git_mwindow_free_all_locked`: remove the file from the global list
(first pointer match) and unmap all its windows. -/
def git_mwindow_free_all_locked (ctl : git_mwindow_ctl)
    (f : git_mwindow_file) : git_mwindow_ctl :=
  { ctl with
    windowfiles := ctl.windowfiles.erase f,
    mapped := ctl.mapped - winSum f.windows,
    open_windows := ctl.open_windows - f.windows.length }

/-- `git_mwindow_close_lru_file`: pick a file with no in-use window (see
`closeLruFileGo` for the selection bug) and free all its windows. -/
def git_mwindow_close_lru_file (ctl : git_mwindow_ctl) :
    Option git_mwindow_ctl :=
  match closeLruFileGo ctl.windowfiles none with
  | none => none
  | some f => some (git_mwindow_free_all_locked ctl f)

/-- The first eviction loop of `new_window`: close LRU windows while the
soft limit is exceeded and a closable window exists. -/
def evictLoop (mapped_limit : Nat) : Nat → git_mwindow_ctl → git_mwindow_ctl
  | 0, ctl => ctl
  | fuel + 1, ctl =>
    if mapped_limit < ctl.mapped then
      match git_mwindow_close_lru_window ctl with
      | some ctl2 => evictLoop mapped_limit fuel ctl2
      | none => ctl
    else ctl

/-- The second eviction loop of `new_window` (after a failed mmap): close
every closable window. -/
def evictAllLoop : Nat → git_mwindow_ctl → git_mwindow_ctl
  | 0, ctl => ctl
  | fuel + 1, ctl =>
    match git_mwindow_close_lru_window ctl with
    | some ctl2 => evictAllLoop fuel ctl2
    | none => ctl

/-- The geometry of a window created by `new_window`: the offset is
aligned down to `window_size / 2` and the length clipped to the window
size and the end of the file (`memset` zeroes the other fields). -/
def newWindowGeom (window_size size offset : Nat) : git_mwindow :=
  let walign := window_size / 2
  let woff := offset / walign * walign
  ⟨woff, min (size - woff) window_size, 0, 0⟩

/-- `new_window`: `ctl->mapped += len` happens BEFORE the mmap attempts,
and is not undone when both attempts fail (`none` = the C `NULL`
return). -/
def new_window (window_size mapped_limit : Nat) (size offset : Nat)
    (mmapOk1 mmapOk2 : Bool) (ctl : git_mwindow_ctl) :
    Option git_mwindow × git_mwindow_ctl :=
  let w := newWindowGeom window_size size offset
  let ctl1 := { ctl with mapped := ctl.mapped + w.len }
  let ctl2 := evictLoop mapped_limit (ctlWinCount ctl1) ctl1
  if mmapOk1 then
    (some w, { ctl2 with open_windows := ctl2.open_windows + 1 })
  else
    let ctl3 := evictAllLoop (ctlWinCount ctl2) ctl2
    if mmapOk2 then
      (some w, { ctl3 with open_windows := ctl3.open_windows + 1 })
    else (none, ctl3)

/-- The window-selection logic of `git_mwindow_open`: reuse the cursor's
window when it "contains" both `offset` and `offset + extra`, otherwise
take the first window of the file list passing the same test, otherwise
create one with `new_window`'s geometry (the created window is NOT
re-checked against `offset + extra`). -/
inductive OpenChoice where
  | reused (w : git_mwindow)
  | found (w : git_mwindow)
  | created (w : git_mwindow)
deriving DecidableEq

/-- See `OpenChoice`. -/
def openSelect (window_size : Nat) (f : git_mwindow_file)
    (cursor : Option git_mwindow) (offset extra : Nat) : OpenChoice :=
  let covered : git_mwindow → Bool := fun w =>
    git_mwindow_contains w offset && git_mwindow_contains w (offset + extra)
  match cursor with
  | some w =>
    if covered w then .reused w
    else
      match f.windows.find? covered with
      | some w2 => .found w2
      | none => .created (newWindowGeom window_size f.size offset)
  | none =>
    match f.windows.find? covered with
    | some w2 => .found w2
    | none => .created (newWindowGeom window_size f.size offset)

/-- Unpin the window at file index `fi`, window index `j` (the cursor
decrement of `git_mwindow_open`, and the body of `git_mwindow_close`). -/
def unpinAt (ctl : git_mwindow_ctl) (fi j : Nat) : git_mwindow_ctl :=
  { ctl with
    windowfiles := modifyAt ctl.windowfiles fi (fun f =>
      { f with windows := modifyAt f.windows j (fun w =>
        { w with inuse_cnt := w.inuse_cnt - 1 }) }) }

/-- The search-or-create part of `git_mwindow_open`, entered after the
cursor (if any) has been unpinned: pin the first window of the file list
covering `[offset, offset + extra]`, or create one with `new_window` and
push it at the head of the file's list. -/
def openRest (window_size mapped_limit : Nat) (ctl : git_mwindow_ctl)
    (fi : Nat) (offset extra : Nat) (mmapOk1 mmapOk2 : Bool) :
    Bool × git_mwindow_ctl :=
  match ctl.windowfiles[fi]? with
  | none => (false, ctl)
  | some f =>
    let covered : git_mwindow → Bool := fun w =>
      git_mwindow_contains w offset && git_mwindow_contains w (offset + extra)
    match f.windows.findIdx? covered with
    | some j2 =>
      (true, { ctl with
        windowfiles := modifyAt ctl.windowfiles fi (fun f2 =>
          { f2 with windows := modifyAt f2.windows j2 (fun w =>
            { w with last_used := ctl.used_ctr,
                     inuse_cnt := w.inuse_cnt + 1 }) }),
        used_ctr := ctl.used_ctr + 1 })
    | none =>
      match new_window window_size mapped_limit f.size offset
          mmapOk1 mmapOk2 ctl with
      | (none, ctl2) => (false, ctl2)
      | (some w, ctl2) =>
        (true, { ctl2 with
          windowfiles := modifyAt ctl2.windowfiles fi (fun f2 =>
            { f2 with windows :=
              { w with last_used := ctl2.used_ctr, inuse_cnt := 1 } ::
                f2.windows }),
          used_ctr := ctl2.used_ctr + 1 })

/-- `git_mwindow_open` as a state transformer: the file is named by its
index `fi` in the registered list, the cursor by a window index into that
file's list (`none` = NULL cursor).  Returns whether a pointer was
returned, and the resulting cache state. -/
def git_mwindow_open (window_size mapped_limit : Nat)
    (ctl : git_mwindow_ctl) (fi : Nat) (cursor : Option Nat)
    (offset extra : Nat) (mmapOk1 mmapOk2 : Bool) :
    Bool × git_mwindow_ctl :=
  match ctl.windowfiles[fi]? with
  | none => (false, ctl)
  | some f =>
    let covered : git_mwindow → Bool := fun w =>
      git_mwindow_contains w offset && git_mwindow_contains w (offset + extra)
    match cursor.bind (fun j => f.windows[j]?) with
    | some w0 =>
      if covered w0 then (true, ctl)
      else
        openRest window_size mapped_limit (unpinAt ctl fi (cursor.getD 0))
          fi offset extra mmapOk1 mmapOk2
    | none =>
      openRest window_size mapped_limit ctl fi offset extra mmapOk1 mmapOk2

/-- `git_mwindow_close`: unpin the cursor's window (named by file index
and window index). -/
def git_mwindow_close_op (ctl : git_mwindow_ctl) (fi j : Nat) :
    git_mwindow_ctl :=
  unpinAt ctl fi j

/-- The file-eviction loop of `git_mwindow_file_register`. -/
def registerEvictLoop (file_limit : Nat) : Nat → git_mwindow_ctl →
    git_mwindow_ctl
  | 0, ctl => ctl
  | fuel + 1, ctl =>
    if file_limit ≤ ctl.windowfiles.length then
      match git_mwindow_close_lru_file ctl with
      | some ctl2 => registerEvictLoop file_limit fuel ctl2
      | none => ctl
    else ctl

/-- `git_mwindow_file_register`: evict whole files while the configured
file limit is reached, then append the new file. -/
def git_mwindow_file_register (file_limit : Nat) (ctl : git_mwindow_ctl)
    (f : git_mwindow_file) : git_mwindow_ctl :=
  let ctl1 :=
    if file_limit ≠ 0 then
      registerEvictLoop file_limit (ctl.windowfiles.length) ctl
    else ctl
  { ctl1 with windowfiles := ctl1.windowfiles ++ [f] }

/-- `git_mwindow_file_deregister`: remove the file from the global list
(first match); its windows are NOT unmapped here. -/
def git_mwindow_file_deregister (ctl : git_mwindow_ctl)
    (f : git_mwindow_file) : git_mwindow_ctl :=
  { ctl with windowfiles := ctl.windowfiles.erase f }

/-- A concrete cache state for the C6 divergence: one registered file of
size 20 with no windows yet, zero mapped bytes. -/
def ctlC6 : git_mwindow_ctl := ⟨[⟨3, 20, []⟩], 0, 0, 0⟩

end Mwindow

/-! ## Theorems -/

namespace Multipack

theorem chunkTableLoop_bounds (data : Nat → Nat) (trailer : Nat) :
    ∀ (count : Nat), ∀ (pos last_off : Nat) (last : Option Slot) (cs : ChunkSet)
      (out : ChunkSet × Nat × Option Slot),
      chunkTableLoop data trailer count pos last_off last cs = .ok out →
      ∀ k, k < count →
        last_off ≤ readU64 data (pos + 12 * k + 4) ∧
        readU64 data (pos + 12 * k + 4) < trailer ∧
        (k + 1 < count →
          readU64 data (pos + 12 * k + 4) ≤ readU64 data (pos + 12 * (k + 1) + 4)) := by
  intro count
  induction count with
  | zero => intro pos last_off last cs out _ k hk; omega
  | succ count ih =>
    intro pos last_off last cs out h k hk
    simp only [chunkTableLoop] at h
    by_cases hmono : readU64 data (pos + 4) < last_off
    · rw [if_pos hmono] at h; exact absurd h (by simp)
    rw [if_neg hmono] at h
    by_cases hbound : trailer ≤ readU64 data (pos + 4)
    · rw [if_pos hbound] at h; exact absurd h (by simp)
    rw [if_neg hbound] at h
    rcases hslot : slotOfId (readU32 data pos) with _ | s
    · rw [hslot] at h; exact absurd h (by simp)
    rw [hslot] at h
    cases k with
    | zero =>
      refine ⟨Nat.le_of_not_lt hmono, Nat.lt_of_not_le hbound, ?_⟩
      intro h1
      cases count with
      | zero => omega
      | succ count2 =>
        exact (ih (pos + 12) (readU64 data (pos + 4)) (some s) _ out h 0
          (by omega)).1
    | succ k2 =>
      have hrec := ih (pos + 12) (readU64 data (pos + 4)) (some s) _ out h k2
        (by omega)
      have e1 : pos + 12 + 12 * k2 + 4 = pos + 12 * (k2 + 1) + 4 := by ring
      have e2 : pos + 12 + 12 * (k2 + 1) + 4 = pos + 12 * (k2 + 1 + 1) + 4 := by ring
      rw [e1] at hrec
      refine ⟨Nat.le_trans (Nat.le_of_not_lt hmono) hrec.1, hrec.2.1, ?_⟩
      intro hlt
      have := hrec.2.2 (by omega)
      rwa [e2] at this

theorem parse_ok_chunkTable {hashFn : Bytes → Bytes} {data : Nat → Nat}
    {size : Nat} {m : git_multipack_index_file}
    (h : git_multipack_index_parse hashFn data size = .ok m) :
    ∃ out, chunkTableLoop data (size - 20) (byteAt data 6) 12
      (12 + (1 + byteAt data 6) * 12) none emptyChunkSet = .ok out := by
  unfold git_multipack_index_parse at h
  dsimp only [] at h
  split at h
  · exact absurd h (by simp)
  split at h
  · exact absurd h (by simp)
  split at h
  · exact absurd h (by simp)
  split at h
  · exact absurd h (by simp)
  split at h
  · exact absurd h (by simp)
  split at h
  · exact absurd h (by simp)
  next cs last_off last heqTable => exact ⟨(cs, last_off, last), heqTable⟩

theorem foreachLoop_ne_nil (m : git_multipack_index_file) (cb : Bytes → Int) :
    ∀ (l : List Nat) (acc : Option Int), l ≠ [] →
      foreachLoop m cb l acc =
        some (firstNonzeroOr0 (l.map (fun i => cb (midxOidAt m i)))) := by
  intro l
  induction l with
  | nil => intro acc h; exact absurd rfl h
  | cons i rest ih =>
    intro acc _
    rw [foreachLoop]
    by_cases hz : cb (midxOidAt m i) ≠ 0
    · rw [if_pos hz]
      simp only [List.map_cons, firstNonzeroOr0, List.find?]
      rw [show (decide (cb (midxOidAt m i) ≠ 0)) = true by simpa using hz]
    · rw [if_neg hz]
      push_neg at hz
      rcases List.eq_nil_or_concat rest with rfl | _
      · simp [foreachLoop, firstNonzeroOr0, hz]
      · have hne : rest ≠ [] := by
          rintro rfl
          simp_all
        rw [ih (some 0) hne]
        simp only [List.map_cons, firstNonzeroOr0, List.find?]
        rw [show (decide (cb (midxOidAt m i) ≠ 0)) = false by simpa using hz]


theorem oidLookupLoop_head (data : Nat → Nat) (off i k : Nat) (prev : Bytes)
    (h : oidLookupLoop data off i (k + 1) prev = .ok ()) :
    memcmpB prev (oidAt data off i) < 0 := by
  rw [oidLookupLoop] at h
  by_cases hc : memcmpB prev (oidAt data off i) ≥ 0
  · rw [if_pos hc] at h; exact absurd h (by simp)
  · omega

theorem oidLookupLoop_sorted (data : Nat → Nat) (off : Nat) :
    ∀ (k i : Nat) (prev : Bytes),
      oidLookupLoop data off i k prev = .ok () →
      ∀ j, i ≤ j → j + 1 < i + k →
        memcmpB (oidAt data off j) (oidAt data off (j + 1)) < 0 := by
  intro k
  induction k with
  | zero => intro i prev _ j hij hjk; omega
  | succ k ih =>
    intro i prev h j hij hjk
    have hstep := h
    rw [oidLookupLoop] at hstep
    by_cases hc : memcmpB prev (oidAt data off i) ≥ 0
    · rw [if_pos hc] at hstep; exact absurd hstep (by simp)
    · rw [if_neg hc] at hstep
      rcases Nat.eq_or_lt_of_le hij with rfl | hlt
      · cases k with
        | zero => omega
        | succ k2 =>
          exact oidLookupLoop_head data off (i + 1) k2 (oidAt data off i) hstep
      · exact ih (i + 1) (oidAt data off i) hstep j hlt (by omega)

theorem parse_ok_spec {hashFn : Bytes → Bytes} {data : Nat → Nat} {size : Nat}
    {m : git_multipack_index_file}
    (h : git_multipack_index_parse hashFn data size = .ok m) :
    m.data = data ∧ m.size = size ∧
    m.checksum = readBytes data (size - 20) 20 ∧
    1 ≤ m.num_objects ∧
    (∀ j, j + 1 < m.num_objects →
      memcmpB (midxOidAt m j) (midxOidAt m (j + 1)) < 0) := by
  unfold git_multipack_index_parse at h
  dsimp only [] at h
  split at h
  · exact absurd h (by simp)
  split at h
  · exact absurd h (by simp)
  split at h
  · exact absurd h (by simp)
  split at h
  · exact absurd h (by simp)
  split at h
  · exact absurd h (by simp)
  split at h
  · exact absurd h (by simp)
  next cs last_off last heqTable =>
    split at h
    · exact absurd h (by simp)
    next s =>
      split at h
      · exact absurd h (by simp)
      next names heqNames =>
        split at h
        · exact absurd h (by simp)
        next num_objects heqFanout =>
          split at h
          · exact absurd h (by simp)
          next heqLookup =>
            split at h
            · exact absurd h (by simp)
            next heqOffsets =>
              split at h
              · exact absurd h (by simp)
              next large heqLarge =>
                -- extract facts from the oid-lookup subparser
                unfold multipack_index_parse_oid_lookup at heqLookup
                split at heqLookup
                · exact absurd heqLookup (by simp)
                split at heqLookup
                · exact absurd heqLookup (by simp)
                split at heqLookup
                · exact absurd heqLookup (by simp)
                next hoff0 hlen0 hlen20 =>
                  have hN : 1 ≤ num_objects := by
                    rcases Nat.eq_zero_or_pos num_objects with hz | hp
                    · subst hz; simp at hlen20; omega
                    · exact hp
                  cases h
                  refine ⟨rfl, rfl, rfl, hN, ?_⟩
                  intro j hj
                  exact oidLookupLoop_sorted data
                    ((ChunkSet.setLength cs s (size - 20 - last_off)).oid_lookup.offset)
                    num_objects 0 (List.replicate 20 0) heqLookup j (Nat.zero_le j)
                    (by simpa using hj)

theorem memcmpB_self : ∀ a : Bytes, memcmpB a a = 0
  | [] => rfl
  | x :: xs => by simp [memcmpB, memcmpB_self xs]

theorem memcmpB_eq_zero_iff : ∀ {a b : Bytes}, memcmpB a b = 0 ↔ a = b := by
  intro a
  induction a with
  | nil => intro b; cases b <;> simp [memcmpB]
  | cons x xs ih =>
    intro b
    cases b with
    | nil => simp [memcmpB]
    | cons y ys =>
      simp only [memcmpB]
      rcases Nat.lt_trichotomy x y with h | h | h
      · rw [if_pos h]
        constructor
        · intro hh; exact absurd hh (by decide)
        · intro hh; injection hh with h1 h2; omega
      · subst h
        rw [if_neg (lt_irrefl x), if_neg (lt_irrefl x)]
        rw [ih]
        constructor
        · intro hh; rw [hh]
        · intro hh; injection hh
      · rw [if_neg (by omega), if_pos h]
        constructor
        · intro hh; exact absurd hh (by decide)
        · intro hh; injection hh with h1 h2; omega

theorem memcmpB_swap : ∀ a b : Bytes, memcmpB b a = -memcmpB a b := by
  intro a
  induction a with
  | nil => intro b; cases b <;> simp [memcmpB]
  | cons x xs ih =>
    intro b
    cases b with
    | nil => simp [memcmpB]
    | cons y ys =>
      simp only [memcmpB]
      rcases Nat.lt_trichotomy x y with h | h | h
      · rw [if_pos h, if_neg (by omega), if_pos h]; rfl
      · subst h
        simp [lt_irrefl, ih ys]
      · rw [if_pos h, if_neg (by omega), if_pos h]

theorem memcmpB_trans_lt : ∀ a b c : Bytes,
    memcmpB a b < 0 → memcmpB b c < 0 → memcmpB a c < 0 := by
  intro a
  induction a with
  | nil =>
    intro b c h1 h2
    cases c with
    | nil =>
      cases b with
      | nil => simp [memcmpB] at h2
      | cons y ys => simp [memcmpB] at h2
    | cons z zs => simp [memcmpB]
  | cons x xs ih =>
    intro b c h1 h2
    cases b with
    | nil => simp [memcmpB] at h1
    | cons y ys =>
      cases c with
      | nil => simp [memcmpB] at h2
      | cons z zs =>
        simp only [memcmpB] at h1 h2 ⊢
        rcases Nat.lt_trichotomy x y with hxy | hxy | hxy
        · rcases Nat.lt_trichotomy y z with hyz | hyz | hyz
          · rw [if_pos (by omega)]; decide
          · subst hyz; rw [if_pos hxy]; decide
          · rw [if_neg (by omega), if_pos hyz] at h2
            exact absurd h2 (by decide)
        · subst hxy
          rw [if_neg (lt_irrefl x), if_neg (lt_irrefl x)] at h1
          rcases Nat.lt_trichotomy x z with hyz | hyz | hyz
          · rw [if_pos hyz]; decide
          · subst hyz
            rw [if_neg (lt_irrefl x), if_neg (lt_irrefl x)] at h2 ⊢
            exact ih ys zs h1 h2
          · rw [if_neg (by omega), if_pos hyz] at h2
            exact absurd h2 (by decide)
        · rw [if_neg (by omega), if_pos hxy] at h1
          exact absurd h1 (by decide)

theorem memcmpB_lt_of_le_of_lt {a b c : Bytes}
    (h1 : memcmpB a b ≤ 0) (h2 : memcmpB b c < 0) : memcmpB a c < 0 := by
  rcases lt_or_eq_of_le h1 with h1 | h1
  · exact memcmpB_trans_lt a b c h1 h2
  · rw [memcmpB_eq_zero_iff.mp h1]; exact h2

theorem memcmpB_lt_of_lt_of_le {a b c : Bytes}
    (h1 : memcmpB a b < 0) (h2 : memcmpB b c ≤ 0) : memcmpB a c < 0 := by
  rcases lt_or_eq_of_le h2 with h2 | h2
  · exact memcmpB_trans_lt a b c h1 h2
  · rw [← memcmpB_eq_zero_iff.mp h2]; exact h1

theorem memcmpB_le_trans {a b c : Bytes}
    (h1 : memcmpB a b ≤ 0) (h2 : memcmpB b c ≤ 0) : memcmpB a c ≤ 0 := by
  rcases lt_or_eq_of_le h2 with h2 | h2
  · exact le_of_lt (memcmpB_lt_of_le_of_lt h1 h2)
  · rw [← memcmpB_eq_zero_iff.mp h2]; exact h1

theorem memcmpB_cons_lt {x y : Nat} (as bs : Bytes) (h : x < y) :
    memcmpB (x :: as) (y :: bs) = -1 := by
  simp [memcmpB, h]

theorem memcmpB_cons_head_le {x y : Nat} {as bs : Bytes}
    (h : memcmpB (x :: as) (y :: bs) ≤ 0) : x ≤ y := by
  by_cases hyx : y < x
  · rw [memcmpB, if_neg (by omega), if_pos hyx] at h
    exact absurd h (by decide)
  · omega

theorem readBytes_succ (data : Nat → Nat) (p n : Nat) :
    readBytes data p (n + 1) = byteAt data p :: readBytes data (p + 1) n := by
  simp only [readBytes, List.range_succ_eq_map, List.map_cons, List.map_map,
    Nat.add_zero]
  congr 1
  apply List.map_congr_left
  intro j _
  simp only [Function.comp]
  congr 1
  omega

theorem readBytes_length (data : Nat → Nat) (p len : Nat) :
    (readBytes data p len).length = len := by
  simp [readBytes]

theorem readBytes_lt256 (data : Nat → Nat) (p len : Nat) :
    ∀ x ∈ readBytes data p len, x < 256 := by
  intro x hx
  simp only [readBytes, List.mem_map] at hx
  obtain ⟨j, -, rfl⟩ := hx
  exact Nat.mod_lt _ (by omega)

theorem readBytes_getD (data : Nat → Nat) (p : Nat) {j len : Nat} (h : j < len) :
    (readBytes data p len).getD j 0 = byteAt data (p + j) := by
  rw [readBytes, List.getD_eq_getElem?_getD, List.getElem?_map,
    List.getElem?_range h]
  rfl

theorem oidAt_cons (data : Nat → Nat) (off i : Nat) :
    oidAt data off i =
      byteAt data (off + 20 * i) :: readBytes data (off + 20 * i + 1) 19 :=
  readBytes_succ data (off + 20 * i) 19

theorem oidAt_getD0 (data : Nat → Nat) (off i : Nat) :
    (oidAt data off i).getD 0 0 = byteAt data (off + 20 * i) := by
  rw [oidAt_cons]; rfl

theorem sorted_chain_lt {m : git_multipack_index_file}
    (hs : ∀ j, j + 1 < m.num_objects →
      memcmpB (midxOidAt m j) (midxOidAt m (j + 1)) < 0) :
    ∀ j k, j < k → k < m.num_objects →
      memcmpB (midxOidAt m j) (midxOidAt m k) < 0 := by
  have aux : ∀ d j, j + d + 1 < m.num_objects →
      memcmpB (midxOidAt m j) (midxOidAt m (j + d + 1)) < 0 := by
    intro d
    induction d with
    | zero => intro j hj; exact hs j hj
    | succ d ih =>
      intro j hj
      refine memcmpB_trans_lt _ _ _ (ih j (by omega)) ?_
      have := hs (j + d + 1) (by omega)
      rwa [show j + d + 1 + 1 = j + (d + 1) + 1 by omega] at this
  intro j k hjk hk
  have := aux (k - j - 1) j (by omega)
  rwa [show j + (k - j - 1) + 1 = k by omega] at this

theorem sorted_chain_le {m : git_multipack_index_file}
    (hs : ∀ j, j + 1 < m.num_objects →
      memcmpB (midxOidAt m j) (midxOidAt m (j + 1)) < 0) :
    ∀ j k, j ≤ k → k < m.num_objects →
      memcmpB (midxOidAt m j) (midxOidAt m k) ≤ 0 := by
  intro j k hjk hk
  rcases Nat.eq_or_lt_of_le hjk with rfl | h
  · rw [memcmpB_self]
  · exact le_of_lt (sorted_chain_lt hs j k h hk)

theorem memcmpB_append_left : ∀ (P x y : Bytes),
    memcmpB (P ++ x) (P ++ y) = memcmpB x y := by
  intro P
  induction P with
  | nil => intro x y; rfl
  | cons p P ih =>
    intro x y
    simp only [List.cons_append, memcmpB, lt_irrefl, if_false]
    exact ih x y

theorem memcmpB_replicate_zero_le : ∀ (n : Nat) (t : Bytes), t.length = n →
    memcmpB (List.replicate n 0) t ≤ 0 := by
  intro n
  induction n with
  | zero =>
    intro t ht
    rw [List.length_eq_zero] at ht
    subst ht
    decide
  | succ n ih =>
    intro t ht
    cases t with
    | nil => simp at ht
    | cons a t2 =>
      simp only [List.replicate_succ, memcmpB]
      by_cases h0 : 0 < a
      · rw [if_pos h0]; decide
      · have ha : a = 0 := by omega
        subst ha
        rw [if_neg (lt_irrefl 0), if_neg (lt_irrefl 0)]
        exact ih t2 (by simpa using ht)

theorem memcmpB_getD0_lt {a b : Bytes} (ha : a ≠ [])
    (h : a.getD 0 0 < b.getD 0 0) : memcmpB a b = -1 := by
  cases a with
  | nil => exact absurd rfl ha
  | cons x as =>
    cases b with
    | nil => simp at h
    | cons y bs => exact memcmpB_cons_lt as bs h

theorem memcmpB_getD0_le {a b : Bytes} (h : memcmpB a b ≤ 0) :
    a.getD 0 0 ≤ b.getD 0 0 := by
  cases a with
  | nil => simp
  | cons x as =>
    cases b with
    | nil => simp [memcmpB] at h
    | cons y bs => exact memcmpB_cons_head_le h

theorem take_eq_of_getD {a b : Bytes} {n : Nat} (ha : n ≤ a.length)
    (hb : n ≤ b.length) (h : ∀ j, j < n → a.getD j 0 = b.getD j 0) :
    a.take n = b.take n := by
  apply List.ext_getElem
  · simp only [List.length_take]; omega
  · intro i h1 h2
    simp only [List.length_take] at h1
    have hia : i < a.length := by omega
    have hib : i < b.length := by omega
    have := h i (by omega)
    simp only [List.getD_eq_getElem?_getD, List.getElem?_eq_getElem hia,
      List.getElem?_eq_getElem hib, Option.getD_some] at this
    simpa [List.getElem_take] using this

theorem getD_eq_of_take_eq {a b : Bytes} {n : Nat} (h : a.take n = b.take n)
    {j : Nat} (hj : j < n) (hja : j < a.length) (hjb : j < b.length) :
    a.getD j 0 = b.getD j 0 := by
  have h1 := congrArg (fun l : Bytes => l[j]?) h
  dsimp only at h1
  rw [List.getElem?_take_of_lt hj, List.getElem?_take_of_lt hj] at h1
  simp [List.getD_eq_getElem?_getD, h1]

theorem memcmpB_between : ∀ (P x : Bytes) {h h2 : Nat} {z t : Bytes},
    (∀ u ∈ z, u = 0) →
    memcmpB (P ++ h :: z) x ≤ 0 → memcmpB x (P ++ h2 :: t) ≤ 0 →
    ∃ xk x2, x = P ++ xk :: x2 ∧ h ≤ xk ∧ xk ≤ h2 := by
  intro P
  induction P with
  | nil =>
    intro x h h2 z t _ h1 hr
    cases x with
    | nil => simp [memcmpB] at h1
    | cons x0 x2 =>
      exact ⟨x0, x2, rfl, memcmpB_cons_head_le h1, memcmpB_cons_head_le hr⟩
  | cons p P ih =>
    intro x h h2 z t hz h1 hr
    cases x with
    | nil => simp [memcmpB] at h1
    | cons x0 x2 =>
      simp only [List.cons_append] at h1 hr
      rcases Nat.lt_trichotomy p x0 with hpx | hpx | hpx
      · rw [memcmpB, if_neg (by omega), if_pos hpx] at hr
        exact absurd hr (by decide)
      · subst hpx
        rw [memcmpB, if_neg (lt_irrefl p), if_neg (lt_irrefl p)] at h1 hr
        obtain ⟨xk, x3, hx, hle1, hle2⟩ := ih x2 hz h1 hr
        exact ⟨xk, x3, by rw [List.cons_append, hx], hle1, hle2⟩
      · rw [memcmpB, if_neg (by omega), if_pos hpx] at h1
        exact absurd h1 (by decide)

theorem lookup_sha1_hit {m : git_multipack_index_file}
    (hs : ∀ j, j + 1 < m.num_objects →
      memcmpB (midxOidAt m j) (midxOidAt m (j + 1)) < 0)
    {lo hi i : Nat} (hlo : lo ≤ i) (hhi : i < hi) (hhiN : hi ≤ m.num_objects) :
    git_pack__lookup_sha1 m lo hi (midxOidAt m i) = (i : Int) := by
  unfold git_pack__lookup_sha1
  rcases hfind : (List.range' lo (hi - lo)).find?
      (fun j => midxOidAt m j = midxOidAt m i) with _ | j
  · rw [List.find?_eq_none] at hfind
    exact absurd (by simp : decide (midxOidAt m i = midxOidAt m i) = true)
      (by simpa using hfind i (by simp [List.mem_range'_1]; omega))
  · have hpj := List.find?_some hfind
    have hmem := List.mem_of_find?_eq_some hfind
    simp only [List.mem_range'_1] at hmem
    simp only [decide_eq_true_eq] at hpj
    have hji : j = i := by
      by_contra hne
      rcases Nat.lt_or_ge j i with hlt | hge
      · have := sorted_chain_lt hs j i hlt (by omega)
        rw [hpj, memcmpB_self] at this
        exact absurd this (by decide)
      · have := sorted_chain_lt hs i j (by omega) (by omega)
        rw [hpj, memcmpB_self] at this
        exact absurd this (by decide)
    simp [hji]

theorem lookup_sha1_insert {m : git_multipack_index_file} {lo hi i0 : Nat}
    (key : Bytes)
    (hne : ∀ j, lo ≤ j → j < hi → ¬midxOidAt m j = key)
    (hloi : lo ≤ i0) (hihi : i0 ≤ hi)
    (hlt : ∀ j, lo ≤ j → j < i0 → memcmpB (midxOidAt m j) key < 0)
    (hge : ∀ j, i0 ≤ j → j < hi → ¬memcmpB (midxOidAt m j) key < 0) :
    git_pack__lookup_sha1 m lo hi key = -1 - (i0 : Int) := by
  unfold git_pack__lookup_sha1
  have hnone : (List.range' lo (hi - lo)).find?
      (fun j => midxOidAt m j = key) = none := by
    rw [List.find?_eq_none]
    intro j hj
    simp only [List.mem_range'_1] at hj
    simpa using hne j hj.1 (by omega)
  rw [hnone]
  have hsplit : List.range' lo (hi - lo) =
      List.range' lo (i0 - lo) ++ List.range' i0 (hi - i0) := by
    have hx := List.range'_append_1 lo (i0 - lo) (hi - i0)
    rw [show lo + (i0 - lo) = i0 by omega,
      show hi - i0 + (i0 - lo) = hi - lo by omega] at hx
    exact hx.symm
  rw [hsplit, List.filter_append]
  have hall : (List.range' lo (i0 - lo)).filter
      (fun j => decide (memcmpB (midxOidAt m j) key < 0)) =
      List.range' lo (i0 - lo) := by
    rw [List.filter_eq_self]
    intro j hj
    simp only [List.mem_range'_1] at hj
    simpa using hlt j hj.1 (by omega)
  have hnil : (List.range' i0 (hi - i0)).filter
      (fun j => decide (memcmpB (midxOidAt m j) key < 0)) = [] := by
    rw [List.filter_eq_nil_iff]
    intro j hj
    simp only [List.mem_range'_1] at hj
    simpa using hge j hj.1 (by omega)
  rw [hall, hnil]
  simp only [List.length_append, List.length_range', List.length_nil]
  push_cast
  omega


theorem fanout_bucket {m : git_multipack_index_file}
    (hfan : fanoutConsistent m = true) {b : Nat} (hb : b < 256) :
    readU32 m.data (m.oid_fanout + 4 * b) =
      ((List.range m.num_objects).filter
        (fun j => (midxOidAt m j).getD 0 0 ≤ b)).length := by
  have := List.all_eq_true.mp hfan b (List.mem_range.mpr hb)
  simpa using this

theorem count_le_of_sub {N i : Nat} {p : Nat → Bool}
    (hsub : ∀ j, j < N → p j = true → j < i) :
    ((List.range N).filter p).length ≤ i := by
  have hnd : ((List.range N).filter p).Nodup := (List.nodup_range N).filter p
  have hss : (List.range N).filter p ⊆ List.range i := by
    intro x hx
    rw [List.mem_filter] at hx
    exact List.mem_range.mpr (hsub x (List.mem_range.mp hx.1) hx.2)
  have := (List.subperm_of_subset hnd hss).length_le
  simpa using this

theorem le_count_of_sub {N i : Nat} {p : Nat → Bool}
    (hiN : i ≤ N) (hall : ∀ j, j < i → p j = true) :
    i ≤ ((List.range N).filter p).length := by
  have hss : List.range i ⊆ (List.range N).filter p := by
    intro x hx
    rw [List.mem_range] at hx
    rw [List.mem_filter]
    exact ⟨List.mem_range.mpr (by omega), hall x hx⟩
  have := (List.subperm_of_subset (List.nodup_range i) hss).length_le
  simpa using this

theorem midxOidAt_ne_nil (m : git_multipack_index_file) (j : Nat) :
    midxOidAt m j ≠ [] := by
  have hl := readBytes_length m.data (m.oid_lookup + 20 * j) 20
  intro h
  rw [midxOidAt, oidAt] at h
  rw [h] at hl
  simp at hl

theorem midxOidAt_length (m : git_multipack_index_file) (j : Nat) :
    (midxOidAt m j).length = 20 :=
  readBytes_length m.data (m.oid_lookup + 20 * j) 20

theorem midxOidAt_lt256 (m : git_multipack_index_file) (j : Nat) :
    ∀ x ∈ midxOidAt m j, x < 256 :=
  readBytes_lt256 m.data (m.oid_lookup + 20 * j) 20


theorem getD_append_lt (P rest : Bytes) {j : Nat} (hj : j < P.length) :
    (P ++ rest).getD j 0 = P.getD j 0 := by
  rw [List.getD_eq_getElem?_getD, List.getD_eq_getElem?_getD,
    List.getElem?_append_left hj]

theorem getD_append_len (P : Bytes) (x : Nat) (rest : Bytes) :
    (P ++ x :: rest).getD P.length 0 = x := by
  induction P with
  | nil => rfl
  | cons p P ih => simpa using ih

theorem getD_take_lt (l : Bytes) {n j : Nat} (hj : j < n) :
    (l.take n).getD j 0 = l.getD j 0 := by
  rw [List.getD_eq_getElem?_getD, List.getD_eq_getElem?_getD,
    List.getElem?_take_of_lt hj]

theorem split_at_getD (x : Bytes) (k : Nat) (hk : k < x.length) :
    x = x.take k ++ (x.getD k 0 :: x.drop (k + 1)) := by
  conv_lhs => rw [← List.take_append_drop k x]
  congr 1
  rw [List.drop_eq_getElem_cons hk]
  congr 1
  simp [List.getD_eq_getElem?_getD, List.getElem?_eq_getElem hk]

theorem padOid_getD (o : Bytes) (len : Nat) {j : Nat} (hj : j < 20) :
    (padOid o len).getD j 0 =
      (if 2 * j + 2 ≤ len then o.getD j 0
       else if 2 * j + 1 ≤ len then o.getD j 0 / 16 * 16
       else 0) := by
  rw [padOid, List.getD_eq_getElem?_getD, List.getElem?_map,
    List.getElem?_range hj]
  rfl

theorem padOid_length (o : Bytes) (len : Nat) : (padOid o len).length = 20 := by
  simp [padOid]

theorem padOid_drop (o : Bytes) {len : Nat} (hlen : len ≤ 39) :
    (padOid o len).drop (len / 2) =
      (if len % 2 = 1 then o.getD (len / 2) 0 / 16 * 16 else 0) ::
        List.replicate (19 - len / 2) 0 := by
  have hk : len / 2 < (padOid o len).length := by rw [padOid_length]; omega
  rw [List.drop_eq_getElem_cons hk]
  have hhead : (padOid o len)[len / 2] =
      (if len % 2 = 1 then o.getD (len / 2) 0 / 16 * 16 else 0) := by
    have h1 : (padOid o len)[len / 2] = (padOid o len).getD (len / 2) 0 := by
      simp [List.getD_eq_getElem?_getD, List.getElem?_eq_getElem hk]
    rw [h1, padOid_getD o len (by omega)]
    rw [if_neg (by omega)]
    by_cases hodd : len % 2 = 1
    · rw [if_pos (by omega), if_pos hodd]
    · rw [if_neg (by omega), if_neg hodd]
  rw [hhead]
  congr 1
  apply List.ext_getElem
  · simp [padOid_length]
  · intro t h1 h2
    simp only [List.getElem_drop, List.getElem_replicate]
    have ht : len / 2 + 1 + t < 20 := by
      simp only [List.length_drop, padOid_length] at h1
      omega
    have hb : len / 2 + 1 + t < (padOid o len).length := by
      rw [padOid_length]; omega
    have hg : (padOid o len)[len / 2 + 1 + t] =
        (padOid o len).getD (len / 2 + 1 + t) 0 := by
      simp [List.getD_eq_getElem?_getD, List.getElem?_eq_getElem hb]
    rw [hg, padOid_getD o len ht, if_neg (by omega), if_neg (by omega)]

theorem padOid_take (o : Bytes) {len : Nat} (hlen : len ≤ 40)
    (holen : 20 ≤ o.length) :
    (padOid o len).take (len / 2) = o.take (len / 2) := by
  apply take_eq_of_getD (by rw [padOid_length]; omega) (by omega)
  intro j hj
  rw [padOid_getD o len (by omega), if_pos (by omega)]

theorem lookup_sha1_hit2 {m : git_multipack_index_file}
    (hs : ∀ j, j + 1 < m.num_objects →
      memcmpB (midxOidAt m j) (midxOidAt m (j + 1)) < 0)
    {lo hi i : Nat} {key : Bytes} (hkey : midxOidAt m i = key)
    (hlo : lo ≤ i) (hhi : i < hi) (hhiN : hi ≤ m.num_objects) :
    git_pack__lookup_sha1 m lo hi key = (i : Int) := by
  subst hkey
  exact lookup_sha1_hit hs hlo hhi hhiN

theorem entry_find_found {m : git_multipack_index_file} {q : Bytes}
    {len i0 : Nat} (hpos : findPos m q = (i0 : Int)) (hlen : len = 40)
    (hA : 2 ^ 31 ≤ midxRawOffsetAt m i0 →
      midxRawOffsetAt m i0 % 2 ^ 31 < m.num_object_large_offsets)
    (hB : midxPackAt m i0 < m.packfile_names.length) :
    git_multipack_index_entry_find m q len =
      .found ⟨midxPackAt m i0, midxOffsetAt m i0, midxOidAt m i0⟩ := by
  have h0 : (0 : Int) ≤ (i0 : Int) := by positivity
  unfold git_multipack_index_entry_find
  dsimp only []
  simp only [hpos, if_pos h0, Int.toNat_natCast]
  rw [if_neg (show ¬(True ∧ len ≠ 40 ∧ i0 + 1 < m.num_objects ∧
    oidNcmpEq q (midxOidAt m (i0 + 1)) len = true) from by simp [hlen])]
  rw [if_neg (by omega : ¬(1 : Nat) < 1)]
  have hB2 : ¬m.packfile_names.length ≤ readU32 m.data (m.object_offsets + 8 * i0) := by
    simpa [midxPackAt] using Nat.not_le.mpr hB
  by_cases hbig : 2 ^ 31 ≤ readU32 m.data (m.object_offsets + 8 * i0 + 4)
  · have hA2 : ¬m.num_object_large_offsets ≤
        readU32 m.data (m.object_offsets + 8 * i0 + 4) % 2 ^ 31 := by
      have := hA (by simpa [midxRawOffsetAt] using hbig)
      simp only [midxRawOffsetAt] at this
      omega
    rw [if_pos hbig, if_neg hA2]
    dsimp only []
    rw [if_neg hB2]
    simp only [midxPackAt, midxOffsetAt, midxRawOffsetAt]
    rw [if_pos hbig]
    rw [if_neg (by omega : ¬(1 : Nat) = 0)]
  · rw [if_neg hbig]
    dsimp only []
    rw [if_neg hB2]
    simp only [midxPackAt, midxOffsetAt, midxRawOffsetAt]
    rw [if_neg hbig]
    rw [if_neg (by omega : ¬(1 : Nat) = 0)]

theorem entry_find_ambiguous {m : git_multipack_index_file} {q : Bytes}
    {len i0 : Nat}
    (hpos : findPos m q = (i0 : Int) ∨ findPos m q = -1 - (i0 : Int))
    (hlen : len ≠ 40) (hn0 : i0 < m.num_objects)
    (hcmp0 : oidNcmpEq q (midxOidAt m i0) len = true)
    (hn1 : i0 + 1 < m.num_objects)
    (hcmp1 : oidNcmpEq q (midxOidAt m (i0 + 1)) len = true) :
    git_multipack_index_entry_find m q len =
      .ambiguous "found multiple offsets for multi-pack index entry" := by
  unfold git_multipack_index_entry_find
  dsimp only []
  rcases hpos with hpos | hpos
  · have h0 : (0 : Int) ≤ (i0 : Int) := by positivity
    simp only [hpos, if_pos h0, Int.toNat_natCast]
    rw [if_pos (show True ∧ len ≠ 40 ∧ i0 + 1 < m.num_objects ∧
      oidNcmpEq q (midxOidAt m (i0 + 1)) len = true from ⟨trivial, hlen, hn1, hcmp1⟩)]
    rw [if_pos (by omega : (1 : Nat) < 2)]
    rw [if_neg (by omega : ¬(2 : Nat) = 0)]
  · have hneg : ¬(0 : Int) ≤ -1 - (i0 : Int) := by
      have : (0 : Int) ≤ (i0 : Int) := by positivity
      omega
    have htn : (-1 - (-1 - (i0 : Int))).toNat = i0 := by
      rw [show -1 - (-1 - (i0 : Int)) = (i0 : Int) by ring, Int.toNat_natCast]
    simp only [hpos, if_neg hneg, htn]
    rw [if_pos (show i0 < m.num_objects ∧ oidNcmpEq q (midxOidAt m i0) len = true
      from ⟨hn0, hcmp0⟩)]
    rw [if_pos (show (1 : Nat) = 1 ∧ len ≠ 40 ∧ i0 + 1 < m.num_objects ∧
      oidNcmpEq q (midxOidAt m (i0 + 1)) len = true from ⟨rfl, hlen, hn1, hcmp1⟩)]
    rw [if_pos (by omega : (1 : Nat) < 2)]
    rw [if_neg (by omega : ¬(2 : Nat) = 0)]

end Multipack

open Multipack in
/-- C3: an input that passes the header and size checks but whose computed
digest over `[0, size - 20)` differs from its stored trailer is rejected
with the signature-mismatch parse error, whatever its chunk table and chunk
contents hold. -/
theorem C3_signature_mismatch_rejected (hashFn : Bytes → Bytes)
    (data : Nat → Nat) (size : Nat)
    (hsize : ¬size < 12 + 20)
    (hsig : ¬(readU32 data 0 ≠ 0x4d494458 ∨ byteAt data 4 ≠ 1 ∨ byteAt data 5 ≠ 1))
    (hchunks : ¬byteAt data 6 = 0)
    (htrailer : ¬size - 20 < 12 + (1 + byteAt data 6) * 12)
    (hmismatch : hashFn (readBytes data 0 (size - 20)) ≠ readBytes data (size - 20) 20) :
    git_multipack_index_parse hashFn data size = .error "index signature mismatch" := by
  unfold git_multipack_index_parse
  dsimp only []
  rw [if_neg hsize, if_neg hsig, if_neg hchunks, if_neg htrailer, if_pos hmismatch]

open Multipack in
set_option maxRecDepth 10000 in
/-- Witness for C3 at the concrete 56-byte input `imageC3Data`. -/
theorem C3_signature_mismatch_rejected_witness :
    git_multipack_index_parse hashC imageC3Data 56 = .error "index signature mismatch" :=
  C3_signature_mismatch_rejected hashC imageC3Data 56 (by decide) (by decide)
    (by decide) (by decide) (by decide)

open Multipack in
/-- C10: a successfully parsed MIDX has at least one object, so
`git_multipack_index_foreach_entry` always runs its body at least once and
returns an initialised value: `0` or the first non-zero callback result. -/
theorem C10_foreach_initialized (hashFn : Bytes → Bytes) (data : Nat → Nat)
    (size : Nat) (m : git_multipack_index_file)
    (h : git_multipack_index_parse hashFn data size = .ok m) (cb : Bytes → Int) :
    1 ≤ m.num_objects ∧
    git_multipack_index_foreach_entry m cb =
      some (firstNonzeroOr0
        ((List.range m.num_objects).map (fun i => cb (midxOidAt m i)))) := by
  obtain ⟨-, -, -, hN, -⟩ := parse_ok_spec h
  refine ⟨hN, ?_⟩
  apply foreachLoop_ne_nil
  intro hnil
  rw [List.range_eq_nil] at hnil
  omega

open Multipack in
set_option maxRecDepth 10000 in
/-- Witness for C10 at the parsed concrete image `imageA`. -/
theorem C10_foreach_initialized_witness :
    1 ≤ (midxOf hashC imageAData 1198).num_objects ∧
    git_multipack_index_foreach_entry (midxOf hashC imageAData 1198)
        (fun _ => (1 : Int)) =
      some (firstNonzeroOr0
        ((List.range (midxOf hashC imageAData 1198).num_objects).map
          (fun i => (fun _ => (1 : Int)) (midxOidAt (midxOf hashC imageAData 1198) i)))) :=
  C10_foreach_initialized hashC imageAData 1198 (midxOf hashC imageAData 1198)
    rfl (fun _ => (1 : Int))

open Multipack in
set_option maxRecDepth 10000 in
/-- C2 (code bug): `git_multipack_index_needs_refresh` on a successfully
parsed index and an on-disk file byte-identical to the parsed bytes returns
`true`, because the C code returns `git_oid_cmp(...) == 0` — true when the
trailer checksum EQUALS the in-memory one. -/
theorem C2_needs_refresh_true_on_identical_file :
    parseOk hashC imageAData 1198 = true ∧
    git_multipack_index_needs_refresh (midxOf hashC imageAData 1198)
      (some imageABytes) = true := by
  constructor
  · decide
  · decide

open Multipack in
set_option maxRecDepth 10000 in
/-- C7 counterexample: `imageC7` has two consecutive EQUAL chunk-table
offsets (entries 3 and 4, a zero-length LOFF chunk) yet parses
successfully, so the parser does not reject every non-strictly-increasing
chunk table. -/
theorem C7_equal_chunk_offsets_accepted :
    readU64 imageC7Data (12 + 12 * 3 + 4) = readU64 imageC7Data (12 + 12 * 4 + 4) ∧
    parseOk hashC imageC7Data 1162 = true := by
  constructor
  · decide
  · decide

open Multipack in
/-- C7 (amended): for every successfully parsed input, the chunk-table
offsets are non-decreasing (the code rejects only a strict decrease), and
every chunk offset lies at or after the end of the chunk table and strictly
before the trailer. -/
theorem C7_chunk_offsets_monotone (hashFn : Bytes → Bytes) (data : Nat → Nat)
    (size : Nat) (m : git_multipack_index_file)
    (h : git_multipack_index_parse hashFn data size = .ok m) :
    ∀ i j, i ≤ j → j < byteAt data 6 →
      12 + (1 + byteAt data 6) * 12 ≤ readU64 data (12 + 12 * i + 4) ∧
      readU64 data (12 + 12 * i + 4) < size - 20 ∧
      readU64 data (12 + 12 * i + 4) ≤ readU64 data (12 + 12 * j + 4) := by
  obtain ⟨out, hout⟩ := parse_ok_chunkTable h
  have hb := chunkTableLoop_bounds data (size - 20) (byteAt data 6) 12
    (12 + (1 + byteAt data 6) * 12) none emptyChunkSet out hout
  intro i j hij hj
  have hi : i < byteAt data 6 := Nat.lt_of_le_of_lt hij hj
  have chain : ∀ d i2, i2 + d < byteAt data 6 →
      readU64 data (12 + 12 * i2 + 4) ≤ readU64 data (12 + 12 * (i2 + d) + 4) := by
    intro d
    induction d with
    | zero => intro i2 _; exact Nat.le_refl _
    | succ d ih =>
      intro i2 hd
      refine Nat.le_trans (ih i2 (by omega)) ?_
      have := (hb (i2 + d) (by omega)).2.2 (by omega)
      rwa [show i2 + (d + 1) = i2 + d + 1 by ring]
  refine ⟨(hb i hi).1, (hb i hi).2.1, ?_⟩
  have := chain (j - i) i (by omega)
  rwa [show i + (j - i) = j by omega] at this

open Multipack in
set_option maxRecDepth 10000 in
/-- Witness for the amended C7 at the parsed concrete image `imageA`,
chunk-table entries 0 and 1. -/
theorem C7_chunk_offsets_monotone_witness :
    12 + (1 + Multipack.byteAt Multipack.imageAData 6) * 12 ≤
      Multipack.readU64 Multipack.imageAData (12 + 12 * 0 + 4) ∧
    Multipack.readU64 Multipack.imageAData (12 + 12 * 0 + 4) < 1198 - 20 ∧
    Multipack.readU64 Multipack.imageAData (12 + 12 * 0 + 4) ≤
      Multipack.readU64 Multipack.imageAData (12 + 12 * 1 + 4) :=
  C7_chunk_offsets_monotone hashC imageAData 1198 (midxOf hashC imageAData 1198)
    rfl 0 1 (by decide) (by decide)

open Multipack in
/-- C4 (amended): in a successfully parsed MIDX whose fanout table is
consistent with OIDL (slot `b` counts the ids with first byte `≤ b` — a
property the parser does not itself enforce), a full 40-nibble lookup of
any stored entry returns exactly that entry, decoding a set high bit of the
offset field through LOFF and a clear high bit as the literal offset,
provided the stored pack index is below the packfile count and a LOFF
index is below the LOFF entry count. -/
theorem C4_full_hash_lookup (hashFn : Bytes → Bytes) (data : Nat → Nat)
    (size : Nat) (m : git_multipack_index_file)
    (h : git_multipack_index_parse hashFn data size = .ok m)
    (hfan : fanoutConsistent m = true) (i : Nat) (hi : i < m.num_objects)
    (hpack : midxPackAt m i < m.packfile_names.length)
    (hloff : 2 ^ 31 ≤ midxRawOffsetAt m i →
      midxRawOffsetAt m i % 2 ^ 31 < m.num_object_large_offsets) :
    git_multipack_index_entry_find m (midxOidAt m i) 40 =
      .found ⟨midxPackAt m i, midxOffsetAt m i, midxOidAt m i⟩ := by
  obtain ⟨-, -, -, -, hs⟩ := parse_ok_spec h
  refine entry_find_found ?_ rfl hloff hpack
  set b := (midxOidAt m i).getD 0 0 with hbdef
  have hb256 : b < 256 := by
    rw [hbdef, midxOidAt, oidAt_getD0]
    exact Nat.mod_lt _ (by omega)
  have hBnd : i < readU32 m.data (m.oid_fanout + 4 * b) := by
    rw [fanout_bucket hfan hb256]
    refine Nat.lt_of_lt_of_le (by omega : i < i + 1)
      (le_count_of_sub (by omega) ?_)
    intro j hj
    have hle := sorted_chain_le hs j i (by omega) hi
    simpa using memcmpB_getD0_le hle
  have hC : readU32 m.data (m.oid_fanout + 4 * b) ≤ m.num_objects := by
    rw [fanout_bucket hfan hb256]
    exact le_trans (List.length_filter_le _ _) (by simp)
  have hA : (if b = 0 then 0 else readU32 m.data (m.oid_fanout + 4 * (b - 1))) ≤ i := by
    by_cases hb0 : b = 0
    · simp [hb0]
    · rw [if_neg hb0, fanout_bucket hfan (by omega)]
      apply count_le_of_sub
      intro j hjN hpj
      have hjlt : (midxOidAt m j).getD 0 0 < b := by
        have := of_decide_eq_true hpj
        omega
      have hcmp : memcmpB (midxOidAt m j) (midxOidAt m i) < 0 := by
        rw [memcmpB_getD0_lt (midxOidAt_ne_nil m j) hjlt]
        decide
      by_contra hge
      push_neg at hge
      have hle := sorted_chain_le hs i j hge hjN
      have hlt := memcmpB_lt_of_lt_of_le hcmp hle
      rw [memcmpB_self] at hlt
      exact absurd hlt (by decide)
  have hhit := lookup_sha1_hit hs hA hBnd hC
  rw [findPos]
  rw [← hbdef]
  exact hhit

open Multipack in
set_option maxRecDepth 10000 in
/-- Witness for the amended C4 at `imageA`, entry 1 (the entry whose offset
is routed through the large-offsets table). -/
theorem C4_full_hash_lookup_witness :
    git_multipack_index_entry_find (midxOf hashC imageAData 1198)
        (midxOidAt (midxOf hashC imageAData 1198) 1) 40 =
      .found ⟨midxPackAt (midxOf hashC imageAData 1198) 1,
              midxOffsetAt (midxOf hashC imageAData 1198) 1,
              midxOidAt (midxOf hashC imageAData 1198) 1⟩ :=
  C4_full_hash_lookup hashC imageAData 1198 (midxOf hashC imageAData 1198)
    rfl (by decide) 1 (by decide) (by decide) (by decide)

open Multipack in
set_option maxRecDepth 10000 in
/-- C4 counterexample: `imageC4` parses successfully and satisfies every
proviso of the claim (pack index below the packfile count, no LOFF
routing), yet a full 40-nibble lookup of its stored entry returns NotFound,
because the parser never checks the fanout table against OIDL and this
image's fanout sends the search to an empty slice. -/
theorem C4_parsed_lookup_misses :
    parseOk hashC imageC4Data 1150 = true ∧
    midxOidAt (midxOf hashC imageC4Data 1150) 0 =
      [5] ++ List.replicate 18 0 ++ [1] ∧
    midxPackAt (midxOf hashC imageC4Data 1150) 0 <
      (midxOf hashC imageC4Data 1150).packfile_names.length ∧
    midxRawOffsetAt (midxOf hashC imageC4Data 1150) 0 < 2 ^ 31 ∧
    git_multipack_index_entry_find (midxOf hashC imageC4Data 1150)
        (midxOidAt (midxOf hashC imageC4Data 1150) 0) 40 =
      .notFound "failed to find offset for multi-pack index entry" := by
  exact ⟨by decide, by decide, by decide, by decide, by decide⟩

open Multipack in
set_option maxHeartbeats 1000000 in
/-- C8 (amended): in a successfully parsed MIDX whose fanout table is
consistent with OIDL (a property the parser does not enforce; without it
the fanout can steer the search away from the sharing entries), if two
distinct stored entries at positions `i1 < i2` agree on their first `len`
hex nibbles (`1 ≤ len ≤ 39`; two distinct ids can share at most 39),
looking up their common `len`-nibble prefix returns Ambiguous. -/
theorem C8_prefix_ambiguous (hashFn : Bytes → Bytes) (data : Nat → Nat)
    (size : Nat) (m : git_multipack_index_file)
    (h : git_multipack_index_parse hashFn data size = .ok m)
    (hfan : fanoutConsistent m = true)
    (i1 i2 len : Nat) (hi12 : i1 < i2) (hi2 : i2 < m.num_objects)
    (hlen1 : 1 ≤ len) (hlen39 : len ≤ 39)
    (hshare : oidNcmpEq (midxOidAt m i1) (midxOidAt m i2) len = true) :
    git_multipack_index_entry_find m (padOid (midxOidAt m i1) len) len =
      .ambiguous "found multiple offsets for multi-pack index entry" := by
  obtain ⟨-, -, -, -, hs⟩ := parse_ok_spec h
  have hi1 : i1 < m.num_objects := lt_trans hi12 hi2
  set o1 := midxOidAt m i1 with ho1
  set o2 := midxOidAt m i2 with ho2
  set q := padOid o1 len with hqdef
  have ho1len : o1.length = 20 := midxOidAt_length m i1
  have ho2len : o2.length = 20 := midxOidAt_length m i2
  rw [oidNcmpEq, Bool.and_eq_true] at hshare
  obtain ⟨hshA, hshB⟩ := hshare
  have hTake : ∀ j, j < len / 2 → o1.getD j 0 = o2.getD j 0 := by
    intro j hj
    exact of_decide_eq_true (List.all_eq_true.mp hshA j (List.mem_range.mpr hj))
  have hHalf : len % 2 = 1 →
      o1.getD (len / 2) 0 / 16 = o2.getD (len / 2) 0 / 16 := by
    intro hodd
    rw [Bool.or_eq_true] at hshB
    rcases hshB with hc | hc
    · exact absurd (of_decide_eq_true hc) (by omega)
    · exact of_decide_eq_true hc
  have hqtake : q.take (len / 2) = o1.take (len / 2) :=
    padOid_take o1 (by omega) (by omega)
  have hqdrop := padOid_drop o1 hlen39
  have hqsplit : q = o1.take (len / 2) ++
      ((if len % 2 = 1 then o1.getD (len / 2) 0 / 16 * 16 else 0) ::
        List.replicate (19 - len / 2) 0) := by
    conv_lhs => rw [← List.take_append_drop (len / 2) q]
    rw [hqtake, hqdrop]
  have ho2take : o2.take (len / 2) = o1.take (len / 2) :=
    take_eq_of_getD (by omega) (by omega) (fun j hj => (hTake j hj).symm)
  have ho2split : o2 = o1.take (len / 2) ++
      (o2.getD (len / 2) 0 :: o2.drop (len / 2 + 1)) := by
    conv_lhs => rw [split_at_getD o2 (len / 2) (by omega)]
    rw [ho2take]
  have hqle1 : memcmpB q o1 ≤ 0 := by
    have ho1split := split_at_getD o1 (len / 2) (by omega : len / 2 < o1.length)
    have h2 : memcmpB q o1 = memcmpB q (o1.take (len / 2) ++
        (o1.getD (len / 2) 0 :: o1.drop (len / 2 + 1))) := by
      conv_lhs => rw [ho1split]
    rw [h2, hqsplit, memcmpB_append_left]
    have hqk_le : (if len % 2 = 1 then o1.getD (len / 2) 0 / 16 * 16 else 0) ≤
        o1.getD (len / 2) 0 := by
      split_ifs
      · exact Nat.div_mul_le_self _ _
      · exact Nat.zero_le _
    rcases eq_or_lt_of_le hqk_le with heq | hlt2
    · rw [heq]
      simp only [memcmpB, lt_self_iff_false, if_false]
      apply memcmpB_replicate_zero_le
      rw [List.length_drop]
      omega
    · rw [memcmpB_cons_lt _ _ hlt2]
      decide
  have hbetween : ∀ x : Bytes, x.length = 20 → memcmpB q x ≤ 0 →
      memcmpB x o2 ≤ 0 → oidNcmpEq q x len = true := by
    intro x hxlen hq2 hx2
    rw [hqsplit] at hq2
    rw [ho2split] at hx2
    obtain ⟨xk, x2, hxeq, hge, hle⟩ := memcmpB_between _ x
      (fun u hu => List.eq_of_mem_replicate hu) hq2 hx2
    have hPlen : (o1.take (len / 2)).length = len / 2 := by
      rw [List.length_take]; omega
    have hxtake : ∀ j, j < len / 2 → x.getD j 0 = o1.getD j 0 := by
      intro j hj
      rw [hxeq, getD_append_lt _ _ (by rw [hPlen]; omega), getD_take_lt o1 hj]
    have hxk : x.getD (len / 2) 0 = xk := by
      rw [hxeq]
      have hx3 := getD_append_len (o1.take (len / 2)) xk x2
      rwa [hPlen] at hx3
    rw [oidNcmpEq, Bool.and_eq_true]
    constructor
    · rw [List.all_eq_true]
      intro j hj
      rw [List.mem_range] at hj
      apply decide_eq_true
      rw [hqdef, padOid_getD o1 len (by omega), if_pos (by omega), hxtake j hj]
    · rw [Bool.or_eq_true]
      by_cases hodd : len % 2 = 1
      · right
        apply decide_eq_true
        rw [hqdef, padOid_getD o1 len (by omega), if_neg (by omega),
          if_pos (by omega), hxk]
        have hq16 : o1.getD (len / 2) 0 / 16 * 16 / 16 =
            o1.getD (len / 2) 0 / 16 := Nat.mul_div_cancel _ (by omega)
        rw [hq16]
        have h2 := hHalf hodd
        have hge2 : o1.getD (len / 2) 0 / 16 * 16 ≤ xk := by
          rwa [if_pos hodd] at hge
        omega
      · left
        apply decide_eq_true
        omega
  have hex : ∃ jj, jj < m.num_objects ∧ memcmpB q (midxOidAt m jj) ≤ 0 :=
    ⟨i1, hi1, hqle1⟩
  set i0 := Nat.find hex with hi0def
  have hP0 := Nat.find_spec hex
  have hi0le1 : i0 ≤ i1 := Nat.find_min' hex ⟨hi1, hqle1⟩
  have hmin : ∀ j, j < i0 → memcmpB (midxOidAt m j) q < 0 := by
    intro j hj
    have hnm := Nat.find_min hex hj
    have h2 : ¬memcmpB q (midxOidAt m j) ≤ 0 := by
      intro hcon
      exact hnm ⟨by omega, hcon⟩
    have hsw := memcmpB_swap q (midxOidAt m j)
    omega
  have hb256 : q.getD 0 0 < 256 := by
    have h1 : o1.getD 0 0 < 256 := by
      rw [ho1, midxOidAt, oidAt_getD0]
      exact Nat.mod_lt _ (by omega)
    rw [hqdef, padOid_getD o1 len (by omega)]
    split_ifs <;> omega
  have hhiN : readU32 m.data (m.oid_fanout + 4 * q.getD 0 0) ≤ m.num_objects := by
    rw [fanout_bucket hfan hb256]
    exact le_trans (List.length_filter_le _ _) (by simp)
  have hhi : i0 ≤ readU32 m.data (m.oid_fanout + 4 * q.getD 0 0) := by
    rw [fanout_bucket hfan hb256]
    apply le_count_of_sub (by omega)
    intro j hj
    have hlt := hmin j hj
    simpa using memcmpB_getD0_le (le_of_lt hlt)
  have hlo : (if q.getD 0 0 = 0 then 0
      else readU32 m.data (m.oid_fanout + 4 * (q.getD 0 0 - 1))) ≤ i0 := by
    by_cases hb0 : q.getD 0 0 = 0
    · rw [if_pos hb0]
      exact Nat.zero_le _
    · rw [if_neg hb0, fanout_bucket hfan (by omega)]
      apply count_le_of_sub
      intro j hjN hpj
      have hjlt : (midxOidAt m j).getD 0 0 < q.getD 0 0 := by
        have := of_decide_eq_true hpj
        omega
      have hcmp : memcmpB (midxOidAt m j) q < 0 := by
        rw [memcmpB_getD0_lt (midxOidAt_ne_nil m j) hjlt]
        decide
      by_contra hgej
      push_neg at hgej
      have hij : memcmpB (midxOidAt m i0) (midxOidAt m j) ≤ 0 :=
        sorted_chain_le hs i0 j hgej hjN
      have hq_j : memcmpB q (midxOidAt m j) ≤ 0 := memcmpB_le_trans hP0.2 hij
      have habs := memcmpB_lt_of_lt_of_le hcmp hq_j
      rw [memcmpB_self] at habs
      exact absurd habs (by decide)
  have hi0N : i0 < m.num_objects := hP0.1
  have hn1 : i0 + 1 < m.num_objects := by omega
  have hsh0 : oidNcmpEq q (midxOidAt m i0) len = true :=
    hbetween _ (midxOidAt_length m i0) hP0.2
      (sorted_chain_le hs i0 i2 (by omega) hi2)
  have hq1 : memcmpB q (midxOidAt m (i0 + 1)) ≤ 0 :=
    memcmpB_le_trans hP0.2 (sorted_chain_le hs i0 (i0 + 1) (by omega) hn1)
  have hsh1 : oidNcmpEq q (midxOidAt m (i0 + 1)) len = true :=
    hbetween _ (midxOidAt_length m (i0 + 1)) hq1
      (sorted_chain_le hs (i0 + 1) i2 (by omega) hi2)
  have hposd : findPos m q = (i0 : Int) ∨ findPos m q = -1 - (i0 : Int) := by
    by_cases hhit : midxOidAt m i0 = q
    · left
      rw [findPos]
      have hstrict : i0 < readU32 m.data (m.oid_fanout + 4 * q.getD 0 0) := by
        rw [fanout_bucket hfan hb256]
        refine Nat.lt_of_lt_of_le (by omega : i0 < i0 + 1)
          (le_count_of_sub (by omega) ?_)
        intro j hj
        have hle0 : memcmpB (midxOidAt m j) (midxOidAt m i0) ≤ 0 :=
          sorted_chain_le hs j i0 (by omega) hi0N
        have h3 : memcmpB (midxOidAt m j) q ≤ 0 := by rwa [hhit] at hle0
        simpa using memcmpB_getD0_le h3
      exact lookup_sha1_hit2 hs hhit hlo hstrict hhiN
    · right
      rw [findPos]
      apply lookup_sha1_insert q ?_ hlo hhi ?_ ?_
      · intro j hj1 hj2 heq
        rcases Nat.lt_trichotomy j i0 with hc | hc | hc
        · have h4 := hmin j hc
          rw [heq, memcmpB_self] at h4
          exact absurd h4 (by decide)
        · exact hhit (hc ▸ heq)
        · have hlt2 := sorted_chain_lt hs i0 j hc (by omega)
          rw [heq] at hlt2
          have h4 := memcmpB_lt_of_le_of_lt hP0.2 hlt2
          rw [memcmpB_self] at h4
          exact absurd h4 (by decide)
      · intro j _ hj
        exact hmin j hj
      · intro j hj1 hj2 hcon
        have hij : memcmpB (midxOidAt m i0) (midxOidAt m j) ≤ 0 :=
          sorted_chain_le hs i0 j hj1 (by omega)
        have hq_j := memcmpB_le_trans hP0.2 hij
        have h4 := memcmpB_lt_of_lt_of_le hcon hq_j
        rw [memcmpB_self] at h4
        exact absurd h4 (by decide)
  exact entry_find_ambiguous hposd (by omega) hi0N hsh0 hn1 hsh1

open Multipack in
set_option maxRecDepth 10000 in
/-- Witness for the amended C8 at `imageA`: its two stored ids have first
bytes `0x00` and `0x05`, sharing their first nibble; the 1-nibble lookup of
that shared prefix is Ambiguous. -/
theorem C8_prefix_ambiguous_witness :
    git_multipack_index_entry_find (midxOf hashC imageAData 1198)
        (padOid (midxOidAt (midxOf hashC imageAData 1198) 0) 1) 1 =
      .ambiguous "found multiple offsets for multi-pack index entry" :=
  C8_prefix_ambiguous hashC imageAData 1198 (midxOf hashC imageAData 1198)
    rfl (by decide) 0 1 1 (by decide) (by decide) (by decide) (by decide)
    (by decide)

open Multipack in
set_option maxRecDepth 10000 in
/-- C8 counterexample: `imageC8` parses successfully and holds two distinct
entries sharing their first nibble, yet the 1-nibble lookup of the shared
prefix returns NotFound instead of Ambiguous, because the parser never
checks the fanout table against OIDL and this image inflates the low fanout
slots, making the bucket of the query byte an empty slice. -/
theorem C8_parsed_prefix_lookup_misses :
    parseOk hashC imageC8Data 1178 = true ∧
    midxOidAt (midxOf hashC imageC8Data 1178) 0 ≠
      midxOidAt (midxOf hashC imageC8Data 1178) 1 ∧
    oidNcmpEq (midxOidAt (midxOf hashC imageC8Data 1178) 0)
      (midxOidAt (midxOf hashC imageC8Data 1178) 1) 1 = true ∧
    git_multipack_index_entry_find (midxOf hashC imageC8Data 1178)
        (padOid (midxOidAt (midxOf hashC imageC8Data 1178) 0) 1) 1 =
      .notFound "failed to find offset for multi-pack index entry" := by
  exact ⟨by decide, by decide, by decide, by decide⟩

namespace Mwindow

theorem openSelect_covered (window_size : Nat) (f : git_mwindow_file)
    (cursor : Option git_mwindow) (offset extra : Nat) (w : git_mwindow)
    (h : openSelect window_size f cursor offset extra = .reused w ∨
         openSelect window_size f cursor offset extra = .found w) :
    (git_mwindow_contains w offset &&
      git_mwindow_contains w (offset + extra)) = true := by
  rw [openSelect.eq_def] at h
  cases cursor with
  | none =>
    dsimp only at h
    cases hf : f.windows.find? (fun w2 => git_mwindow_contains w2 offset &&
        git_mwindow_contains w2 (offset + extra)) with
    | none => rw [hf] at h; rcases h with h | h <;> simp at h
    | some w2 =>
      rw [hf] at h
      rcases h with h | h
      · simp at h
      · cases h
        have h5 := List.find?_some hf
        exact h5
  | some w1 =>
    dsimp only at h
    by_cases hcv : (git_mwindow_contains w1 offset &&
        git_mwindow_contains w1 (offset + extra)) = true
    · rw [if_pos hcv] at h
      rcases h with h | h
      · cases h; exact hcv
      · simp at h
    · rw [if_neg hcv] at h
      cases hf : f.windows.find? (fun w2 => git_mwindow_contains w2 offset &&
          git_mwindow_contains w2 (offset + extra)) with
      | none => rw [hf] at h; rcases h with h | h <;> simp at h
      | some w2 =>
        rw [hf] at h
        rcases h with h | h
        · simp at h
        · cases h
          have h5 := List.find?_some hf
          exact h5

theorem openSelect_created_geom (window_size : Nat) (f : git_mwindow_file)
    (cursor : Option git_mwindow) (offset extra : Nat) (w : git_mwindow)
    (h : openSelect window_size f cursor offset extra = .created w) :
    w = newWindowGeom window_size f.size offset := by
  rw [openSelect.eq_def] at h
  cases cursor with
  | none =>
    dsimp only at h
    cases hf : f.windows.find? (fun w2 => git_mwindow_contains w2 offset &&
        git_mwindow_contains w2 (offset + extra)) with
    | none => rw [hf] at h; cases h; rfl
    | some w2 => rw [hf] at h; simp at h
  | some w1 =>
    dsimp only at h
    by_cases hcv : (git_mwindow_contains w1 offset &&
        git_mwindow_contains w1 (offset + extra)) = true
    · rw [if_pos hcv] at h; simp at h
    · rw [if_neg hcv] at h
      cases hf : f.windows.find? (fun w2 => git_mwindow_contains w2 offset &&
          git_mwindow_contains w2 (offset + extra)) with
      | none => rw [hf] at h; cases h; rfl
      | some w2 => rw [hf] at h; simp at h

theorem newWindowGeom_contains (window_size size offset : Nat)
    (hws : 2 ≤ window_size) (hoff : offset ≤ size) :
    (newWindowGeom window_size size offset).offset ≤ offset ∧
    offset ≤ (newWindowGeom window_size size offset).offset +
      (newWindowGeom window_size size offset).len := by
  dsimp only [newWindowGeom]
  have hwalign : 1 ≤ window_size / 2 := by omega
  have h1 : offset % (window_size / 2) +
      window_size / 2 * (offset / (window_size / 2)) = offset :=
    Nat.mod_add_div _ _
  have h2 : offset % (window_size / 2) < window_size / 2 :=
    Nat.mod_lt _ (by omega)
  have h3 : offset / (window_size / 2) * (window_size / 2) =
      window_size / 2 * (offset / (window_size / 2)) := Nat.mul_comm _ _
  have h4 : window_size / 2 ≤ window_size := Nat.div_le_self _ _
  rcases Nat.le_total (size - offset / (window_size / 2) * (window_size / 2))
      window_size with h5 | h5
  · rw [min_eq_left h5]
    omega
  · rw [min_eq_right h5]
    omega

end Mwindow

open Mwindow in
/-- C5 (amended): the window selected by a successful mwc `open` covers the
requested span only in the CLOSED sense.  A reused or found window `w`
satisfies `w.offset ≤ offset` and `offset + extra ≤ w.offset + w.len`
(the containment test uses `<=`, so one-past-end positions pass and only
`extra` — not `extra + 1` — bytes are guaranteed); a freshly created
window is never re-checked against `offset + extra` and only satisfies
`w.offset ≤ offset ≤ w.offset + w.len` (given `2 ≤ window_size` and
`offset ≤ file size`). -/
theorem C5_open_window_coverage (window_size : Nat) (f : git_mwindow_file)
    (cursor : Option git_mwindow) (offset extra : Nat) (w : git_mwindow)
    (hws : 2 ≤ window_size) (hoff : offset ≤ f.size) :
    ((openSelect window_size f cursor offset extra = .reused w ∨
      openSelect window_size f cursor offset extra = .found w) →
      w.offset ≤ offset ∧ offset + extra ≤ w.offset + w.len) ∧
    (openSelect window_size f cursor offset extra = .created w →
      w.offset ≤ offset ∧ offset ≤ w.offset + w.len) := by
  constructor
  · intro hc
    have hcov := openSelect_covered window_size f cursor offset extra w hc
    rw [Bool.and_eq_true, git_mwindow_contains, git_mwindow_contains] at hcov
    rw [Bool.and_eq_true, Bool.and_eq_true] at hcov
    obtain ⟨⟨ha, hb⟩, hc2, hd⟩ := hcov
    have ha2 := of_decide_eq_true ha
    have hd2 := of_decide_eq_true hd
    exact ⟨ha2, hd2⟩
  · intro hc
    have hw := openSelect_created_geom window_size f cursor offset extra w hc
    rw [hw]
    exact newWindowGeom_contains window_size f.size offset hws hoff

open Mwindow in
/-- Witness for the amended C5: with no cursor and an empty window list,
`open` at offset 3 of a 20-byte file creates the aligned window `[0, 10)`,
which contains the offset. -/
theorem C5_open_window_coverage_witness :
    ((openSelect 10 ⟨1, 20, []⟩ none 3 0 = .reused ⟨0, 10, 0, 0⟩ ∨
      openSelect 10 ⟨1, 20, []⟩ none 3 0 = .found ⟨0, 10, 0, 0⟩) →
      (0 : Nat) ≤ 3 ∧ 3 + 0 ≤ 0 + 10) ∧
    (openSelect 10 ⟨1, 20, []⟩ none 3 0 = .created ⟨0, 10, 0, 0⟩ →
      (0 : Nat) ≤ 3 ∧ (3 : Nat) ≤ 0 + 10) :=
  C5_open_window_coverage 10 ⟨1, 20, []⟩ none 3 0 ⟨0, 10, 0, 0⟩
    (by decide) (by decide)

open Mwindow in
/-- C5 counterexample: a cursor window mapping `[0, 10)` is REUSED for
`offset = 10`, `extra = 0` — the one-past-end position — because the
containment test is `<=`; the strict coverage `offset + extra <
w.offset + w.len` claimed by the spec fails, and the window holds zero
bytes at the returned position rather than `extra + 1 = 1`. -/
theorem C5_one_past_end_reused :
    openSelect 10 ⟨1, 20, []⟩ (some ⟨0, 10, 0, 1⟩) 10 0 =
      .reused ⟨0, 10, 0, 1⟩ ∧
    ¬(10 + 0 < 0 + 10) ∧ (⟨0, 10, 0, 1⟩ : git_mwindow).len - (10 - 0) = 0 := by
  exact ⟨by decide, by decide, by decide⟩

open Mwindow in
/-- C6: the mapped-bytes accounting invariant is real on the success
paths but BROKEN by the failure path of `new_window`: starting from a
state satisfying `mapped = ctlSum` (one registered file, no windows), a
successful `open` preserves the equality, but when both mmap attempts
fail, `open` reports failure and leaves `mapped` exceeding the true sum
of mapped window lengths by the length of the never-mapped window
(`ctl->mapped += len` precedes the mmap attempts and is not undone). -/
theorem C6_mapped_leak_on_failed_mmap :
    ctlC6.mapped = ctlSum ctlC6 ∧
    (git_mwindow_open 10 100 ctlC6 0 none 0 0 true true).1 = true ∧
    (git_mwindow_open 10 100 ctlC6 0 none 0 0 true true).2.mapped =
      ctlSum (git_mwindow_open 10 100 ctlC6 0 none 0 0 true true).2 ∧
    (git_mwindow_open 10 100 ctlC6 0 none 0 0 false false).1 = false ∧
    (git_mwindow_open 10 100 ctlC6 0 none 0 0 false false).2.mapped =
      ctlSum (git_mwindow_open 10 100 ctlC6 0 none 0 0 false false).2 + 10 := by
  exact ⟨by decide, by decide, by decide, by decide, by decide⟩

namespace Multipack

theorem buildNames_eq_none (l : List git_pack_file) (p : git_pack_file)
    (hp : p ∈ l) (hbad : packNameOk p.pack_name = false) :
    buildNames l = none := by
  induction l with
  | nil => exact absurd hp (List.not_mem_nil p)
  | cons q rest ih =>
    rw [buildNames]
    rcases List.mem_cons.mp hp with rfl | hp2
    · rw [if_neg (by simp [hbad])]
    · by_cases hq : packNameOk q.pack_name = true
      · rw [if_pos hq, ih hp2]
      · rw [if_neg hq]

end Multipack

open Multipack in
/-- C9 (amended): a pack whose name does not end in `".pack"` is not
skipped individually: the writer abandons its loop via `goto cleanup`
with `error` still 0, so dump reports success but its output buffer is
EMPTY — the names and entries of every other pack are omitted too — and
the empty buffer does not parse. -/
theorem C9_bad_pack_name_aborts_dump (hashFn : Bytes → Bytes)
    (packs : List git_pack_file) (p : git_pack_file) (hp : p ∈ packs)
    (hbad : packNameOk p.pack_name = false) :
    git_multipack_index_writer_dump hashFn packs = [] ∧
    git_multipack_index_parse hashFn
      (bytesData (git_multipack_index_writer_dump hashFn packs))
      (git_multipack_index_writer_dump hashFn packs).length =
      .error "multi-pack index is too short" := by
  have hmem : p ∈ sortPacks packs :=
    (List.perm_insertionSort _ packs).mem_iff.mpr hp
  have hnone : buildNames (sortPacks packs) = none :=
    buildNames_eq_none _ p hmem hbad
  have hdump : git_multipack_index_writer_dump hashFn packs = [] := by
    rw [git_multipack_index_writer_dump]
    dsimp only
    rw [hnone]
  refine ⟨hdump, ?_⟩
  rw [hdump]
  rfl

open Multipack in
set_option maxRecDepth 10000 in
/-- Witness for the amended C9: a two-pack writer whose second pack is
named `"b.idx"` dumps the empty, unparseable buffer. -/
theorem C9_bad_pack_name_aborts_dump_witness :
    git_multipack_index_writer_dump hashC [packGoodC9, packBadC9] = [] ∧
    git_multipack_index_parse hashC
      (bytesData (git_multipack_index_writer_dump hashC
        [packGoodC9, packBadC9]))
      (git_multipack_index_writer_dump hashC [packGoodC9, packBadC9]).length =
      .error "multi-pack index is too short" :=
  C9_bad_pack_name_aborts_dump hashC [packGoodC9, packBadC9] packBadC9
    (by decide) (by decide)

open Multipack in
set_option maxRecDepth 10000 in
/-- C9 counterexample: the bad-named pack is not "silently skipped with
only its name and entries omitted": its presence empties the whole dump
(which then does not parse), while without it the dump is non-empty. -/
theorem C9_dump_not_skipping :
    git_multipack_index_writer_dump hashC [packGoodC9, packBadC9] = [] ∧
    parseOk hashC (bytesData []) 0 = false ∧
    git_multipack_index_writer_dump hashC [packGoodC9] ≠ [] := by
  exact ⟨by decide, by decide, by decide⟩

namespace Multipack

theorem u32be_length (x : Nat) : (u32be x).length = 4 := rfl

theorem u64be_length (x : Nat) : (u64be x).length = 8 := rfl

theorem u32be_lt (x : Nat) : ∀ b ∈ u32be x, b < 256 := by
  intro b hb
  simp only [u32be, List.mem_cons, List.not_mem_nil, or_false] at hb
  rcases hb with rfl | rfl | rfl | rfl <;> exact Nat.mod_lt _ (by omega)

theorem u64be_lt (x : Nat) : ∀ b ∈ u64be x, b < 256 := by
  intro b hb
  rcases List.mem_append.mp hb with h | h
  · exact u32be_lt _ b h
  · exact u32be_lt _ b h

theorem getD_append_add (a b : Bytes) (j : Nat) :
    (a ++ b).getD (a.length + j) 0 = b.getD j 0 := by
  induction a with
  | nil => simp
  | cons x a ih => simpa [Nat.succ_add] using ih

theorem matchesAt_append {data : Nat → Nat} {pos : Nat} {a b : Bytes} :
    matchesAt data pos (a ++ b) ↔
      matchesAt data pos a ∧ matchesAt data (pos + a.length) b := by
  constructor
  · intro h
    constructor
    · intro j hj
      have h2 := h j (by rw [List.length_append]; omega)
      rwa [getD_append_lt _ _ hj] at h2
    · intro j hj
      have h2 := h (a.length + j) (by rw [List.length_append]; omega)
      rw [getD_append_add] at h2
      rw [← Nat.add_assoc] at h2
      exact h2
  · intro ⟨h1, h2⟩ j hj
    rw [List.length_append] at hj
    by_cases hja : j < a.length
    · rw [getD_append_lt _ _ hja]
      exact h1 j hja
    · have h3 := h2 (j - a.length) (by omega)
      rw [show j = a.length + (j - a.length) from by omega, getD_append_add,
        ← Nat.add_assoc]
      exact h3

theorem matchesAt_bytesData (bs : Bytes) : matchesAt (bytesData bs) 0 bs := by
  intro j hj
  simp [bytesData]

theorem matchesAt_mono {data : Nat → Nat} {pos : Nat} {a b : Bytes}
    (h : matchesAt data pos (a ++ b)) : matchesAt data pos a :=
  (matchesAt_append.mp h).1

theorem byteAt_of_matchesAt {data : Nat → Nat} {pos : Nat} {bs : Bytes}
    (h : matchesAt data pos bs) {j : Nat} (hj : j < bs.length) :
    byteAt data (pos + j) = bs.getD j 0 % 256 := h j hj

theorem readU32_of_matchesAt {data : Nat → Nat} {pos : Nat} {x : Nat}
    (h : matchesAt data pos (u32be x)) : readU32 data pos = x % 2 ^ 32 := by
  have h0 := h 0 (by rw [u32be_length]; omega)
  have h1 := h 1 (by rw [u32be_length]; omega)
  have h2 := h 2 (by rw [u32be_length]; omega)
  have h3 := h 3 (by rw [u32be_length]; omega)
  simp only [u32be] at h0 h1 h2 h3
  rw [readU32, byteAt, byteAt, byteAt, byteAt]
  rw [Nat.add_zero] at h0
  rw [h0, h1, h2, h3]
  simp only [List.getD_cons_zero, List.getD_cons_succ]
  omega

theorem readU64_of_matchesAt {data : Nat → Nat} {pos : Nat} {x : Nat}
    (h : matchesAt data pos (u64be x)) : readU64 data pos = x % 2 ^ 64 := by
  rw [u64be] at h
  rw [matchesAt_append] at h
  have h1 := readU32_of_matchesAt h.1
  have h2 := readU32_of_matchesAt (by simpa [u32be_length] using h.2)
  rw [readU64, h1, h2]
  omega

theorem readBytes_of_matchesAt {data : Nat → Nat} {pos : Nat} {bs : Bytes}
    (h : matchesAt data pos bs) (hlt : ∀ b ∈ bs, b < 256) {len : Nat}
    (hlen : len = bs.length) : readBytes data pos len = bs := by
  subst hlen
  apply List.ext_getElem
  · simp [readBytes]
  · intro j hj hj2
    simp only [readBytes, List.getElem_map, List.getElem_range]
    have hb := h j hj2
    have hlt2 : bs.getD j 0 < 256 := by
      rw [List.getD_eq_getElem _ _ hj2]
      exact hlt _ (List.getElem_mem hj2)
    rw [byteAt, hb, Nat.mod_eq_of_lt hlt2, List.getD_eq_getElem _ _ hj2]

end Multipack

namespace Multipack

theorem buildNames_eq_some (l : List git_pack_file)
    (h : ∀ p ∈ l, packNameOk p.pack_name = true) :
    buildNames l = some (namesFlat (l.map (fun p => idxName p.pack_name))) := by
  induction l with
  | nil => rfl
  | cons q rest ih =>
    rw [buildNames, if_pos (h q (by simp)), ih (fun p hp => h p (by simp [hp]))]
    simp [namesFlat]

theorem dump_eq (hashFn : Bytes → Bytes) (packs : List git_pack_file)
    (h : ∀ p ∈ sortPacks packs, packNameOk p.pack_name = true) :
    git_multipack_index_writer_dump hashFn packs =
      dumpPre packs ++ hashFn (dumpPre packs) := by
  rw [git_multipack_index_writer_dump, buildNames_eq_some _ h]
  rfl

theorem pad4_eq (bs : Bytes) :
    pad4 bs = bs ++ List.replicate ((4 - bs.length % 4) % 4) 0 := rfl

theorem pad4_length_mod (bs : Bytes) : (pad4 bs).length % 4 = 0 := by
  rw [pad4, List.length_append, List.length_replicate]
  omega

theorem fanoutGo_length : ∀ (k : Nat) (es : List git_multipack_entry)
    (cnt i : Nat), (fanoutGo k es cnt i).length = 4 * k := by
  intro k
  induction k with
  | zero => intro es cnt i; rfl
  | succ k ih =>
    intro es cnt i
    rw [fanoutGo]
    rw [List.length_append, u32be_length, ih]
    omega

theorem oidfBytes_length (es : List git_multipack_entry) :
    (oidfBytes es).length = 1024 := fanoutGo_length 256 es 0 0

theorem offsetsGo_fst_length : ∀ (es : List git_multipack_entry) (lcnt : Nat),
    (offsetsGo es lcnt).1.length = 8 * es.length := by
  intro es
  induction es with
  | nil => intro lcnt; rfl
  | cons e rest ih =>
    intro lcnt
    rw [offsetsGo]
    dsimp only
    by_cases hl : 2 ^ 31 ≤ e.offset
    · rw [if_pos hl]
      dsimp only
      rw [List.length_append, List.length_append, u32be_length, u32be_length,
        ih]
      rw [List.length_cons]
      omega
    · rw [if_neg hl]
      dsimp only
      rw [List.length_append, List.length_append, u32be_length, u32be_length,
        ih]
      rw [List.length_cons]
      omega

theorem offsetsGo_snd : ∀ (es : List git_multipack_entry) (lcnt : Nat),
    (offsetsGo es lcnt).2 =
      (es.filter (fun e => 2 ^ 31 ≤ e.offset)).flatMap
        (fun e => u64be e.offset) := by
  intro es
  induction es with
  | nil => intro lcnt; rfl
  | cons e rest ih =>
    intro lcnt
    rw [offsetsGo]
    dsimp only
    by_cases hl : 2 ^ 31 ≤ e.offset
    · rw [if_pos hl, List.filter_cons_of_pos (by simpa using hl)]
      dsimp only
      rw [ih, List.flatMap_cons]
    · rw [if_neg hl, List.filter_cons_of_neg (by simpa using hl)]
      dsimp only
      rw [ih]

theorem flatMap_fixed_length {α : Type} (f : α → Bytes) (c : Nat) :
    ∀ (l : List α), (∀ a ∈ l, (f a).length = c) →
      (l.flatMap f).length = c * l.length := by
  intro l
  induction l with
  | nil => intro _; simp
  | cons x rest ih =>
    intro h
    rw [List.flatMap_cons, List.length_append, h x (by simp),
      ih (fun a ha => h a (by simp [ha])), List.length_cons]
    ring

theorem offsetsGo_snd_length (es : List git_multipack_entry) (lcnt : Nat) :
    (offsetsGo es lcnt).2.length = 8 * largeCount es := by
  rw [offsetsGo_snd, largeCount,
    flatMap_fixed_length _ 8 _ (fun a _ => u64be_length _)]

end Multipack

namespace Multipack

theorem matchesAt_cons {data : Nat → Nat} {pos : Nat} {x : Nat} {bs : Bytes} :
    matchesAt data pos (x :: bs) ↔
      data pos % 256 = x % 256 ∧ matchesAt data (pos + 1) bs := by
  constructor
  · intro h
    refine ⟨by simpa using h 0 (by simp), ?_⟩
    intro j hj
    have h2 := h (j + 1) (by simp; omega)
    rw [show pos + (j + 1) = pos + 1 + j from by omega] at h2
    simpa using h2
  · intro ⟨h1, h2⟩ j hj
    cases j with
    | zero => simpa using h1
    | succ j =>
      have h3 := h2 j (by simp at hj; omega)
      rw [show pos + 1 + j = pos + (j + 1) from by omega] at h3
      simpa using h3

theorem strnlenAt_of_matchesAt {data : Nat → Nat} :
    ∀ (n : Bytes) (pos : Nat) (rest : Bytes) (m : Nat),
    matchesAt data pos (n ++ 0 :: rest) →
    (∀ b ∈ n, 0 < b ∧ b < 256) →
    n.length + 1 ≤ m →
    strnlenAt data pos m = n.length := by
  intro n
  induction n with
  | nil =>
    intro pos rest m h hb hm
    cases m with
    | zero => omega
    | succ m =>
      rw [strnlenAt]
      have h0 := (matchesAt_cons.mp (by simpa using h)).1
      rw [byteAt, if_pos (by omega)]
      rfl
  | cons x n ih =>
    intro pos rest m h hb hm
    cases m with
    | zero => omega
    | succ m =>
      rw [List.cons_append] at h
      obtain ⟨h0, h1⟩ := matchesAt_cons.mp h
      obtain ⟨hx0, hx256⟩ := hb x (by simp)
      rw [strnlenAt, byteAt, if_neg (by omega),
        ih (pos + 1) rest m h1 (fun b hbb => hb b (by simp [hbb]))
          (by simp at hm ⊢; omega)]
      simp

theorem parseNamesLoop_ok (data : Nat → Nat) :
    ∀ (ns : List Bytes) (pos sz : Nat) (prev : Option Bytes)
      (acc : List Bytes),
    matchesAt data pos (namesFlat ns) →
    (namesFlat ns).length ≤ sz →
    (∀ n ∈ ns, 4 < n.length ∧ (∀ b ∈ n, 0 < b ∧ b < 256) ∧
      n.drop (n.length - 4) = idxSuffix ∧ 47 ∉ n ∧ 92 ∉ n) →
    ns.Chain' (fun a b => memcmpB a b < 0) →
    (∀ q, prev = some q → ∀ hne : ns ≠ [], memcmpB q (ns.head hne) < 0) →
    parseNamesLoop data pos sz ns.length prev acc = .ok (acc.reverse ++ ns) := by
  intro ns
  induction ns with
  | nil =>
    intro pos sz prev acc _ _ _ _ _
    rw [show ([] : List Bytes).length = 0 from rfl, parseNamesLoop]
    simp
  | cons n rest ih =>
    intro pos sz prev acc hmatch hsz hvalid hchain hprev
    obtain ⟨hn4, hnb, hnidx, hn47, hn92⟩ := hvalid n (by simp)
    have hflat : namesFlat (n :: rest) = n ++ 0 :: namesFlat rest := by
      rw [namesFlat, List.flatMap_cons]
      simp [namesFlat]
    rw [hflat] at hmatch
    have hflatlen : (namesFlat (n :: rest)).length =
        n.length + 1 + (namesFlat rest).length := by
      rw [hflat]
      simp
      omega
    have hlen : strnlenAt data pos sz = n.length :=
      strnlenAt_of_matchesAt n pos (namesFlat rest) sz hmatch hnb
        (by omega)
    have hname : readBytes data pos n.length = n := by
      apply readBytes_of_matchesAt _ (fun b hb => (hnb b hb).2) rfl
      have h2 : n ++ 0 :: namesFlat rest = n ++ (0 :: namesFlat rest) := rfl
      rw [h2] at hmatch
      exact (matchesAt_append.mp hmatch).1
    rw [show (n :: rest).length = rest.length + 1 from by simp, parseNamesLoop]
    rw [hlen]
    rw [if_neg (by omega), if_neg (by omega), hname]
    rw [if_neg ?hsorted]
    case hsorted =>
      cases prev with
      | none => simp
      | some q =>
        have := hprev q rfl (by simp)
        simp only [List.head_cons] at this
        simp
        omega
    rw [if_neg (by push_neg; exact ⟨by omega, hnidx⟩), if_neg (by simp [hn47, hn92])]
    have hrec := ih (pos + (n.length + 1)) (sz - (n.length + 1)) (some n)
      (n :: acc) ?m1 ?m2 (fun n2 hn2 => hvalid n2 (by simp [hn2]))
      hchain.tail ?m4
    case m1 =>
      have h2 : n ++ 0 :: namesFlat rest = (n ++ [0]) ++ namesFlat rest := by
        simp
      rw [h2] at hmatch
      have := (matchesAt_append.mp hmatch).2
      simpa [Nat.add_assoc] using this
    case m2 => omega
    case m4 =>
      intro q hq hne
      cases hq
      cases rest with
      | nil => exact absurd rfl hne
      | cons r rest2 =>
        have := List.chain'_cons.mp hchain
        simpa using this.1
    rw [hrec]
    simp

theorem parse_names_of_layout (data : Nat → Nat) (pos : Nat) (ns : List Bytes)
    (padlen : Nat)
    (hpos : pos ≠ 0)
    (hne : ns ≠ [])
    (hmatch : matchesAt data pos (namesFlat ns))
    (hvalid : ∀ n ∈ ns, 4 < n.length ∧ (∀ b ∈ n, 0 < b ∧ b < 256) ∧
      n.drop (n.length - 4) = idxSuffix ∧ 47 ∉ n ∧ 92 ∉ n)
    (hchain : ns.Chain' (fun a b => memcmpB a b < 0)) :
    multipack_index_parse_packfile_names data ns.length
      ⟨pos, (namesFlat ns).length + padlen⟩ = .ok ns := by
  rw [multipack_index_parse_packfile_names]
  rw [if_neg hpos]
  have hlen0 : (namesFlat ns).length ≠ 0 := by
    cases ns with
    | nil => exact absurd rfl hne
    | cons n rest =>
      rw [namesFlat, List.flatMap_cons]
      simp
  rw [if_neg (show ¬((⟨pos, (namesFlat ns).length + padlen⟩ : Chunk).length = 0)
    from by
      intro hc
      rw [show (⟨pos, (namesFlat ns).length + padlen⟩ : Chunk).length =
        (namesFlat ns).length + padlen from rfl] at hc
      omega)]
  have := parseNamesLoop_ok data ns pos ((namesFlat ns).length + padlen)
    none [] hmatch (by omega) hvalid hchain (by intro q hq; cases hq)
  simpa using this

end Multipack

namespace Multipack

theorem length_filter_mono {α : Type} (p q : α → Bool)
    (h : ∀ a, p a = true → q a = true) :
    ∀ l : List α, (l.filter p).length ≤ (l.filter q).length := by
  intro l
  induction l with
  | nil => simp
  | cons x rest ih =>
    by_cases hx : p x = true
    · rw [List.filter_cons_of_pos hx, List.filter_cons_of_pos (h x hx)]
      simpa using ih
    · rw [List.filter_cons_of_neg (by simpa using hx)]
      refine le_trans ih (by
        by_cases hq : q x = true
        · rw [List.filter_cons_of_pos hq]; simp
        · rw [List.filter_cons_of_neg (by simpa using hq)])

theorem flatMap_congr {α : Type} (f g : α → Bytes) :
    ∀ l : List α, (∀ a ∈ l, f a = g a) → l.flatMap f = l.flatMap g := by
  intro l
  induction l with
  | nil => intro _; rfl
  | cons x rest ih =>
    intro h
    rw [List.flatMap_cons, List.flatMap_cons, h x (by simp),
      ih (fun a ha => h a (by simp [ha]))]

theorem takeWhile_eq_filter_sorted (i : Nat) :
    ∀ es : List git_multipack_entry,
    es.Pairwise (fun a b => a.sha1.getD 0 0 ≤ b.sha1.getD 0 0) →
    es.takeWhile (fun e => e.sha1.getD 0 0 ≤ i) =
      es.filter (fun e => e.sha1.getD 0 0 ≤ i) := by
  intro es
  induction es with
  | nil => intro _; rfl
  | cons e rest ih =>
    intro hs
    by_cases he : e.sha1.getD 0 0 ≤ i
    · rw [List.takeWhile_cons_of_pos (by simpa using he),
        List.filter_cons_of_pos (by simpa using he), ih hs.of_cons]
    · rw [List.takeWhile_cons_of_neg (by simpa using he),
        List.filter_cons_of_neg (by simpa using he)]
      symm
      rw [List.filter_eq_nil_iff]
      intro x hx
      have h2 := (List.pairwise_cons.mp hs).1 x hx
      simp only [decide_eq_true_eq]
      omega

theorem drop_takeWhile_length {α : Type} (p : α → Bool) :
    ∀ l : List α, l.drop (l.takeWhile p).length = l.dropWhile p := by
  intro l
  induction l with
  | nil => rfl
  | cons x rest ih =>
    by_cases hx : p x = true
    · rw [List.takeWhile_cons_of_pos hx, List.dropWhile_cons_of_pos hx,
        List.length_cons, List.drop_succ_cons, ih]
    · rw [List.takeWhile_cons_of_neg (by simpa using hx),
        List.dropWhile_cons_of_neg (by simpa using hx)]
      rfl

theorem fanoutGo_eq : ∀ (k : Nat) (es : List git_multipack_entry) (cnt i : Nat),
    es.Pairwise (fun a b => a.sha1.getD 0 0 ≤ b.sha1.getD 0 0) →
    fanoutGo k es cnt i =
      (List.range' i k).flatMap (fun j =>
        u32be (cnt + (es.filter (fun e => e.sha1.getD 0 0 ≤ j)).length)) := by
  intro k
  induction k with
  | zero => intro es cnt i _; rfl
  | succ k ih =>
    intro es cnt i hs
    rw [fanoutGo]
    have htf := takeWhile_eq_filter_sorted i es hs
    have hsplit : es = es.takeWhile (fun e => e.sha1.getD 0 0 ≤ i) ++
        es.dropWhile (fun e => e.sha1.getD 0 0 ≤ i) :=
      (List.takeWhile_append_dropWhile _ _).symm
    have hdrop : es.drop (es.takeWhile
        (fun e => e.sha1.getD 0 0 ≤ i)).length =
        es.dropWhile (fun e => e.sha1.getD 0 0 ≤ i) :=
      drop_takeWhile_length _ es
    have hdw : (es.dropWhile (fun e => e.sha1.getD 0 0 ≤ i)).Pairwise
        (fun a b => a.sha1.getD 0 0 ≤ b.sha1.getD 0 0) :=
      hs.sublist (List.dropWhile_sublist _)
    rw [hdrop, ih _ _ _ hdw]
    rw [List.range'_succ, List.flatMap_cons]
    congr 1
    · rw [htf]
    · apply flatMap_congr
      intro j hj
      have hij : i < j := by
        have h2 := (List.mem_range'_1.mp hj).1
        omega
      congr 1
      have hfsplit : es.filter (fun e => e.sha1.getD 0 0 ≤ j) =
          es.takeWhile (fun e => e.sha1.getD 0 0 ≤ i) ++
          (es.dropWhile (fun e => e.sha1.getD 0 0 ≤ i)).filter
            (fun e => e.sha1.getD 0 0 ≤ j) := by
        conv_lhs => rw [hsplit]
        rw [List.filter_append]
        congr 1
        rw [List.filter_eq_self]
        intro x hx
        have := List.mem_takeWhile_imp hx
        simp at this ⊢
        omega
      rw [hfsplit, List.length_append, htf]
      omega

end Multipack

namespace Multipack

theorem fanoutLoop_ok (data : Nat → Nat) :
    ∀ (vals : List Nat) (pos nr : Nat),
    matchesAt data pos (vals.flatMap u32be) →
    (∀ v ∈ vals, v < 2 ^ 32) →
    (nr :: vals).Chain' (· ≤ ·) →
    fanoutLoop data pos vals.length nr = .ok (vals.getLastD nr) := by
  intro vals
  induction vals with
  | nil => intro pos nr _ _ _; rfl
  | cons v rest ih =>
    intro pos nr hmatch hlt hchain
    rw [List.flatMap_cons] at hmatch
    obtain ⟨h1, h2⟩ := matchesAt_append.mp hmatch
    have hv : readU32 data pos = v := by
      rw [readU32_of_matchesAt h1, Nat.mod_eq_of_lt (hlt v (by simp))]
    have hnrv : nr ≤ v := (List.chain'_cons.mp hchain).1
    rw [List.length_cons, fanoutLoop]
    rw [hv, if_neg (by omega)]
    rw [u32be_length] at h2
    rw [ih (pos + 4) v h2 (fun x hx => hlt x (by simp [hx]))
      (List.chain'_cons.mp hchain).2]
    rw [List.getLastD_cons]

theorem chain_le_range_map (f : Nat → Nat)
    (hf : ∀ j, f j ≤ f (j + 1)) :
    ∀ (k i : Nat), ((List.range' i k).map f).Chain' (· ≤ ·) := by
  intro k
  induction k with
  | zero => intro i; simp
  | succ k ih =>
    intro i
    rw [List.range'_succ, List.map_cons]
    rw [List.chain'_cons']
    refine ⟨?_, ih (i + 1)⟩
    intro y hy
    cases k with
    | zero => simp at hy
    | succ k =>
      rw [List.range'_succ, List.map_cons] at hy
      simp only [List.head?_cons, Option.mem_def, Option.some.injEq] at hy
      rw [← hy]
      exact hf i

theorem parse_fanout_of_layout (data : Nat → Nat) (pos : Nat)
    (es : List git_multipack_entry)
    (hpos : pos ≠ 0)
    (hsort : es.Pairwise (fun a b => a.sha1.getD 0 0 ≤ b.sha1.getD 0 0))
    (hbytes : ∀ e ∈ es, e.sha1.getD 0 0 < 256)
    (hN : es.length < 2 ^ 32)
    (hmatch : matchesAt data pos (oidfBytes es)) :
    multipack_index_parse_oid_fanout data ⟨pos, 1024⟩ = .ok es.length := by
  rw [multipack_index_parse_oid_fanout]
  rw [if_neg hpos,
    if_neg (show ¬(({ offset := pos, length := 1024 } : Chunk).length = 0)
      from fun hc => absurd (show (1024 : Nat) = 0 from hc) (by omega)),
    if_neg (show ¬(({ offset := pos, length := 1024 } : Chunk).length ≠
      256 * 4) from fun hc => hc rfl)]
  have hgo := fanoutGo_eq 256 es 0 0 hsort
  rw [oidfBytes, hgo] at hmatch
  have hm2 : matchesAt data pos
      (((List.range' 0 256).map (fun j =>
        0 + (es.filter (fun e => e.sha1.getD 0 0 ≤ j)).length)).flatMap
          u32be) := by
    rw [List.flatMap_map]
    exact hmatch
  have hlen : ((List.range' 0 256).map (fun j =>
      0 + (es.filter (fun e => e.sha1.getD 0 0 ≤ j)).length)).length = 256 := by
    rw [List.length_map, List.length_range']
  have hloop := fanoutLoop_ok data _ pos 0 hm2 ?bounds ?chain
  case bounds =>
    intro v hv
    obtain ⟨j, _, hj2⟩ := List.mem_map.mp hv
    have := List.length_filter_le (fun e => decide (e.sha1.getD 0 0 ≤ j)) es
    omega
  case chain =>
    rw [List.chain'_cons']
    constructor
    · intro y _
      exact Nat.zero_le _
    · apply chain_le_range_map
      intro j
      have := length_filter_mono (fun e => decide (e.sha1.getD 0 0 ≤ j))
        (fun e => decide (e.sha1.getD 0 0 ≤ j + 1))
        (fun a ha => by
          simp only [decide_eq_true_eq] at ha ⊢
          omega) es
      omega
  rw [hlen] at hloop
  rw [hloop]
  congr 1
  rw [show (256 : Nat) = 255 + 1 from rfl, List.range'_1_concat,
    List.map_append, List.map_cons, List.map_nil, List.getLastD_concat]
  rw [Nat.zero_add, List.filter_eq_self.mpr]
  intro e he
  have := hbytes e he
  simp only [decide_eq_true_eq]
  omega

end Multipack

namespace Multipack

theorem memcmpB_replicate_zero_lt :
    ∀ (n : Nat) (o : Bytes), o.length = n → o ≠ List.replicate n 0 →
    memcmpB (List.replicate n 0) o < 0 := by
  intro n
  induction n with
  | zero =>
    intro o hl hne
    exact absurd (List.eq_nil_of_length_eq_zero hl) (by simpa using hne)
  | succ n ih =>
    intro o hl hne
    cases o with
    | nil => simp at hl
    | cons b o2 =>
      rw [List.replicate_succ, memcmpB]
      by_cases hb : 0 < b
      · rw [if_pos hb]
        decide
      · rw [if_neg hb, if_neg (by omega)]
        have hb0 : b = 0 := by omega
        apply ih
        · simpa using hl
        · intro hc
          exact hne (by rw [List.replicate_succ, hb0, hc])

theorem oidLookupLoop_layout (data : Nat → Nat) (off : Nat) :
    ∀ (oids : List Bytes) (i : Nat) (prev : Bytes),
    matchesAt data (off + 20 * i) (oids.flatMap id) →
    (∀ o ∈ oids, o.length = 20 ∧ ∀ b ∈ o, b < 256) →
    oids.Chain' (fun a b => memcmpB a b < 0) →
    (∀ hne : oids ≠ [], memcmpB prev (oids.head hne) < 0) →
    oidLookupLoop data off i oids.length prev = .ok () := by
  intro oids
  induction oids with
  | nil => intro i prev _ _ _ _; rfl
  | cons o rest ih =>
    intro i prev hmatch hvalid hchain hprev
    rw [List.flatMap_cons] at hmatch
    obtain ⟨h1, h2⟩ := matchesAt_append.mp hmatch
    obtain ⟨hlen, hbytes⟩ := hvalid o (by simp)
    have hcur : oidAt data off i = o := by
      rw [oidAt]
      exact readBytes_of_matchesAt (by simpa using h1) hbytes hlen.symm
    rw [List.length_cons, oidLookupLoop]
    have hpo : ¬(memcmpB prev o ≥ 0) := by
      have h3 := hprev (by simp)
      simp only [List.head_cons] at h3
      omega
    rw [hcur, if_neg hpo]
    apply ih (i + 1) o ?_ (fun o2 ho2 => hvalid o2 (by simp [ho2]))
      hchain.tail
    · intro hne2
      cases rest with
      | nil => exact absurd rfl hne2
      | cons r rest2 =>
        simpa using (List.chain'_cons.mp hchain).1
    · rw [show (id o : Bytes).length = 20 from hlen] at h2
      rw [show off + 20 * i + 20 = off + 20 * (i + 1) from by ring] at h2
      exact h2

theorem parse_oidl_of_layout (data : Nat → Nat) (pos : Nat)
    (oids : List Bytes)
    (hpos : pos ≠ 0) (hne : oids ≠ [])
    (hvalid : ∀ o ∈ oids, o.length = 20 ∧ ∀ b ∈ o, b < 256)
    (hchain : oids.Chain' (fun a b => memcmpB a b < 0))
    (hzero : ∀ hne2 : oids ≠ [],
      oids.head hne2 ≠ List.replicate 20 0)
    (hlt : oids.length * 20 < 2 ^ 32)
    (hmatch : matchesAt data pos (oids.flatMap id)) :
    multipack_index_parse_oid_lookup data oids.length
      ⟨pos, (oids.flatMap id).length⟩ = .ok () := by
  have hflen : (oids.flatMap id).length = 20 * oids.length :=
    flatMap_fixed_length _ 20 _ (fun o ho => (hvalid o ho).1)
  rw [multipack_index_parse_oid_lookup]
  rw [if_neg hpos]
  rw [if_neg (show ¬((⟨pos, (oids.flatMap id).length⟩ : Chunk).length = 0)
    from ?_)]
  rw [if_neg (show ¬((⟨pos, (oids.flatMap id).length⟩ : Chunk).length ≠
    oids.length * 20 % 2 ^ 32) from ?_)]
  · apply oidLookupLoop_layout data pos oids 0 (List.replicate 20 0)
      (by simpa using hmatch) hvalid hchain
    intro hne2
    exact memcmpB_replicate_zero_lt 20 _ ((hvalid _ (List.head_mem hne2)).1)
      (hzero hne2)
  · intro hc
    rw [show (⟨pos, (oids.flatMap id).length⟩ : Chunk).length =
      (oids.flatMap id).length from rfl, hflen, Nat.mod_eq_of_lt hlt] at hc
    omega
  · intro hc
    rw [show (⟨pos, (oids.flatMap id).length⟩ : Chunk).length =
      (oids.flatMap id).length from rfl, hflen] at hc
    cases oids with
    | nil => exact absurd rfl hne
    | cons o rest => simp at hc

end Multipack

namespace Multipack

theorem chunkTableLoop_step (data : Nat → Nat) (trailer count pos last_off : Nat)
    (last : Option Slot) (cs : ChunkSet) (id off : Nat) (s : Slot)
    (hid : readU32 data pos = id) (hoff : readU64 data (pos + 4) = off)
    (hs : slotOfId id = some s)
    (hge : ¬ off < last_off) (hlt : ¬ trailer ≤ off) :
    chunkTableLoop data trailer (count + 1) pos last_off last cs =
      chunkTableLoop data trailer count (pos + 12) off (some s)
        ((match last with
          | some s2 => cs.setLength s2 (off - last_off)
          | none => cs).setOffset s off) := by
  rw [chunkTableLoop.eq_def]
  dsimp only
  rw [hoff, if_neg hge, if_neg hlt, hid, hs]

theorem chunkTable4 (data : Nat → Nat) (trailer o1 o2 o3 o4 : Nat)
    (hm1 : readU32 data 12 = 0x504e414d) (ho1 : readU64 data 16 = o1)
    (hm2 : readU32 data 24 = 0x4f494446) (ho2 : readU64 data 28 = o2)
    (hm3 : readU32 data 36 = 0x4f49444c) (ho3 : readU64 data 40 = o3)
    (hm4 : readU32 data 48 = 0x4f4f4646) (ho4 : readU64 data 52 = o4)
    (h1 : 72 ≤ o1) (h12 : o1 ≤ o2) (h23 : o2 ≤ o3) (h34 : o3 ≤ o4)
    (h4t : o4 < trailer) :
    chunkTableLoop data trailer 4 12 72 none emptyChunkSet =
      .ok (⟨⟨o1, o2 - o1⟩, ⟨o2, o3 - o2⟩, ⟨o3, o4 - o3⟩, ⟨o4, 0⟩, ⟨0, 0⟩⟩,
        o4, some .ooff) := by
  rw [show (4 : Nat) = 3 + 1 from rfl]
  rw [chunkTableLoop_step data trailer 3 12 72 none emptyChunkSet
    0x504e414d o1 .pnam hm1 (show readU64 data (12 + 4) = o1 from ho1)
    (by decide) (by omega) (by omega)]
  rw [show (3 : Nat) = 2 + 1 from rfl]
  rw [chunkTableLoop_step data trailer 2 (12 + 12) o1 (some .pnam) _
    0x4f494446 o2 .oidf (show readU32 data (12 + 12) = _ from hm2)
    (show readU64 data (12 + 12 + 4) = o2 from ho2)
    (by decide) (by omega) (by omega)]
  rw [show (2 : Nat) = 1 + 1 from rfl]
  rw [chunkTableLoop_step data trailer 1 (12 + 12 + 12) o2 (some .oidf) _
    0x4f49444c o3 .oidl (show readU32 data (12 + 12 + 12) = _ from hm3)
    (show readU64 data (12 + 12 + 12 + 4) = o3 from ho3)
    (by decide) (by omega) (by omega)]
  rw [show (1 : Nat) = 0 + 1 from rfl]
  rw [chunkTableLoop_step data trailer 0 (12 + 12 + 12 + 12) o3 (some .oidl) _
    0x4f4f4646 o4 .ooff (show readU32 data (12 + 12 + 12 + 12) = _ from hm4)
    (show readU64 data (12 + 12 + 12 + 12 + 4) = o4 from ho4)
    (by decide) (by omega) (by omega)]
  rfl

theorem chunkTable5 (data : Nat → Nat) (trailer o1 o2 o3 o4 o5 : Nat)
    (hm1 : readU32 data 12 = 0x504e414d) (ho1 : readU64 data 16 = o1)
    (hm2 : readU32 data 24 = 0x4f494446) (ho2 : readU64 data 28 = o2)
    (hm3 : readU32 data 36 = 0x4f49444c) (ho3 : readU64 data 40 = o3)
    (hm4 : readU32 data 48 = 0x4f4f4646) (ho4 : readU64 data 52 = o4)
    (hm5 : readU32 data 60 = 0x4c4f4646) (ho5 : readU64 data 64 = o5)
    (h1 : 84 ≤ o1) (h12 : o1 ≤ o2) (h23 : o2 ≤ o3) (h34 : o3 ≤ o4)
    (h45 : o4 ≤ o5) (h5t : o5 < trailer) :
    chunkTableLoop data trailer 5 12 84 none emptyChunkSet =
      .ok (⟨⟨o1, o2 - o1⟩, ⟨o2, o3 - o2⟩, ⟨o3, o4 - o3⟩, ⟨o4, o5 - o4⟩,
        ⟨o5, 0⟩⟩, o5, some .loff) := by
  rw [show (5 : Nat) = 4 + 1 from rfl]
  rw [chunkTableLoop_step data trailer 4 12 84 none emptyChunkSet
    0x504e414d o1 .pnam hm1 (show readU64 data (12 + 4) = o1 from ho1)
    (by decide) (by omega) (by omega)]
  rw [show (4 : Nat) = 3 + 1 from rfl]
  rw [chunkTableLoop_step data trailer 3 (12 + 12) o1 (some .pnam) _
    0x4f494446 o2 .oidf (show readU32 data (12 + 12) = _ from hm2)
    (show readU64 data (12 + 12 + 4) = o2 from ho2)
    (by decide) (by omega) (by omega)]
  rw [show (3 : Nat) = 2 + 1 from rfl]
  rw [chunkTableLoop_step data trailer 2 (12 + 12 + 12) o2 (some .oidf) _
    0x4f49444c o3 .oidl (show readU32 data (12 + 12 + 12) = _ from hm3)
    (show readU64 data (12 + 12 + 12 + 4) = o3 from ho3)
    (by decide) (by omega) (by omega)]
  rw [show (2 : Nat) = 1 + 1 from rfl]
  rw [chunkTableLoop_step data trailer 1 (12 + 12 + 12 + 12) o3 (some .oidl) _
    0x4f4f4646 o4 .ooff (show readU32 data (12 + 12 + 12 + 12) = _ from hm4)
    (show readU64 data (12 + 12 + 12 + 12 + 4) = o4 from ho4)
    (by decide) (by omega) (by omega)]
  rw [show (1 : Nat) = 0 + 1 from rfl]
  rw [chunkTableLoop_step data trailer 0 (12 + 12 + 12 + 12 + 12) o4
    (some .ooff) _ 0x4c4f4646 o5 .loff
    (show readU32 data (12 + 12 + 12 + 12 + 12) = _ from hm5)
    (show readU64 data (12 + 12 + 12 + 12 + 12 + 4) = o5 from ho5)
    (by decide) (by omega) (by omega)]
  rfl

end Multipack

namespace Multipack

theorem sortPacks_perm (packs : List git_pack_file) :
    (sortPacks packs).Perm packs := List.perm_insertionSort _ packs

theorem sortPacks_length (packs : List git_pack_file) :
    (sortPacks packs).length = packs.length :=
  (sortPacks_perm packs).length_eq

theorem sortedNames_length (packs : List git_pack_file) :
    (sortedNames packs).length = packs.length := by
  rw [sortedNames, List.length_map, sortPacks_length]

theorem namesFlat_bytes_lt (ns : List Bytes)
    (h : ∀ n ∈ ns, ∀ b ∈ n, b < 256) :
    ∀ b ∈ namesFlat ns, b < 256 := by
  intro b hb
  rw [namesFlat] at hb
  obtain ⟨n, hn, hbn⟩ := List.mem_flatMap.mp hb
  rcases List.mem_append.mp hbn with h2 | h2
  · exact h n hn b h2
  · simp at h2
    omega

theorem pad4_bytes_lt (bs : Bytes) (h : ∀ b ∈ bs, b < 256) :
    ∀ b ∈ pad4 bs, b < 256 := by
  intro b hb
  rcases List.mem_append.mp hb with h2 | h2
  · exact h b h2
  · rw [List.eq_of_mem_replicate h2]
    omega

theorem fanoutGo_bytes_lt : ∀ (k : Nat) (es : List git_multipack_entry)
    (cnt i : Nat), ∀ b ∈ fanoutGo k es cnt i, b < 256 := by
  intro k
  induction k with
  | zero => intro es cnt i b hb; simp [fanoutGo] at hb
  | succ k ih =>
    intro es cnt i b hb
    rw [fanoutGo] at hb
    rcases List.mem_append.mp hb with h2 | h2
    · exact u32be_lt _ b h2
    · exact ih _ _ _ b h2

theorem offsetsGo_fst_bytes_lt : ∀ (es : List git_multipack_entry)
    (lcnt : Nat), ∀ b ∈ (offsetsGo es lcnt).1, b < 256 := by
  intro es
  induction es with
  | nil => intro lcnt b hb; simp [offsetsGo] at hb
  | cons e rest ih =>
    intro lcnt b hb
    rw [offsetsGo] at hb
    by_cases hl : 2 ^ 31 ≤ e.offset
    · rw [if_pos hl] at hb
      dsimp only at hb
      rcases List.mem_append.mp hb with h2 | h2
      · rcases List.mem_append.mp h2 with h3 | h3
        · exact u32be_lt _ b h3
        · exact u32be_lt _ b h3
      · exact ih _ b h2
    · rw [if_neg hl] at hb
      dsimp only at hb
      rcases List.mem_append.mp hb with h2 | h2
      · rcases List.mem_append.mp h2 with h3 | h3
        · exact u32be_lt _ b h3
        · exact u32be_lt _ b h3
      · exact ih _ b h2

theorem offsetsGo_snd_bytes_lt (es : List git_multipack_entry) (lcnt : Nat) :
    ∀ b ∈ (offsetsGo es lcnt).2, b < 256 := by
  intro b hb
  rw [offsetsGo_snd] at hb
  obtain ⟨e, _, hbe⟩ := List.mem_flatMap.mp hb
  exact u64be_lt _ b hbe

theorem chunkHeader_bytes_lt (id off : Nat) :
    ∀ b ∈ chunkHeader id off, b < 256 := by
  intro b hb
  rcases List.mem_append.mp hb with h2 | h2
  · exact u32be_lt _ b h2
  · exact u64be_lt _ b h2

theorem chunkHeader_length (id off : Nat) :
    (chunkHeader id off).length = 12 := by
  rw [chunkHeader, List.length_append, u32be_length, u64be_length]

theorem dumpTable_bytes_lt (packs : List git_pack_file) :
    ∀ b ∈ dumpTable packs, b < 256 := by
  intro b hb
  rw [dumpTable] at hb
  simp only [List.append_assoc, List.mem_append] at hb
  rcases hb with h | h | h | h | h
  · exact chunkHeader_bytes_lt _ _ b h
  · exact chunkHeader_bytes_lt _ _ b h
  · exact chunkHeader_bytes_lt _ _ b h
  · exact chunkHeader_bytes_lt _ _ b h
  · rcases h with h2 | h2
    · by_cases hl : 0 < (dumpLoff packs).length
      · rw [if_pos hl] at h2
        exact chunkHeader_bytes_lt _ _ b h2
      · rw [if_neg hl] at h2
        simp at h2
    · exact chunkHeader_bytes_lt _ _ b h2

theorem dumpHeader_bytes_lt (chunks P : Nat) :
    ∀ b ∈ dumpHeader chunks P, b < 256 := by
  intro b hb
  rcases List.mem_append.mp hb with h2 | h2
  · simp only [List.mem_cons, List.not_mem_nil, or_false] at h2
    rcases h2 with rfl | rfl | rfl | rfl | rfl | rfl | h3 | rfl
    · omega
    · omega
    · omega
    · omega
    · omega
    · omega
    · rw [h3]; exact Nat.mod_lt _ (by omega)
    · omega
  · exact u32be_lt _ b h2

theorem dumpHeader_length (chunks P : Nat) :
    (dumpHeader chunks P).length = 12 := by
  rw [dumpHeader, List.length_append, u32be_length]
  rfl

theorem dumpTable_length (packs : List git_pack_file) :
    (dumpTable packs).length = (dumpChunkCount packs + 1) * 12 := by
  rw [dumpTable, dumpChunkCount]
  by_cases hl : 0 < (dumpLoff packs).length
  · rw [if_pos hl, if_pos hl]
    simp only [List.length_append, chunkHeader_length]
  · rw [if_neg hl, if_neg hl]
    simp only [List.length_append, chunkHeader_length, List.length_nil]

end Multipack

namespace Multipack

theorem idxName_length (p : git_pack_file)
    (hok : packNameOk p.pack_name = true) :
    (idxName p.pack_name).length = p.pack_name.length - 5 + 4 := by
  rw [packNameOk, Bool.and_eq_true, decide_eq_true_eq, decide_eq_true_eq]
    at hok
  rw [idxName, List.length_append, List.length_take]
  rw [show (idxSuffix).length = 4 from rfl]
  omega

theorem idxName_valid (p : git_pack_file)
    (hok : packNameOk p.pack_name = true)
    (hb : ∀ b ∈ p.pack_name, 0 < b ∧ b < 256 ∧ b ≠ 47 ∧ b ≠ 92) :
    4 < (idxName p.pack_name).length ∧
    (∀ b ∈ idxName p.pack_name, 0 < b ∧ b < 256) ∧
    (idxName p.pack_name).drop ((idxName p.pack_name).length - 4) =
      idxSuffix ∧
    47 ∉ idxName p.pack_name ∧ 92 ∉ idxName p.pack_name := by
  have hnl := idxName_length p hok
  rw [packNameOk, Bool.and_eq_true, decide_eq_true_eq, decide_eq_true_eq]
    at hok
  obtain ⟨hlen5, _⟩ := hok
  have htl : (p.pack_name.take (p.pack_name.length - 5)).length =
      p.pack_name.length - 5 := by
    rw [List.length_take]
    omega
  refine ⟨by omega, ?_, ?_, ?_, ?_⟩
  · intro b hbm
    rcases List.mem_append.mp hbm with h2 | h2
    · have := hb b (List.mem_of_mem_take h2)
      omega
    · rw [idxSuffix] at h2
      simp only [List.mem_cons, List.not_mem_nil, or_false] at h2
      rcases h2 with rfl | rfl | rfl | rfl <;> omega
  · rw [idxName]
    rw [show (p.pack_name.take (p.pack_name.length - 5) ++ idxSuffix).length -
        4 = (p.pack_name.take (p.pack_name.length - 5)).length from by
      rw [List.length_append, htl, show (idxSuffix).length = 4 from rfl]
      omega]
    exact List.drop_left _ _
  · intro hmem
    rcases List.mem_append.mp hmem with h2 | h2
    · have := hb 47 (List.mem_of_mem_take h2)
      omega
    · rw [idxSuffix] at h2
      simp at h2
  · intro hmem
    rcases List.mem_append.mp hmem with h2 | h2
    · have := hb 92 (List.mem_of_mem_take h2)
      omega
    · rw [idxSuffix] at h2
      simp at h2

theorem sortedNames_valid (packs : List git_pack_file)
    (hok : ∀ p ∈ sortPacks packs, packNameOk p.pack_name = true)
    (hb : ∀ p ∈ sortPacks packs, ∀ b ∈ p.pack_name,
      0 < b ∧ b < 256 ∧ b ≠ 47 ∧ b ≠ 92) :
    ∀ n ∈ sortedNames packs, 4 < n.length ∧ (∀ b ∈ n, 0 < b ∧ b < 256) ∧
      n.drop (n.length - 4) = idxSuffix ∧ 47 ∉ n ∧ 92 ∉ n := by
  intro n hn
  obtain ⟨p, hp, rfl⟩ := List.mem_map.mp hn
  exact idxName_valid p (hok p hp) (hb p hp)

theorem dumpPre_bytes_lt (packs : List git_pack_file)
    (hnames : ∀ n ∈ sortedNames packs, ∀ b ∈ n, b < 256)
    (hsha : ∀ e ∈ dumpEntries packs, ∀ b ∈ e.sha1, b < 256) :
    ∀ b ∈ dumpPre packs, b < 256 := by
  intro b hb
  rw [dumpPre] at hb
  simp only [List.append_assoc, List.mem_append] at hb
  rcases hb with h | h | h | h | h | h | h
  · exact dumpHeader_bytes_lt _ _ b h
  · exact dumpTable_bytes_lt _ b h
  · exact pad4_bytes_lt _ (namesFlat_bytes_lt _ hnames) b h
  · exact fanoutGo_bytes_lt _ _ _ _ b h
  · obtain ⟨e, he, hbe⟩ := List.mem_flatMap.mp h
    exact hsha e he b hbe
  · exact offsetsGo_fst_bytes_lt _ _ b h
  · exact offsetsGo_snd_bytes_lt _ _ b h

theorem entries_pairwise (packs : List git_pack_file)
    (hchain : (dumpEntries packs).Chain'
      (fun a b => memcmpB a.sha1 b.sha1 < 0)) :
    (dumpEntries packs).Pairwise (fun a b => memcmpB a.sha1 b.sha1 < 0) := by
  haveI : IsTrans git_multipack_entry
      (fun a b => memcmpB a.sha1 b.sha1 < 0) :=
    ⟨fun a b c hab hbc => memcmpB_trans_lt _ _ _ hab hbc⟩
  exact List.chain'_iff_pairwise.mp hchain

theorem entries_byte0_pairwise (packs : List git_pack_file)
    (hchain : (dumpEntries packs).Chain'
      (fun a b => memcmpB a.sha1 b.sha1 < 0)) :
    (dumpEntries packs).Pairwise
      (fun a b => a.sha1.getD 0 0 ≤ b.sha1.getD 0 0) := by
  refine (entries_pairwise packs hchain).imp ?_
  intro a b hab
  exact memcmpB_getD0_le (le_of_lt hab)

theorem dumpPre_length (packs : List git_pack_file) :
    (dumpPre packs).length = 12 + (dumpChunkCount packs + 1) * 12 +
      (dumpNames packs).length + 1024 + (dumpOidl packs).length +
      (dumpOoff packs).length + (dumpLoff packs).length := by
  rw [dumpPre]
  simp only [List.length_append]
  rw [dumpHeader_length, dumpTable_length,
    show (dumpOidf packs).length = 1024 from oidfBytes_length _]

end Multipack

namespace Multipack

theorem dumpChunkCount_46 (packs : List git_pack_file) :
    dumpChunkCount packs = 4 ∨ dumpChunkCount packs = 5 := by
  rw [dumpChunkCount]
  by_cases hL : 0 < (dumpLoff packs).length
  · rw [if_pos hL]; right; rfl
  · rw [if_neg hL]; left; rfl

theorem parse_ooff_ok (N pos len : Nat) (hpos : pos ≠ 0)
    (hlen : len = 8 * N) (hN0 : 0 < N) (h32 : 8 * N < 2 ^ 32) :
    multipack_index_parse_object_offsets N ⟨pos, len⟩ = .ok () := by
  subst hlen
  rw [multipack_index_parse_object_offsets]
  rw [if_neg hpos]
  rw [if_neg (show ¬((⟨pos, 8 * N⟩ : Chunk).length = 0) from by
    intro hc
    rw [show (⟨pos, 8 * N⟩ : Chunk).length = 8 * N from rfl] at hc
    omega)]
  rw [if_neg (show ¬((⟨pos, 8 * N⟩ : Chunk).length ≠ N * 8 % 2 ^ 32) from by
    intro hc
    apply hc
    rw [show (⟨pos, 8 * N⟩ : Chunk).length = 8 * N from rfl,
      Nat.mod_eq_of_lt (by omega)]
    omega)]

theorem parse_loff_ok (pos L : Nat) (hL : 0 < L) :
    multipack_index_parse_object_large_offsets ⟨pos, 8 * L⟩ =
      .ok (pos, L) := by
  rw [multipack_index_parse_object_large_offsets]
  rw [if_neg (show ¬((⟨pos, 8 * L⟩ : Chunk).length = 0) from by
    intro hc
    rw [show (⟨pos, 8 * L⟩ : Chunk).length = 8 * L from rfl] at hc
    omega)]
  rw [if_neg (show ¬((⟨pos, 8 * L⟩ : Chunk).length % 8 ≠ 0) from by
    intro hc
    apply hc
    rw [show (⟨pos, 8 * L⟩ : Chunk).length = 8 * L from rfl]
    omega)]
  rw [show (⟨pos, 8 * L⟩ : Chunk).offset = pos from rfl,
    show (⟨pos, 8 * L⟩ : Chunk).length = 8 * L from rfl,
    Nat.mul_div_cancel_left L (by omega : (0:Nat) < 8)]

theorem parse_dump_ok (hashFn : Bytes → Bytes) (packs : List git_pack_file)
    (hhash : ∀ bs, (hashFn bs).length = 20 ∧ ∀ b ∈ hashFn bs, b < 256)
    (hok : ∀ p ∈ sortPacks packs, packNameOk p.pack_name = true)
    (hnameb : ∀ p ∈ sortPacks packs, ∀ b ∈ p.pack_name,
      0 < b ∧ b < 256 ∧ b ≠ 47 ∧ b ≠ 92)
    (hchainN : (sortedNames packs).Chain' (fun a b => memcmpB a b < 0))
    (hP : packs.length < 2 ^ 32)
    (hEne : dumpEntries packs ≠ [])
    (hEvalid : ∀ e ∈ dumpEntries packs, e.sha1.length = 20 ∧
      (∀ b ∈ e.sha1, b < 256) ∧ e.sha1 ≠ List.replicate 20 0)
    (hEchain : (dumpEntries packs).Chain'
      (fun a b => memcmpB a.sha1 b.sha1 < 0))
    (hN : (dumpEntries packs).length * 20 < 2 ^ 32)
    (hsz : (dumpPre packs).length < 2 ^ 64) :
    git_multipack_index_parse hashFn
      (bytesData (git_multipack_index_writer_dump hashFn packs))
      (git_multipack_index_writer_dump hashFn packs).length =
      .ok (dumpMidx hashFn packs) := by
  have hd := dump_eq hashFn packs hok
  set dataF := bytesData (git_multipack_index_writer_dump hashFn packs)
    with hdataF
  -- lengths of the regions
  have hLoidl : (dumpOidl packs).length = 20 * (dumpEntries packs).length :=
    flatMap_fixed_length _ 20 _ (fun e he => (hEvalid e he).1)
  have hLooff : (dumpOoff packs).length = 8 * (dumpEntries packs).length :=
    offsetsGo_fst_length _ _
  have hLloff : (dumpLoff packs).length =
      8 * largeCount (dumpEntries packs) := offsetsGo_snd_length _ _
  have hNpos : 0 < (dumpEntries packs).length :=
    List.length_pos.mpr hEne
  have hprelen := dumpPre_length packs
  have hcc46 := dumpChunkCount_46 packs
  have hdlen : (git_multipack_index_writer_dump hashFn packs).length =
      (dumpPre packs).length + 20 := by
    rw [hd, List.length_append, (hhash _).1]
  -- byte bound for the whole of dumpPre
  have hball : ∀ b ∈ dumpPre packs, b < 256 :=
    dumpPre_bytes_lt packs
      (fun n hn b hb =>
        ((sortedNames_valid packs hok hnameb n hn).2.1 b hb).2)
      (fun e he b hb => (hEvalid e he).2.1 b hb)
  -- matchesAt decomposition
  have hm0 : matchesAt dataF 0 (git_multipack_index_writer_dump hashFn packs) :=
    matchesAt_bytesData _
  rw [hd] at hm0
  obtain ⟨hmPre0, hmCk⟩ := matchesAt_append.mp hm0
  rw [Nat.zero_add] at hmCk
  have hmPre := hmPre0
  rw [dumpPre] at hmPre
  obtain ⟨hm1, hmLo⟩ := matchesAt_append.mp hmPre
  obtain ⟨hm2, hmO⟩ := matchesAt_append.mp hm1
  obtain ⟨hm3, hmL⟩ := matchesAt_append.mp hm2
  obtain ⟨hm4, hmF⟩ := matchesAt_append.mp hm3
  obtain ⟨hm5, hmN⟩ := matchesAt_append.mp hm4
  obtain ⟨hmH, hmT⟩ := matchesAt_append.mp hm5
  simp only [Nat.zero_add, List.length_append, dumpHeader_length,
    dumpTable_length] at hmT hmN hmF hmL hmO hmLo
  rw [show (12 + (dumpChunkCount packs + 1) * 12 : Nat) = dumpOff0 packs
    from rfl] at hmN hmF hmL hmO hmLo
  rw [show (dumpOidf packs).length = 1024 from oidfBytes_length _]
    at hmL hmO hmLo
  -- header reads
  rw [show dumpHeader (dumpChunkCount packs) packs.length =
    u32be 0x4d494458 ++ ([1, 1, dumpChunkCount packs % 256, 0] ++
      u32be packs.length) from by rw [dumpHeader]; rfl] at hmH
  obtain ⟨hmSig, hmH2⟩ := matchesAt_append.mp hmH
  rw [Nat.zero_add, u32be_length] at hmH2
  obtain ⟨hmVer, hmPk⟩ := matchesAt_append.mp hmH2
  rw [show (4 : Nat) + ([1, 1, dumpChunkCount packs % 256, 0] :
    Bytes).length = 8 from rfl] at hmPk
  have hsig : readU32 dataF 0 = 0x4d494458 := by
    rw [readU32_of_matchesAt hmSig]
    norm_num
  have hb4 : byteAt dataF 4 = 1 := by
    have h2 := byteAt_of_matchesAt hmVer (show (0 : Nat) < 4 from by omega)
    simpa using h2
  have hb5 : byteAt dataF 5 = 1 := by
    have h2 := byteAt_of_matchesAt hmVer (show (1 : Nat) < 4 from by omega)
    simpa using h2
  have hb6 : byteAt dataF 6 = dumpChunkCount packs := by
    have h2 := byteAt_of_matchesAt hmVer (show (2 : Nat) < 4 from by omega)
    rw [show (4 : Nat) + 2 = 6 from rfl] at h2
    rw [h2, show ([1, 1, dumpChunkCount packs % 256, 0] : Bytes).getD 2 0 =
      dumpChunkCount packs % 256 from rfl]
    omega
  have hpk : readU32 dataF 8 = packs.length := by
    rw [readU32_of_matchesAt hmPk, Nat.mod_eq_of_lt hP]
  -- unfold the parser
  rw [git_multipack_index_parse]
  rw [hdlen]
  rw [if_neg (show ¬((dumpPre packs).length + 20 < 12 + 20) from by omega)]
  rw [if_neg (show ¬(readU32 dataF 0 ≠ 0x4d494458 ∨ byteAt dataF 4 ≠ 1 ∨
    byteAt dataF 5 ≠ 1) from by
      rw [hsig, hb4, hb5]
      simp)]
  rw [if_neg (show ¬(byteAt dataF 6 = 0) from by rw [hb6]; omega)]
  dsimp only
  rw [hb6, hpk]
  rw [show (dumpPre packs).length + 20 - 20 = (dumpPre packs).length from by
    omega]
  rw [if_neg (show ¬((dumpPre packs).length <
    12 + (1 + dumpChunkCount packs) * 12) from by omega)]
  have hcs : readBytes dataF (dumpPre packs).length 20 =
      hashFn (dumpPre packs) :=
    readBytes_of_matchesAt hmCk (hhash _).2 ((hhash _).1).symm
  have hcs0 : readBytes dataF 0 (dumpPre packs).length = dumpPre packs :=
    readBytes_of_matchesAt hmPre0 hball rfl
  rw [hcs, hcs0, if_neg (show ¬(hashFn (dumpPre packs) ≠
    hashFn (dumpPre packs)) from by simp)]
  -- shared subparser facts
  have hPne : packs ≠ [] := by
    intro hnil
    apply hEne
    rw [dumpEntries, hnil]
    rfl
  have hoff0pos : 0 < dumpOff0 packs := by
    rw [dumpOff0]
    omega
  have hneNS : sortedNames packs ≠ [] := by
    intro hnil
    have h2 := sortedNames_length packs
    rw [hnil] at h2
    exact hPne (List.eq_nil_of_length_eq_zero h2.symm)
  have hLn : (dumpNames packs).length =
      (namesFlat (sortedNames packs)).length +
      (4 - (namesFlat (sortedNames packs)).length % 4) % 4 := by
    rw [dumpNames, pad4, List.length_append, List.length_replicate]
  rw [dumpNames, pad4] at hmN
  obtain ⟨hmNf, -⟩ := matchesAt_append.mp hmN
  have hnparse := parse_names_of_layout dataF (dumpOff0 packs)
    (sortedNames packs)
    ((4 - (namesFlat (sortedNames packs)).length % 4) % 4)
    (by omega) hneNS hmNf (sortedNames_valid packs hok hnameb) hchainN
  rw [sortedNames_length] at hnparse
  have hbyte0 : ∀ e ∈ dumpEntries packs, e.sha1.getD 0 0 < 256 := by
    intro e he
    have h20 := (hEvalid e he).1
    have hmem : e.sha1.getD 0 0 ∈ e.sha1 := by
      rw [List.getD_eq_getElem _ _ (by omega)]
      exact List.getElem_mem _
    exact (hEvalid e he).2.1 _ hmem
  rw [dumpOidf] at hmF
  have hfan := parse_fanout_of_layout dataF
    (dumpOff0 packs + (dumpNames packs).length) (dumpEntries packs)
    (by omega) (entries_byte0_pairwise packs hEchain) hbyte0 (by omega) hmF
  have hfm : ((dumpEntries packs).map (fun e => e.sha1)).flatMap id =
      dumpOidl packs := by
    rw [List.flatMap_map]
    rfl
  have hzero3 : ∀ hne2 : ((dumpEntries packs).map (fun e => e.sha1)) ≠ [],
      ((dumpEntries packs).map (fun e => e.sha1)).head hne2 ≠
        List.replicate 20 0 := by
    intro hne2
    rw [List.head_map]
    exact (hEvalid _ (List.head_mem _)).2.2
  have hoidl := parse_oidl_of_layout dataF
    (dumpOff0 packs + (dumpNames packs).length + 1024)
    ((dumpEntries packs).map (fun e => e.sha1))
    (by omega)
    (by
      intro hc
      exact hEne (List.map_eq_nil_iff.mp hc))
    (by
      intro o ho
      obtain ⟨e, he, rfl⟩ := List.mem_map.mp ho
      exact ⟨(hEvalid e he).1, (hEvalid e he).2.1⟩)
    ((List.chain'_map _).mpr hEchain)
    hzero3
    (by rw [List.length_map]; omega)
    (by rw [hfm]; exact hmL)
  rw [hfm, List.length_map] at hoidl
  by_cases hL : 0 < (dumpLoff packs).length
  · -- five chunks (LOFF present)
    have hcc : dumpChunkCount packs = 5 := by rw [dumpChunkCount, if_pos hL]
    have hoff0 : dumpOff0 packs = 84 := by rw [dumpOff0, hcc]
    have hLpos : 0 < largeCount (dumpEntries packs) := by omega
    rw [dumpTable, if_pos hL] at hmT
    obtain ⟨t1, hmCT⟩ := matchesAt_append.mp hmT
    obtain ⟨t2, hmC5⟩ := matchesAt_append.mp t1
    obtain ⟨t3, hmC4⟩ := matchesAt_append.mp t2
    obtain ⟨t4, hmC3⟩ := matchesAt_append.mp t3
    obtain ⟨hmC1, hmC2⟩ := matchesAt_append.mp t4
    simp only [List.length_append, chunkHeader_length] at hmC2 hmC3 hmC4 hmC5
    norm_num at hmC2 hmC3 hmC4 hmC5
    rw [chunkHeader] at hmC1 hmC2 hmC3 hmC4 hmC5
    obtain ⟨hmI1, hmO1⟩ := matchesAt_append.mp hmC1
    obtain ⟨hmI2, hmO2⟩ := matchesAt_append.mp hmC2
    obtain ⟨hmI3, hmO3⟩ := matchesAt_append.mp hmC3
    obtain ⟨hmI4, hmO4⟩ := matchesAt_append.mp hmC4
    obtain ⟨hmI5, hmO5⟩ := matchesAt_append.mp hmC5
    rw [u32be_length] at hmO1 hmO2 hmO3 hmO4 hmO5
    norm_num at hmO1 hmO2 hmO3 hmO4 hmO5
    have hid1 : readU32 dataF 12 = 0x504e414d := by
      rw [readU32_of_matchesAt hmI1]
      norm_num
    have hid2 : readU32 dataF 24 = 0x4f494446 := by
      rw [readU32_of_matchesAt hmI2]
      norm_num
    have hid3 : readU32 dataF 36 = 0x4f49444c := by
      rw [readU32_of_matchesAt hmI3]
      norm_num
    have hid4 : readU32 dataF 48 = 0x4f4f4646 := by
      rw [readU32_of_matchesAt hmI4]
      norm_num
    have hid5 : readU32 dataF 60 = 0x4c4f4646 := by
      rw [readU32_of_matchesAt hmI5]
      norm_num
    have ho1r : readU64 dataF 16 = dumpOff0 packs := by
      rw [readU64_of_matchesAt hmO1, Nat.mod_eq_of_lt (by omega)]
    have ho2r : readU64 dataF 28 =
        dumpOff0 packs + (dumpNames packs).length := by
      rw [readU64_of_matchesAt hmO2, Nat.mod_eq_of_lt (by omega)]
    have ho3r : readU64 dataF 40 =
        dumpOff0 packs + (dumpNames packs).length + 1024 := by
      rw [readU64_of_matchesAt hmO3, Nat.mod_eq_of_lt (by omega)]
    have ho4r : readU64 dataF 52 =
        dumpOff0 packs + (dumpNames packs).length + 1024 +
          (dumpOidl packs).length := by
      rw [readU64_of_matchesAt hmO4, Nat.mod_eq_of_lt (by omega)]
    have ho5r : readU64 dataF 64 =
        dumpOff0 packs + (dumpNames packs).length + 1024 +
          (dumpOidl packs).length + (dumpOoff packs).length := by
      rw [readU64_of_matchesAt hmO5, Nat.mod_eq_of_lt (by omega)]
    rw [hcc, show (12 + (1 + 5) * 12 : Nat) = 84 from by norm_num]
    rw [chunkTable5 dataF (dumpPre packs).length (dumpOff0 packs)
      (dumpOff0 packs + (dumpNames packs).length)
      (dumpOff0 packs + (dumpNames packs).length + 1024)
      (dumpOff0 packs + (dumpNames packs).length + 1024 +
        (dumpOidl packs).length)
      (dumpOff0 packs + (dumpNames packs).length + 1024 +
        (dumpOidl packs).length + (dumpOoff packs).length)
      hid1 ho1r hid2 ho2r hid3 ho3r hid4 ho4r hid5 ho5r
      (by omega) (by omega) (by omega) (by omega) (by omega) (by omega)]
    dsimp only [ChunkSet.setLength, ChunkSet.setOffset]
    rw [show (dumpPre packs).length - (dumpOff0 packs +
      (dumpNames packs).length + 1024 + (dumpOidl packs).length +
      (dumpOoff packs).length) = (dumpLoff packs).length from by omega]
    simp only [Nat.add_sub_cancel_left]
    rw [← hLn] at hnparse
    rw [hnparse]
    dsimp only
    rw [hfan]
    dsimp only
    rw [hoidl]
    dsimp only
    rw [parse_ooff_ok (dumpEntries packs).length
      (dumpOff0 packs + (dumpNames packs).length + 1024 +
        (dumpOidl packs).length)
      (dumpOoff packs).length (by omega) (by omega) hNpos (by omega)]
    dsimp only
    rw [show (dumpLoff packs).length = 8 * largeCount (dumpEntries packs)
      from hLloff]
    rw [parse_loff_ok _ _ hLpos]
    dsimp only
    rw [dumpMidx, ← hdataF, hdlen, if_pos hL]
  · -- four chunks (no LOFF)
    have hcc : dumpChunkCount packs = 4 := by rw [dumpChunkCount, if_neg hL]
    have hoff0 : dumpOff0 packs = 72 := by rw [dumpOff0, hcc]
    have hL0 : (dumpLoff packs).length = 0 := by omega
    have hLc0 : largeCount (dumpEntries packs) = 0 := by omega
    rw [dumpTable, if_neg hL] at hmT
    obtain ⟨t1, hmCT⟩ := matchesAt_append.mp hmT
    obtain ⟨t2, hmE⟩ := matchesAt_append.mp t1
    obtain ⟨t3, hmC4⟩ := matchesAt_append.mp t2
    obtain ⟨t4, hmC3⟩ := matchesAt_append.mp t3
    obtain ⟨hmC1, hmC2⟩ := matchesAt_append.mp t4
    simp only [List.length_append, chunkHeader_length, List.length_nil]
      at hmC2 hmC3 hmC4
    norm_num at hmC2 hmC3 hmC4
    rw [chunkHeader] at hmC1 hmC2 hmC3 hmC4
    obtain ⟨hmI1, hmO1⟩ := matchesAt_append.mp hmC1
    obtain ⟨hmI2, hmO2⟩ := matchesAt_append.mp hmC2
    obtain ⟨hmI3, hmO3⟩ := matchesAt_append.mp hmC3
    obtain ⟨hmI4, hmO4⟩ := matchesAt_append.mp hmC4
    rw [u32be_length] at hmO1 hmO2 hmO3 hmO4
    norm_num at hmO1 hmO2 hmO3 hmO4
    have hid1 : readU32 dataF 12 = 0x504e414d := by
      rw [readU32_of_matchesAt hmI1]
      norm_num
    have hid2 : readU32 dataF 24 = 0x4f494446 := by
      rw [readU32_of_matchesAt hmI2]
      norm_num
    have hid3 : readU32 dataF 36 = 0x4f49444c := by
      rw [readU32_of_matchesAt hmI3]
      norm_num
    have hid4 : readU32 dataF 48 = 0x4f4f4646 := by
      rw [readU32_of_matchesAt hmI4]
      norm_num
    have ho1r : readU64 dataF 16 = dumpOff0 packs := by
      rw [readU64_of_matchesAt hmO1, Nat.mod_eq_of_lt (by omega)]
    have ho2r : readU64 dataF 28 =
        dumpOff0 packs + (dumpNames packs).length := by
      rw [readU64_of_matchesAt hmO2, Nat.mod_eq_of_lt (by omega)]
    have ho3r : readU64 dataF 40 =
        dumpOff0 packs + (dumpNames packs).length + 1024 := by
      rw [readU64_of_matchesAt hmO3, Nat.mod_eq_of_lt (by omega)]
    have ho4r : readU64 dataF 52 =
        dumpOff0 packs + (dumpNames packs).length + 1024 +
          (dumpOidl packs).length := by
      rw [readU64_of_matchesAt hmO4, Nat.mod_eq_of_lt (by omega)]
    rw [hcc, show (12 + (1 + 4) * 12 : Nat) = 72 from by norm_num]
    rw [chunkTable4 dataF (dumpPre packs).length (dumpOff0 packs)
      (dumpOff0 packs + (dumpNames packs).length)
      (dumpOff0 packs + (dumpNames packs).length + 1024)
      (dumpOff0 packs + (dumpNames packs).length + 1024 +
        (dumpOidl packs).length)
      hid1 ho1r hid2 ho2r hid3 ho3r hid4 ho4r
      (by omega) (by omega) (by omega) (by omega) (by omega)]
    dsimp only [ChunkSet.setLength, ChunkSet.setOffset]
    rw [show (dumpPre packs).length - (dumpOff0 packs +
      (dumpNames packs).length + 1024 + (dumpOidl packs).length) =
      (dumpOoff packs).length from by omega]
    simp only [Nat.add_sub_cancel_left]
    rw [← hLn] at hnparse
    rw [hnparse]
    dsimp only
    rw [hfan]
    dsimp only
    rw [hoidl]
    dsimp only
    rw [parse_ooff_ok (dumpEntries packs).length
      (dumpOff0 packs + (dumpNames packs).length + 1024 +
        (dumpOidl packs).length)
      (dumpOoff packs).length (by omega) (by omega) hNpos (by omega)]
    dsimp only
    rw [show multipack_index_parse_object_large_offsets ⟨0, 0⟩ =
      .ok (0, 0) from rfl]
    dsimp only
    rw [dumpMidx, ← hdataF, hdlen, if_neg hL, hLc0]

end Multipack

namespace Multipack

theorem dump_matches (hashFn : Bytes → Bytes) (packs : List git_pack_file)
    (hok : ∀ p ∈ sortPacks packs, packNameOk p.pack_name = true) :
    matchesAt (bytesData (git_multipack_index_writer_dump hashFn packs))
      (dumpOff0 packs + (dumpNames packs).length + 1024) (dumpOidl packs) ∧
    matchesAt (bytesData (git_multipack_index_writer_dump hashFn packs))
      (dumpOff0 packs + (dumpNames packs).length + 1024 +
        (dumpOidl packs).length) (dumpOoff packs) ∧
    matchesAt (bytesData (git_multipack_index_writer_dump hashFn packs))
      (dumpOff0 packs + (dumpNames packs).length + 1024 +
        (dumpOidl packs).length + (dumpOoff packs).length)
      (dumpLoff packs) := by
  have hd := dump_eq hashFn packs hok
  set dataF := bytesData (git_multipack_index_writer_dump hashFn packs)
    with hdataF
  have hm0 : matchesAt dataF 0
      (git_multipack_index_writer_dump hashFn packs) := matchesAt_bytesData _
  rw [hd] at hm0
  obtain ⟨hmPre, -⟩ := matchesAt_append.mp hm0
  rw [dumpPre] at hmPre
  obtain ⟨hm1, hmLo⟩ := matchesAt_append.mp hmPre
  obtain ⟨hm2, hmO⟩ := matchesAt_append.mp hm1
  obtain ⟨hm3, hmL⟩ := matchesAt_append.mp hm2
  simp only [Nat.zero_add, List.length_append, dumpHeader_length,
    dumpTable_length] at hmL hmO hmLo
  rw [show (12 + (dumpChunkCount packs + 1) * 12 : Nat) = dumpOff0 packs
    from rfl] at hmL hmO hmLo
  rw [show (dumpOidf packs).length = 1024 from oidfBytes_length _]
    at hmL hmO hmLo
  exact ⟨hmL, hmO, hmLo⟩

theorem matchesAt_flatMap_seg {α : Type} {data : Nat → Nat}
    (f : α → Bytes) (c : Nat) :
    ∀ (l : List α) (pos i : Nat) (hi : i < l.length),
    (∀ a ∈ l, (f a).length = c) →
    matchesAt data pos (l.flatMap f) →
    matchesAt data (pos + c * i) (f (l.get ⟨i, hi⟩)) := by
  intro l
  induction l with
  | nil => intro pos i hi; simp at hi
  | cons x rest ih =>
    intro pos i hi hc hm
    rw [List.flatMap_cons] at hm
    obtain ⟨h1, h2⟩ := matchesAt_append.mp hm
    cases i with
    | zero =>
      rw [Nat.mul_zero, Nat.add_zero]
      exact h1
    | succ i =>
      rw [hc x (by simp)] at h2
      have h3 := ih (pos + c) i (by simp at hi; omega)
        (fun a ha => hc a (by simp [ha])) h2
      rw [show pos + c + c * i = pos + c * (i + 1) from by ring] at h3
      exact h3

theorem largeCount_cons (e : git_multipack_entry)
    (rest : List git_multipack_entry) :
    largeCount (e :: rest) =
      (if 2 ^ 31 ≤ e.offset then 1 else 0) + largeCount rest := by
  rw [largeCount, largeCount]
  by_cases hl : 2 ^ 31 ≤ e.offset
  · rw [List.filter_cons_of_pos (by simpa using hl), if_pos hl,
      List.length_cons]
    omega
  · rw [List.filter_cons_of_neg (by simpa using hl), if_neg hl]
    omega

theorem largeBefore_cons_succ (e : git_multipack_entry)
    (rest : List git_multipack_entry) (i : Nat) :
    largeBefore (e :: rest) (i + 1) =
      (if 2 ^ 31 ≤ e.offset then 1 else 0) + largeBefore rest i := by
  rw [largeBefore, List.take_succ_cons, largeCount_cons]
  rfl

theorem offsetsGo_record {data : Nat → Nat} :
    ∀ (es : List git_multipack_entry) (pos lcnt i : Nat)
      (hi : i < es.length),
    lcnt + largeCount es < 2 ^ 31 →
    matchesAt data pos (offsetsGo es lcnt).1 →
    matchesAt data (pos + 8 * i)
      (u32be (es.get ⟨i, hi⟩).pack_index ++
        u32be (if 2 ^ 31 ≤ (es.get ⟨i, hi⟩).offset
          then 2 ^ 31 + (lcnt + largeBefore es i)
          else (es.get ⟨i, hi⟩).offset % 2 ^ 31)) := by
  intro es
  induction es with
  | nil => intro pos lcnt i hi; simp at hi
  | cons e rest ih =>
    intro pos lcnt i hi hsmall hm
    rw [largeCount_cons] at hsmall
    rw [offsetsGo] at hm
    by_cases hl : 2 ^ 31 ≤ e.offset
    · rw [if_pos hl] at hm
      dsimp only at hm
      rw [if_pos hl] at hsmall
      have hword : (if lcnt % 2 ^ 32 < 2 ^ 31 then 2 ^ 31 + lcnt % 2 ^ 32
          else lcnt % 2 ^ 32) = 2 ^ 31 + lcnt := by
        rw [Nat.mod_eq_of_lt (by omega), if_pos (by omega)]
      rw [hword] at hm
      cases i with
      | zero =>
        obtain ⟨h1, -⟩ := matchesAt_append.mp hm
        rw [Nat.mul_zero, Nat.add_zero]
        show matchesAt data pos (u32be e.pack_index ++
          u32be (if 2 ^ 31 ≤ e.offset then 2 ^ 31 + (lcnt + 0)
            else e.offset % 2 ^ 31))
        rw [if_pos hl, Nat.add_zero]
        exact h1
      | succ i =>
        obtain ⟨-, h2⟩ := matchesAt_append.mp hm
        rw [List.length_append, u32be_length, u32be_length] at h2
        have h3 := ih (pos + (4 + 4)) (lcnt + 1) i (by simp at hi; omega)
          (by omega) h2
        rw [show pos + (4 + 4) + 8 * i = pos + 8 * (i + 1) from by ring]
          at h3
        rw [largeBefore_cons_succ, if_pos hl]
        rw [show lcnt + (1 + largeBefore rest i) =
          lcnt + 1 + largeBefore rest i from by ring]
        exact h3
    · rw [if_neg hl] at hm
      dsimp only at hm
      rw [if_neg hl] at hsmall
      cases i with
      | zero =>
        obtain ⟨h1, -⟩ := matchesAt_append.mp hm
        rw [Nat.mul_zero, Nat.add_zero]
        show matchesAt data pos (u32be e.pack_index ++
          u32be (if 2 ^ 31 ≤ e.offset then 2 ^ 31 + (lcnt + largeBefore
            (e :: rest) 0) else e.offset % 2 ^ 31))
        rw [if_neg hl]
        exact h1
      | succ i =>
        obtain ⟨-, h2⟩ := matchesAt_append.mp hm
        rw [List.length_append, u32be_length, u32be_length] at h2
        have h3 := ih (pos + (4 + 4)) lcnt i (by simp at hi; omega)
          (by omega) h2
        rw [show pos + (4 + 4) + 8 * i = pos + 8 * (i + 1) from by ring]
          at h3
        rw [largeBefore_cons_succ, if_neg hl, Nat.zero_add]
        exact h3

end Multipack

namespace Multipack

theorem vectorUniq_subset : ∀ l : List git_multipack_entry,
    vectorUniq l ⊆ l := by
  intro l
  induction l with
  | nil => simp [vectorUniq]
  | cons e rest ih =>
    cases rest with
    | nil => simp [vectorUniq]
    | cons e2 rest2 =>
      rw [vectorUniq]
      by_cases hc : memcmpB e.sha1 e2.sha1 = 0
      · rw [if_pos hc]
        intro x hx
        exact List.mem_cons_of_mem _ (ih hx)
      · rw [if_neg hc]
        intro x hx
        rcases List.mem_cons.mp hx with rfl | hx2
        · exact List.mem_cons_self _ _
        · exact List.mem_cons_of_mem _ (ih hx2)

theorem sortEntries_perm (es : List git_multipack_entry) :
    (sortEntries es).Perm es := List.perm_insertionSort _ es

theorem dumpEntries_mem_collect (packs : List git_pack_file)
    (e : git_multipack_entry) (he : e ∈ dumpEntries packs) :
    e ∈ collectEntries (sortPacks packs) 0 := by
  rw [dumpEntries] at he
  exact (sortEntries_perm _).subset (vectorUniq_subset _ he)

theorem collectEntries_pack_lt : ∀ (l : List git_pack_file) (i0 : Nat)
    (e : git_multipack_entry), e ∈ collectEntries l i0 →
    i0 ≤ e.pack_index ∧ e.pack_index < i0 + l.length := by
  intro l
  induction l with
  | nil => intro i0 e he; simp [collectEntries] at he
  | cons p rest ih =>
    intro i0 e he
    rw [collectEntries] at he
    rcases List.mem_append.mp he with h2 | h2
    · obtain ⟨x, _, rfl⟩ := List.mem_map.mp h2
      refine ⟨le_refl _, ?_⟩
      show i0 < i0 + (p :: rest).length
      rw [List.length_cons]
      omega
    · have := ih (i0 + 1) e h2
      rw [List.length_cons]
      omega

theorem filter_getD_largeBefore :
    ∀ (es : List git_multipack_entry) (i : Nat), i < es.length →
    2 ^ 31 ≤ (es.getD i ⟨0, 0, []⟩).offset →
    largeBefore es i < largeCount es ∧
    (es.filter (fun e => 2 ^ 31 ≤ e.offset)).getD (largeBefore es i)
      ⟨0, 0, []⟩ = es.getD i ⟨0, 0, []⟩ := by
  intro es
  induction es with
  | nil => intro i hi; simp at hi
  | cons e rest ih =>
    intro i hi hl
    cases i with
    | zero =>
      have hle : 2 ^ 31 ≤ e.offset := by simpa using hl
      have hf : (e :: rest).filter (fun e => 2 ^ 31 ≤ e.offset) =
          e :: rest.filter (fun e => 2 ^ 31 ≤ e.offset) :=
        List.filter_cons_of_pos (by simpa using hle)
      constructor
      · rw [show largeBefore (e :: rest) 0 = 0 from rfl, largeCount_cons,
          if_pos hle]
        omega
      · rw [hf, show largeBefore (e :: rest) 0 = 0 from rfl]
        rfl
    | succ i =>
      have hil : 2 ^ 31 ≤ (rest.getD i ⟨0, 0, []⟩).offset := by
        simpa using hl
      obtain ⟨ihA, ihB⟩ := ih i (by simp at hi; omega) hil
      by_cases hle : 2 ^ 31 ≤ e.offset
      · have hf : (e :: rest).filter (fun e => 2 ^ 31 ≤ e.offset) =
            e :: rest.filter (fun e => 2 ^ 31 ≤ e.offset) :=
          List.filter_cons_of_pos (by simpa using hle)
        constructor
        · rw [largeBefore_cons_succ, if_pos hle, largeCount_cons, if_pos hle]
          omega
        · rw [hf, largeBefore_cons_succ, if_pos hle,
            show 1 + largeBefore rest i = largeBefore rest i + 1 from by
              omega]
          rw [List.getD_cons_succ, List.getD_cons_succ]
          exact ihB
      · have hf : (e :: rest).filter (fun e => 2 ^ 31 ≤ e.offset) =
            rest.filter (fun e => 2 ^ 31 ≤ e.offset) :=
          List.filter_cons_of_neg (by simpa using hle)
        constructor
        · rw [largeBefore_cons_succ, if_neg hle, largeCount_cons, if_neg hle]
          omega
        · rw [hf, largeBefore_cons_succ, if_neg hle, Nat.zero_add]
          rw [List.getD_cons_succ]
          exact ihB

end Multipack

namespace Multipack

theorem dumpMidx_oid (hashFn : Bytes → Bytes) (packs : List git_pack_file)
    (hok : ∀ p ∈ sortPacks packs, packNameOk p.pack_name = true)
    (hsha : ∀ e ∈ dumpEntries packs, e.sha1.length = 20 ∧
      ∀ b ∈ e.sha1, b < 256)
    (i : Nat) (hi : i < (dumpEntries packs).length) :
    midxOidAt (dumpMidx hashFn packs) i =
      ((dumpEntries packs).getD i ⟨0, 0, []⟩).sha1 := by
  have hm := (dump_matches hashFn packs hok).1
  have hseg := matchesAt_flatMap_seg (fun e => e.sha1) 20
    (dumpEntries packs) (dumpOff0 packs + (dumpNames packs).length + 1024)
    i hi (fun e he => (hsha e he).1) hm
  have hgd : (dumpEntries packs).getD i ⟨0, 0, []⟩ =
      (dumpEntries packs).get ⟨i, hi⟩ := by
    rw [List.getD_eq_getElem _ _ hi]
    rfl
  rw [hgd]
  show readBytes (bytesData (git_multipack_index_writer_dump hashFn packs))
    (dumpOff0 packs + (dumpNames packs).length + 1024 + 20 * i) 20 =
    ((dumpEntries packs).get ⟨i, hi⟩).sha1
  exact readBytes_of_matchesAt hseg
    ((hsha _ (List.get_mem _ _ hi)).2)
    ((hsha _ (List.get_mem _ _ hi)).1).symm

theorem dumpMidx_ooff_read (hashFn : Bytes → Bytes)
    (packs : List git_pack_file)
    (hok : ∀ p ∈ sortPacks packs, packNameOk p.pack_name = true)
    (hsmall : largeCount (dumpEntries packs) < 2 ^ 31)
    (i : Nat) (hi : i < (dumpEntries packs).length) :
    midxPackAt (dumpMidx hashFn packs) i =
      ((dumpEntries packs).getD i ⟨0, 0, []⟩).pack_index % 2 ^ 32 ∧
    midxRawOffsetAt (dumpMidx hashFn packs) i =
      (if 2 ^ 31 ≤ ((dumpEntries packs).getD i ⟨0, 0, []⟩).offset
       then 2 ^ 31 + largeBefore (dumpEntries packs) i
       else ((dumpEntries packs).getD i ⟨0, 0, []⟩).offset % 2 ^ 31) := by
  have hm := (dump_matches hashFn packs hok).2.1
  have hrec := offsetsGo_record (dumpEntries packs)
    (dumpOff0 packs + (dumpNames packs).length + 1024 +
      (dumpOidl packs).length) 0 i hi (by omega) hm
  obtain ⟨hp, hw⟩ := matchesAt_append.mp hrec
  rw [u32be_length] at hw
  have hgd : (dumpEntries packs).getD i ⟨0, 0, []⟩ =
      (dumpEntries packs).get ⟨i, hi⟩ := by
    rw [List.getD_eq_getElem _ _ hi]
    rfl
  rw [hgd]
  constructor
  · show readU32 (bytesData (git_multipack_index_writer_dump hashFn packs))
      (dumpOff0 packs + (dumpNames packs).length + 1024 +
        (dumpOidl packs).length + 8 * i) =
      ((dumpEntries packs).get ⟨i, hi⟩).pack_index % 2 ^ 32
    exact readU32_of_matchesAt hp
  · have hb := filter_getD_largeBefore (dumpEntries packs) i hi
    show readU32 (bytesData (git_multipack_index_writer_dump hashFn packs))
      (dumpOff0 packs + (dumpNames packs).length + 1024 +
        (dumpOidl packs).length + 8 * i + 4) = _
    rw [show dumpOff0 packs + (dumpNames packs).length + 1024 +
      (dumpOidl packs).length + 8 * i + 4 =
      dumpOff0 packs + (dumpNames packs).length + 1024 +
      (dumpOidl packs).length + 8 * i + 4 from rfl]
    have hr := readU32_of_matchesAt hw
    by_cases hl : 2 ^ 31 ≤ ((dumpEntries packs).get ⟨i, hi⟩).offset
    · have hlb := (hb (by rw [hgd]; exact hl)).1
      rw [if_pos hl] at hr ⊢
      rw [hr, Nat.zero_add, Nat.mod_eq_of_lt (by omega)]
    · rw [if_neg hl] at hr ⊢
      rw [hr, Nat.mod_eq_of_lt (by omega)]

theorem dumpMidx_offset (hashFn : Bytes → Bytes) (packs : List git_pack_file)
    (hok : ∀ p ∈ sortPacks packs, packNameOk p.pack_name = true)
    (hsmall : largeCount (dumpEntries packs) < 2 ^ 31)
    (hofflt : ∀ e ∈ dumpEntries packs, e.offset < 2 ^ 63)
    (i : Nat) (hi : i < (dumpEntries packs).length) :
    midxOffsetAt (dumpMidx hashFn packs) i =
      ((dumpEntries packs).getD i ⟨0, 0, []⟩).offset := by
  obtain ⟨-, hraw⟩ := dumpMidx_ooff_read hashFn packs hok hsmall i hi
  rw [midxOffsetAt, hraw]
  by_cases hl : 2 ^ 31 ≤ ((dumpEntries packs).getD i ⟨0, 0, []⟩).offset
  · obtain ⟨hlb, hfg⟩ := filter_getD_largeBefore (dumpEntries packs) i hi hl
    have hlb2 : largeBefore (dumpEntries packs) i <
        ((dumpEntries packs).filter (fun e => 2 ^ 31 ≤ e.offset)).length := hlb
    rw [if_pos hl]
    rw [if_pos (show 2 ^ 31 ≤ 2 ^ 31 + largeBefore (dumpEntries packs) i
      from by omega)]
    rw [show (2 ^ 31 + largeBefore (dumpEntries packs) i) % 2 ^ 31 =
      largeBefore (dumpEntries packs) i from by omega]
    have hLlen : (dumpLoff packs).length =
        8 * largeCount (dumpEntries packs) := offsetsGo_snd_length _ _
    have hLpos : 0 < (dumpLoff packs).length := by omega
    have hfield : (dumpMidx hashFn packs).object_large_offsets =
        dumpOff0 packs + (dumpNames packs).length + 1024 +
        (dumpOidl packs).length + (dumpOoff packs).length := by
      show (if 0 < (dumpLoff packs).length then _ else 0) = _
      rw [if_pos hLpos]
    rw [hfield]
    have hmLo := (dump_matches hashFn packs hok).2.2
    have hmLo2 : matchesAt
        (bytesData (git_multipack_index_writer_dump hashFn packs))
        (dumpOff0 packs + (dumpNames packs).length + 1024 +
          (dumpOidl packs).length + (dumpOoff packs).length)
        (((dumpEntries packs).filter
          (fun e => 2 ^ 31 ≤ e.offset)).flatMap
            (fun e => u64be e.offset)) := by
      have h2 := hmLo
      rw [show dumpLoff packs = (offsetsGo (dumpEntries packs) 0).2 from rfl,
        offsetsGo_snd] at h2
      exact h2
    have hseg := matchesAt_flatMap_seg (fun e => u64be e.offset) 8
      ((dumpEntries packs).filter (fun e => 2 ^ 31 ≤ e.offset))
      (dumpOff0 packs + (dumpNames packs).length + 1024 +
        (dumpOidl packs).length + (dumpOoff packs).length)
      (largeBefore (dumpEntries packs) i) hlb2
      (fun a _ => u64be_length _) hmLo2
    have h64 := readU64_of_matchesAt hseg
    show readU64 (bytesData (git_multipack_index_writer_dump hashFn packs))
      (dumpOff0 packs + (dumpNames packs).length + 1024 +
        (dumpOidl packs).length + (dumpOoff packs).length +
        8 * largeBefore (dumpEntries packs) i) = _
    rw [h64]
    have hgf : (((dumpEntries packs).filter
        (fun e => 2 ^ 31 ≤ e.offset)).get
          ⟨largeBefore (dumpEntries packs) i, hlb2⟩) =
        (dumpEntries packs).getD i ⟨0, 0, []⟩ := by
      rw [← hfg, List.getD_eq_getElem _ _ hlb2]
      rfl
    rw [hgf]
    have hmem : (dumpEntries packs).getD i ⟨0, 0, []⟩ ∈ dumpEntries packs := by
      rw [List.getD_eq_getElem _ _ hi]
      exact List.getElem_mem _
    exact Nat.mod_eq_of_lt (by have := hofflt _ hmem; omega)
  · rw [if_neg hl]
    rw [if_neg (show ¬(2 ^ 31 ≤ ((dumpEntries packs).getD i
      ⟨0, 0, []⟩).offset % 2 ^ 31) from by
        have := Nat.mod_lt ((dumpEntries packs).getD i ⟨0, 0, []⟩).offset
          (show 0 < 2 ^ 31 from by omega)
        omega)]
    rw [Nat.mod_eq_of_lt (by omega)]

/-- `git_vector_sort(&w->packs)` yields a list that is sorted under the
`strcmp` order on pack names. -/
theorem sortPacks_sorted (packs : List git_pack_file) :
    (sortPacks packs).Pairwise
      (fun a b => memcmpB a.pack_name b.pack_name ≤ 0) := by
  haveI : IsTotal git_pack_file
      (fun a b => memcmpB a.pack_name b.pack_name ≤ 0) := by
    constructor
    intro a b
    show memcmpB a.pack_name b.pack_name ≤ 0 ∨
      memcmpB b.pack_name a.pack_name ≤ 0
    have h := memcmpB_swap a.pack_name b.pack_name
    omega
  haveI : IsTrans git_pack_file
      (fun a b => memcmpB a.pack_name b.pack_name ≤ 0) := by
    constructor
    intro a b c h1 h2
    exact memcmpB_le_trans h1 h2
  exact List.sorted_insertionSort _ packs

/-- Two name-sorted pack lists that are permutations of each other are
equal, provided no two distinct packs share a name. -/
theorem sorted_perm_eq_packs : ∀ l1 l2 : List git_pack_file,
    l1.Perm l2 →
    l1.Pairwise (fun a b => memcmpB a.pack_name b.pack_name ≤ 0) →
    l2.Pairwise (fun a b => memcmpB a.pack_name b.pack_name ≤ 0) →
    (∀ a ∈ l1, ∀ b ∈ l1, a.pack_name = b.pack_name → a = b) →
    l1 = l2 := by
  intro l1
  induction l1 with
  | nil =>
    intro l2 hp _ _ _
    exact hp.nil_eq
  | cons a t1 ih =>
    intro l2 hp hs1 hs2 hinj
    cases l2 with
    | nil => exact absurd hp.length_eq (by simp)
    | cons b t2 =>
      have hab : a = b := by
        by_cases h : a = b
        · exact h
        · have hbmem : b ∈ a :: t1 := hp.symm.subset (List.mem_cons_self b t2)
          have hamem : a ∈ b :: t2 := hp.subset (List.mem_cons_self a t1)
          have hbt1 : b ∈ t1 := by
            rcases List.mem_cons.mp hbmem with h1 | h1
            · exact absurd h1.symm h
            · exact h1
          have hat2 : a ∈ t2 := by
            rcases List.mem_cons.mp hamem with h1 | h1
            · exact absurd h1 h
            · exact h1
          have h1 : memcmpB a.pack_name b.pack_name ≤ 0 :=
            (List.pairwise_cons.mp hs1).1 b hbt1
          have h2 : memcmpB b.pack_name a.pack_name ≤ 0 :=
            (List.pairwise_cons.mp hs2).1 a hat2
          have h0 : memcmpB a.pack_name b.pack_name = 0 := by
            have hsw := memcmpB_swap a.pack_name b.pack_name
            omega
          exact hinj a (List.mem_cons_self a t1) b hbmem
            (memcmpB_eq_zero_iff.mp h0)
      subst hab
      have hpt : t1.Perm t2 := (List.perm_cons a).mp hp
      have hrec := ih t2 hpt (List.pairwise_cons.mp hs1).2
        (List.pairwise_cons.mp hs2).2
        (fun x hx y hy =>
          hinj x (List.mem_cons_of_mem a hx) y (List.mem_cons_of_mem a hy))
      rw [hrec]

/-- When the derived `".idx"` names of the sorted packs are strictly
increasing, no two distinct input packs share a pack name. -/
theorem packName_inj_of_chain (packs : List git_pack_file)
    (hchainN : (sortedNames packs).Chain' (fun a b => memcmpB a b < 0)) :
    ∀ a ∈ packs, ∀ b ∈ packs, a.pack_name = b.pack_name → a = b := by
  haveI : IsTrans Bytes (fun a b => memcmpB a b < 0) := by
    constructor
    intro a b c h1 h2
    exact memcmpB_trans_lt a b c h1 h2
  have hpw : (sortedNames packs).Pairwise (fun a b => memcmpB a b < 0) :=
    List.chain'_iff_pairwise.mp hchainN
  rw [sortedNames] at hpw
  have hpw2 := List.pairwise_map.mp hpw
  have hne : (sortPacks packs).Pairwise
      (fun a b => a.pack_name ≠ b.pack_name) := by
    refine hpw2.imp ?_
    intro a b hlt heq
    rw [show idxName a.pack_name = idxName b.pack_name from by rw [heq]]
      at hlt
    rw [memcmpB_self] at hlt
    exact absurd hlt (by omega)
  have hnd : ((sortPacks packs).map (fun p => p.pack_name)).Nodup :=
    List.pairwise_map.mpr hne
  intro a ha b hb heq
  exact List.inj_on_of_nodup_map hnd
    ((sortPacks_perm packs).symm.subset ha)
    ((sortPacks_perm packs).symm.subset hb) heq

/-- With pairwise distinct pack names, sorting is independent of the
input order. -/
theorem sortPacks_eq_of_perm (packs packs2 : List git_pack_file)
    (hinj : ∀ a ∈ packs, ∀ b ∈ packs, a.pack_name = b.pack_name → a = b)
    (hperm : packs2.Perm packs) :
    sortPacks packs2 = sortPacks packs := by
  apply sorted_perm_eq_packs
  · exact (sortPacks_perm packs2).trans (hperm.trans (sortPacks_perm packs).symm)
  · exact sortPacks_sorted packs2
  · exact sortPacks_sorted packs
  · intro a ha b hb
    exact hinj a (hperm.subset ((sortPacks_perm packs2).subset ha))
      b (hperm.subset ((sortPacks_perm packs2).subset hb))

/-- The dump depends on the input packs only through their sorted order
and their number, so with strictly increasing derived names it is
invariant under reordering the inputs. -/
theorem dump_perm_invariant (hashFn : Bytes → Bytes)
    (packs packs2 : List git_pack_file)
    (hchainN : (sortedNames packs).Chain' (fun a b => memcmpB a b < 0))
    (hperm : packs2.Perm packs) :
    git_multipack_index_writer_dump hashFn packs2 =
      git_multipack_index_writer_dump hashFn packs := by
  have hinj := packName_inj_of_chain packs hchainN
  have hsp : sortPacks packs2 = sortPacks packs :=
    sortPacks_eq_of_perm packs packs2 hinj hperm
  have hlen : packs2.length = packs.length := hperm.length_eq
  rw [git_multipack_index_writer_dump, git_multipack_index_writer_dump,
    hsp, hlen]

/-- C1 (amended): for valid input packs — every pack name ends in
`".pack"`, its bytes are non-NUL separator-free bytes, the derived
`".idx"` names of the sorted packs are strictly increasing, the sorted
deduplicated entries have distinct well-formed non-zero 20-byte ids and
offsets below `2^63`, and the usual size bounds hold — parsing the
writer's dump succeeds and yields a MIDX whose entry `i` decodes to
exactly the `i`-th sorted deduplicated entry (id, pack index in sorted
pack order, offset), and the dump is independent of the order in which
the packs were added. -/
theorem C1_writer_parse_roundtrip (hashFn : Bytes → Bytes)
    (packs : List git_pack_file)
    (hhash : ∀ bs, (hashFn bs).length = 20 ∧ ∀ b ∈ hashFn bs, b < 256)
    (hok : ∀ p ∈ sortPacks packs, packNameOk p.pack_name = true)
    (hnameb : ∀ p ∈ sortPacks packs, ∀ b ∈ p.pack_name,
      0 < b ∧ b < 256 ∧ b ≠ 47 ∧ b ≠ 92)
    (hchainN : (sortedNames packs).Chain' (fun a b => memcmpB a b < 0))
    (hP : packs.length < 2 ^ 32)
    (hEne : dumpEntries packs ≠ [])
    (hEvalid : ∀ e ∈ dumpEntries packs, e.sha1.length = 20 ∧
      (∀ b ∈ e.sha1, b < 256) ∧ e.sha1 ≠ List.replicate 20 0)
    (hEchain : (dumpEntries packs).Chain'
      (fun a b => memcmpB a.sha1 b.sha1 < 0))
    (hEoff : ∀ e ∈ dumpEntries packs, e.offset < 2 ^ 63)
    (hN : (dumpEntries packs).length * 20 < 2 ^ 32)
    (hsz : (dumpPre packs).length < 2 ^ 64) :
    git_multipack_index_parse hashFn
        (bytesData (git_multipack_index_writer_dump hashFn packs))
        (git_multipack_index_writer_dump hashFn packs).length =
      .ok (dumpMidx hashFn packs) ∧
    (dumpMidx hashFn packs).num_objects = (dumpEntries packs).length ∧
    (dumpMidx hashFn packs).packfile_names = sortedNames packs ∧
    (∀ i, i < (dumpEntries packs).length →
      midxOidAt (dumpMidx hashFn packs) i =
        ((dumpEntries packs).getD i ⟨0, 0, []⟩).sha1 ∧
      midxPackAt (dumpMidx hashFn packs) i =
        ((dumpEntries packs).getD i ⟨0, 0, []⟩).pack_index ∧
      midxOffsetAt (dumpMidx hashFn packs) i =
        ((dumpEntries packs).getD i ⟨0, 0, []⟩).offset) ∧
    (∀ packs2 : List git_pack_file, packs2.Perm packs →
      git_multipack_index_writer_dump hashFn packs2 =
        git_multipack_index_writer_dump hashFn packs) := by
  have hparse := parse_dump_ok hashFn packs hhash hok hnameb hchainN hP hEne
    hEvalid hEchain hN hsz
  have hsmall : largeCount (dumpEntries packs) < 2 ^ 31 := by
    have h1 : largeCount (dumpEntries packs) ≤ (dumpEntries packs).length :=
      List.length_filter_le _ _
    omega
  refine ⟨hparse, rfl, rfl, ?_, ?_⟩
  · intro i hi
    refine ⟨dumpMidx_oid hashFn packs hok
      (fun e he => ⟨(hEvalid e he).1, (hEvalid e he).2.1⟩) i hi, ?_,
      dumpMidx_offset hashFn packs hok hsmall hEoff i hi⟩
    have h2 := (dumpMidx_ooff_read hashFn packs hok hsmall i hi).1
    rw [h2]
    have hmem : (dumpEntries packs).getD i ⟨0, 0, []⟩ ∈ dumpEntries packs := by
      rw [List.getD_eq_getElem _ _ hi]
      exact List.getElem_mem _
    have hlt := (collectEntries_pack_lt (sortPacks packs) 0 _
      (dumpEntries_mem_collect packs _ hmem)).2
    rw [sortPacks_length] at hlt
    exact Nat.mod_eq_of_lt (by omega)
  · intro packs2 hperm
    exact dump_perm_invariant hashFn packs packs2 hchainN hperm

set_option maxRecDepth 200000 in
/-- Witness for C1: the single valid pack `"a.pack"` satisfies every
hypothesis, and its dump round-trips. -/
theorem C1_writer_parse_roundtrip_witness :
    git_multipack_index_parse hashC
        (bytesData (git_multipack_index_writer_dump hashC [packGoodC9]))
        (git_multipack_index_writer_dump hashC [packGoodC9]).length =
      .ok (dumpMidx hashC [packGoodC9]) ∧
    (dumpMidx hashC [packGoodC9]).num_objects =
      (dumpEntries [packGoodC9]).length ∧
    (dumpMidx hashC [packGoodC9]).packfile_names = sortedNames [packGoodC9] ∧
    (∀ i, i < (dumpEntries [packGoodC9]).length →
      midxOidAt (dumpMidx hashC [packGoodC9]) i =
        ((dumpEntries [packGoodC9]).getD i ⟨0, 0, []⟩).sha1 ∧
      midxPackAt (dumpMidx hashC [packGoodC9]) i =
        ((dumpEntries [packGoodC9]).getD i ⟨0, 0, []⟩).pack_index ∧
      midxOffsetAt (dumpMidx hashC [packGoodC9]) i =
        ((dumpEntries [packGoodC9]).getD i ⟨0, 0, []⟩).offset) ∧
    (∀ packs2 : List git_pack_file, packs2.Perm [packGoodC9] →
      git_multipack_index_writer_dump hashC packs2 =
        git_multipack_index_writer_dump hashC [packGoodC9]) :=
  C1_writer_parse_roundtrip hashC [packGoodC9]
    (fun _ => ⟨rfl, fun b hb => by simp [hashC] at hb; omega⟩)
    (by decide) (by decide) (by exact List.Chain.nil) (by decide) (by decide)
    (by decide) (by exact List.Chain.nil) (by decide) (by decide) (by decide)

set_option maxRecDepth 200000 in
/-- C1 counterexample: two valid packs named `"x.p.pack"` and `"x.pack"`
(well-formed names and entries) for which parsing the dump FAILS: the
writer orders packs by pack name, under which `"x.p.pack"` comes first,
but the `".pack"` → `".idx"` rename reverses the order of the derived
names (`"x.p.idx"` follows `"x.idx"`), so the parser rejects the PNAM
chunk with "packfile names are not sorted" and no round-trip exists. -/
theorem C1_parse_dump_reorder_fails :
    packNameOk packXP.pack_name = true ∧
    packNameOk packX.pack_name = true ∧
    (∀ b ∈ packXP.pack_name, 0 < b ∧ b < 256 ∧ b ≠ 47 ∧ b ≠ 92) ∧
    (∀ b ∈ packX.pack_name, 0 < b ∧ b < 256 ∧ b ≠ 47 ∧ b ≠ 92) ∧
    memcmpB packXP.pack_name packX.pack_name < 0 ∧
    0 < memcmpB (idxName packXP.pack_name) (idxName packX.pack_name) ∧
    parseOk hashC
      (bytesData (git_multipack_index_writer_dump hashC [packXP, packX]))
      (git_multipack_index_writer_dump hashC [packXP, packX]).length =
      false ∧
    parseErrorMsg hashC
      (bytesData (git_multipack_index_writer_dump hashC [packXP, packX]))
      (git_multipack_index_writer_dump hashC [packXP, packX]).length =
      "packfile names are not sorted" := by
  decide

end Multipack
